import Mathlib

/-! DX-cluster spot overlay (`receiver/spider/spider.js`).

A shallow embedding of the overlay plugin: the spot store (`handleSpot`,
`pruneSpots`), the mode classifier (`classifyMode`), the label placement of
`render`, and the websocket client (`connectWs`, `scheduleReconnect`, the
socket handlers).

Conventions of the embedding.
* JavaScript strings are `String`; all string computations go through the
  list of characters.
* Epoch seconds, list lengths and `max_age_sec` / `max_spots` are `Int`
  (integers in the range where double arithmetic is exact).
* Pixel coordinates, opacities and the reconnect delay are rationals.
* A spot frequency is a `JsNum`, which keeps `NaN` and the infinities.
* Built-ins whose result the plugin only passes on (`toUpperCase`, the
  decimal rendering of a non-integer number) are fields of `Engine`.
-/

namespace Spider

/-! ## JavaScript values -/

/-- A JavaScript number: `NaN`, an infinity, or a finite value. -/
inductive JsNum where
  | nan
  | posInf
  | negInf
  | fin (q : ℚ)
  deriving DecidableEq

/-- A decoded message (the result of `JSON.parse`), or `undefined`. An object
is the list of its own properties; a property is read at its first entry. -/
inductive JsVal where
  | undefined
  | null
  | bool (b : Bool)
  | num (x : JsNum)
  | str (s : String)
  | arr (items : List JsVal)
  | obj (fields : List (String × JsVal))

/-- Built-ins of the JavaScript engine that the model leaves open. -/
structure Engine where
  /-- `String.prototype.toUpperCase`. -/
  toUpperCase : String → String
  /-- `Number::toString` of a finite number that is not a safe integer. -/
  numberToString : ℚ → String

/-- ASCII upper-casing: `a`..`z` become `A`..`Z`. -/
def asciiUpper (s : String) : String := ⟨s.data.map Char.toUpper⟩

/-- An engine for concrete runs only: its `toUpperCase` is the ASCII one and
its `numberToString` a placeholder. The concrete runs give it ASCII strings and
safe integers, on which it agrees with every JavaScript engine. -/
def asciiEngine : Engine := ⟨asciiUpper, fun _ => "0.5"⟩

/-- Conversion `ToBoolean`: the falsy values are `undefined`, `null`, `false`,
`0`, `NaN` and the empty string. -/
def JsVal.truthy : JsVal → Bool
  | .undefined => false
  | .null => false
  | .bool b => b
  | .num .nan => false
  | .num (.fin q) => decide (q ≠ 0)
  | .num _ => true
  | .str s => decide (s ≠ "")
  | .arr _ => true
  | .obj _ => true

/-- Test `typeof v === 'object'` (true of `null`, arrays and objects). -/
def JsVal.isObjectType : JsVal → Bool
  | .null => true
  | .arr _ => true
  | .obj _ => true
  | _ => false

/-- Property access `v.key` for one of the names the plugin reads (`freq`,
`call`, `mode`, `comment`, `spotter`, `band`, `time`): an own property of an
object, `undefined` otherwise (no prototype defines these names). -/
def JsVal.get (v : JsVal) (key : String) : JsVal :=
  match v with
  | .obj fields =>
      match fields.find? (fun p => p.1 == key) with
      | some p => p.2
      | none => .undefined
  | _ => .undefined

/-- Decimal digits of a natural number, as `Number::toString` prints them. -/
def natDigits (n : Nat) : List Char := (Nat.toDigits 10 n)

/-- The primitive `Number::toString`: exact on safe integers, the engine's
rendering elsewhere. -/
def numberToString (E : Engine) : JsNum → String
  | .nan => "NaN"
  | .posInf => "Infinity"
  | .negInf => "-Infinity"
  | .fin q =>
      if q.den = 1 ∧ q.num.natAbs ≤ 2 ^ 53 then
        if q.num < 0 then ⟨'-' :: natDigits q.num.natAbs⟩ else ⟨natDigits q.num.natAbs⟩
      else E.numberToString q

mutual
/-- The conversion `String(v)`; `none` is a thrown `TypeError` (an object whose
own `toString` property is not callable). -/
def toStr (E : Engine) : JsVal → Option String
  | .undefined => some "undefined"
  | .null => some "null"
  | .bool b => some (if b then "true" else "false")
  | .num x => some (numberToString E x)
  | .str s => some s
  | .arr items => joinStr E items
  | .obj fields =>
      if fields.any (fun p => p.1 == "toString") then none else some "[object Object]"
termination_by structural v => v
/-- The body of `Array.prototype.join(',')`: `undefined` and `null` elements
print as the empty string. -/
def joinStr (E : Engine) : List JsVal → Option String
  | [] => some ""
  | v :: rest =>
      let head : Option String :=
        match v with
        | .undefined => some ""
        | .null => some ""
        | w => toStr E w
      match rest with
      | [] => head
      | _ :: _ =>
          match head, joinStr E rest with
          | some a, some b => some (a ++ "," ++ b)
          | _, _ => none
termination_by structural l => l
end

/-- Characters that `parseInt` skips at the start (`StrWhiteSpaceChar`). -/
def isStrWhiteSpace (c : Char) : Bool :=
  [0x09, 0x0A, 0x0B, 0x0C, 0x0D, 0x20, 0xA0, 0x1680, 0x2000, 0x2001, 0x2002, 0x2003,
   0x2004, 0x2005, 0x2006, 0x2007, 0x2008, 0x2009, 0x200A, 0x2028, 0x2029, 0x202F,
   0x205F, 0x3000, 0xFEFF].contains c.toNat

/-- Value of a run of decimal digits, read left to right. -/
def digitsValue (ds : List Char) : Nat :=
  ds.foldl (fun acc c => 10 * acc + (c.toNat - '0'.toNat)) 0

/-- The function `parseInt(text, 10)` on a string: leading white space, an
optional sign, then the longest run of decimal digits; `none` is `NaN`. The
value is the exact integer: it is the number `parseInt` returns when its
absolute value is at most 2^53, beyond which `parseInt` rounds to a double. -/
def parseIntStr (text : String) : Option Int :=
  let body := text.data.dropWhile isStrWhiteSpace
  let (neg, rest) :=
    match body with
    | '-' :: r => (true, r)
    | '+' :: r => (false, r)
    | r => (false, r)
  let ds := rest.takeWhile Char.isDigit
  if ds = [] then none
  else some (if neg then -(digitsValue ds : Int) else (digitsValue ds : Int))

/-- The function `Math.round`: nearest integer, ties towards `+∞`. -/
def mathRound : JsNum → JsNum
  | .fin q => .fin (⌊q + 1 / 2⌋ : Int)
  | x => x

/-! ## Data model -/

/-- A normalized spot, the object `handleSpot` pushes on `state.spots`. -/
structure Spot where
  freq : JsNum
  call : String
  mode : String
  comment : String
  spotter : String
  band : String
  time : Int
  deriving DecidableEq

/-- The configuration object `state.cfg` after `loadConfig`. `ws_urls` is
`none` when the stored value is not an array. -/
structure Cfg where
  ws_url : String
  ws_urls : Option (List String)
  max_age_sec : Int
  modes : List String
  enabled : Bool
  max_spots : Int
  deriving DecidableEq

/-- The value `WebSocket.readyState`. -/
inductive ReadyState where
  | connecting
  | isOpen
  | closing
  | closed
  deriving DecidableEq

/-- A `WebSocket` object created by `connectWs`, with the variables its
handlers close over: `opened` and `urls`. `attached` says whether the four
handlers are still set (`closeWs` sets them to `null`). -/
structure Socket where
  url : String
  readyState : ReadyState
  opened : Bool
  urls : List String
  attached : Bool
  deriving DecidableEq

/-- The object `window.location`, as far as the plugin reads it. -/
structure Location where
  protocol : String
  host : String
  deriving DecidableEq

/-- The plugin's `state` object together with the page objects it acts on:
the sockets it has created (`ws` is an index into `sockets`), the delays of
the pending `setTimeout` reconnect timers, and `window.location`. Canvas
geometry is an input of `render`. -/
structure State where
  cfg : Cfg
  spots : List Spot
  ws : Option Nat
  wsUrls : Option (List String)
  wsUrlIndex : Nat
  wsBackoff : ℚ
  running : Bool
  renderPending : Bool
  serverEnabled : Option Bool
  enabled : Bool
  sockets : List Socket
  timers : List ℚ
  location : Location
  deriving DecidableEq

/-! ## The spot store -/

/-- Source `pruneSpots(now)`: drop every spot older than `max_age_sec`. -/
def pruneSpots (now : Int) (s : State) : State :=
  let maxAge := s.cfg.max_age_sec
  if s.spots.length = 0 then s
  else { s with spots := s.spots.filter (fun sp => decide (now - sp.time ≤ maxAge)) }

/-- Source `scheduleRender()`: request one animation frame unless one is
already pending. -/
def scheduleRender (s : State) : State :=
  if s.renderPending then s else { s with renderPending := true }

/-- The expression `String(v || '')` of `handleSpot`. -/
def stringOrEmpty (E : Engine) (v : JsVal) : Option String :=
  if v.truthy then toStr E v else some ""

/-- The expression `parseInt(v, 10) || now` of `handleSpot`; `none` when the
conversion of `v` to a string throws. Exact where `parseIntStr` is: when the
text of `v` parses within the safe integers. -/
def timeOrNow (E : Engine) (now : Int) (v : JsVal) : Option Int :=
  match toStr E v with
  | none => none
  | some text =>
      match parseIntStr text with
      | none => some now
      | some t => some (if t = 0 then now else t)

/-- The object literal `normalized` of `handleSpot`, for a payload that passed
both guards and whose `freq` is the number `f`; `none` when building it
throws. `now` is `Math.floor(Date.now() / 1000)`. -/
def normalize (E : Engine) (now : Int) (spot : JsVal) (f : JsNum) : Option Spot :=
  match stringOrEmpty E (spot.get "call"), stringOrEmpty E (spot.get "mode"),
        stringOrEmpty E (spot.get "comment"), stringOrEmpty E (spot.get "spotter"),
        stringOrEmpty E (spot.get "band"), timeOrNow E now (spot.get "time") with
  | some call, some mode, some comment, some spotter, some band, some time =>
      some { freq := mathRound f, call := E.toUpperCase call, mode := E.toUpperCase mode,
             comment := comment, spotter := spotter, band := band, time := time }
  | _, _, _, _, _, _ => none

/-- The two guards of `handleSpot`: the payload is a non-null object, its
`freq` is a number and its `call` is truthy. Returns the `freq` number. -/
def accepts (spot : JsVal) : Option JsNum :=
  if !spot.truthy || !spot.isObjectType then none
  else
    match spot.get "freq" with
    | .num f => if (spot.get "call").truthy then some f else none
    | _ => none

/-- The tail of `handleSpot`: push, then `splice(0, length - max_spots)` when
the store is over capacity. -/
def pushSpot (sp : Spot) (s : State) : State :=
  let spots := s.spots ++ [sp]
  if (spots.length : Int) > s.cfg.max_spots then
    { s with spots := spots.drop ((spots.length : Int) - s.cfg.max_spots).toNat }
  else { s with spots := spots }

/-- Source `handleSpot(spot)` as `ws.onmessage` runs it, inside its
`try`/`catch`. A payload that fails a guard leaves the state as it is; so does
one whose normalization throws, the exception being caught by the handler.
The call with its error channel is `handleSpotOrThrow`. -/
def handleSpot (E : Engine) (now : Int) (spot : JsVal) (s : State) : State :=
  match accepts spot with
  | none => s
  | some f =>
      match normalize E now spot f with
      | none => s
      | some sp => scheduleRender (pushSpot sp s)

/-- One call on the store, with the clock value it reads. -/
inductive StoreOp where
  | ingest (now : Int) (payload : JsVal)
  | prune (now : Int)

/-- Effect of one store call: `handleSpot(payload)` or `pruneSpots(now)`. -/
def StoreOp.apply (E : Engine) : StoreOp → State → State
  | .ingest now payload, s => handleSpot E now payload s
  | .prune now, s => pruneSpots now s

/-- A sequence of store calls, run from left to right. -/
def runStore (E : Engine) (ops : List StoreOp) (s : State) : State :=
  ops.foldl (fun st op => op.apply E st) s

/-- The spot `handleSpot` builds from a payload received at `now`, when it
accepts the payload. -/
def normalized (E : Engine) (input : Int × JsVal) : Option Spot :=
  match accepts input.2 with
  | none => none
  | some f => normalize E input.1 input.2 f

/-- A run of `handleSpot` calls, one per `(now, payload)` pair, in order. -/
def ingestAll (E : Engine) (inputs : List (Int × JsVal)) (s : State) : State :=
  inputs.foldl (fun st input => handleSpot E input.1 input.2 st) s

/-! ## Mode classification -/

/-- Search loop of `String.prototype.indexOf`: the first position, counted
from `k`, at which `pat` starts, or `-1`. -/
def indexOfFrom (pat : List Char) : List Char → Nat → Int
  | [], k => if pat = [] then (k : Int) else -1
  | c :: cs, k => if pat.isPrefixOf (c :: cs) then (k : Int) else indexOfFrom pat cs (k + 1)

/-- Method `text.indexOf(pat)`. -/
def indexOf (text pat : String) : Int := indexOfFrom pat.data text.data 0

/-- Source `classifyMode(mode)`; `none` is an absent (`undefined`) mode. -/
def classifyMode (E : Engine) (mode : Option String) : String :=
  let m := E.toUpperCase (mode.getD "")
  if indexOf m "CW" ≥ 0 then "CW"
  else if indexOf m "SSB" ≥ 0 ∨ indexOf m "USB" ≥ 0 ∨ indexOf m "LSB" ≥ 0
      ∨ indexOf m "AM" ≥ 0 ∨ indexOf m "FM" ≥ 0 then "SSB"
  else if indexOf m "FT8" ≥ 0 ∨ indexOf m "FT4" ≥ 0 ∨ indexOf m "RTTY" ≥ 0
      ∨ indexOf m "PSK" ≥ 0 ∨ indexOf m "DIGI" ≥ 0 then "FT8"
  else if m ≠ "" then m else "UNKNOWN"

/-- Source `colorForMode(mode)`. -/
def colorForMode (E : Engine) (mode : Option String) : String :=
  let m := classifyMode E mode
  if m = "CW" then "#7dfffd" else if m = "SSB" then "#ffe600" else "#ff2bd6"

/-- The text `text` contains `kw` as a substring. -/
def Contains (text kw : String) : Prop := kw.data <:+: text.data

/-- The keywords of the voice category. -/
def voiceKeywords : List String := ["SSB", "USB", "LSB", "AM", "FM"]

/-- The keywords of the digital category. -/
def digitalKeywords : List String := ["FT8", "FT4", "RTTY", "PSK", "DIGI"]

/-- All keywords `classifyMode` looks for. -/
def allKeywords : List String := "CW" :: voiceKeywords ++ digitalKeywords

/-! ## The websocket client -/

/-- Names that the object literal `seen = {}` of `uniqUrls` inherits from
`Object.prototype`; `seen[name]` is truthy for each of them. -/
def objectPrototypeKeys : List String :=
  ["constructor", "hasOwnProperty", "isPrototypeOf", "propertyIsEnumerable",
   "toLocaleString", "toString", "valueOf", "__proto__", "__defineGetter__",
   "__defineSetter__", "__lookupGetter__", "__lookupSetter__"]

/-- The loop of `uniqUrls`, with `out` the urls kept so far (`seen` holds
exactly the members of `out`). -/
def uniqUrlsLoop (out : List String) : List String → List String
  | [] => out
  | url :: rest =>
      if url = "" ∨ url ∈ objectPrototypeKeys ∨ url ∈ out then uniqUrlsLoop out rest
      else uniqUrlsLoop (out ++ [url]) rest

/-- Source `uniqUrls(list)`. -/
def uniqUrls (list : List String) : List String := uniqUrlsLoop [] list

/-- Source `buildDefaultWsUrls()`. -/
def buildDefaultWsUrls (loc : Location) : List String :=
  let host := loc.host
  let scheme := if loc.protocol = "https:" then "wss://" else "ws://"
  if loc.protocol = "http:" then
    uniqUrls ["ws://" ++ host ++ ":7373/spots", scheme ++ host ++ "/spiderws/spots"]
  else
    uniqUrls [scheme ++ host ++ "/spiderws/spots", "wss://" ++ host ++ ":7373/spots",
      "ws://" ++ host ++ ":7373/spots"]

/-- The initial `state` object, for a loaded configuration, the server flag
read at start-up and the page location. -/
def init (cfg : Cfg) (serverEnabled : Option Bool) (loc : Location) : State :=
  { cfg := cfg, spots := [], ws := none, wsUrls := none, wsUrlIndex := 0, wsBackoff := 1000,
    running := false, renderPending := false, serverEnabled := serverEnabled, enabled := false,
    sockets := [], timers := [], location := loc }

/-- The candidate list that `connectWs` computes in its first five lines. -/
def candidateUrls (s : State) : List String :=
  let urls : List String := if s.cfg.ws_url ≠ "" then [s.cfg.ws_url] else []
  let urls := match s.cfg.ws_urls with
    | some l => urls ++ l
    | none => urls
  let urls := if urls.length = 0 then buildDefaultWsUrls s.location else urls
  uniqUrls urls

/-- The test `state.ws && (readyState === CONNECTING || readyState === OPEN)`. -/
def wsBusy (s : State) : Bool :=
  match s.ws with
  | none => false
  | some i =>
      match s.sockets.get? i with
      | none => false
      | some sk => decide (sk.readyState = .connecting ∨ sk.readyState = .isOpen)

/-- Source `scheduleReconnect()`: a timer is set with the current delay. -/
def scheduleReconnect (s : State) : State :=
  if !s.enabled then s
  else
    let s1 := if s.wsBackoff > 30000 then { s with wsBackoff := 30000 } else s
    { s1 with timers := s1.timers ++ [s1.wsBackoff] }

/-- Source `connectWs()`. `throws` says whether `new WebSocket(wsUrl)` throws
in this call. -/
def connectWs (throws : Bool) (s : State) : State :=
  let urls := candidateUrls s
  if urls.length = 0 then s
  else
    let s1 := { s with wsUrls := some urls }
    let s2 := if s1.wsUrlIndex ≥ urls.length then { s1 with wsUrlIndex := 0 } else s1
    let wsUrl := urls.getD s2.wsUrlIndex ""
    if !s2.enabled then s2
    else if wsBusy s2 then s2
    else if throws then
      scheduleReconnect { s2 with wsUrlIndex := (s2.wsUrlIndex + 1) % urls.length }
    else
      { s2 with
        ws := some s2.sockets.length
        sockets := s2.sockets ++
          [{ url := wsUrl, readyState := .connecting, opened := false, urls := urls,
             attached := true }] }

/-- The callback that `scheduleReconnect` hands to `setTimeout`. -/
def reconnectTimer (throws : Bool) (s : State) : State :=
  let s1 := connectWs throws s
  { s1 with wsBackoff := min 30000 (s1.wsBackoff * (3 / 2)) }

/-- Replace the socket at index `i`. -/
def setSocket (s : State) (i : Nat) (sk : Socket) : State :=
  { s with sockets := s.sockets.set i sk }

/-- The socket at index `i` reaches OPEN: its `onopen` handler, if still set,
marks the attempt as opened and resets the delay. Nothing happens unless the
socket is CONNECTING. -/
def onOpen (i : Nat) (s : State) : State :=
  match s.sockets.get? i with
  | none => s
  | some sk =>
      if sk.readyState ≠ .connecting then s
      else if !sk.attached then setSocket s i { sk with readyState := .isOpen }
      else
        { setSocket s i { sk with readyState := .isOpen, opened := true } with
          wsBackoff := 1000 }

/-- The socket at index `i` starts its closing handshake. -/
def onClosing (i : Nat) (s : State) : State :=
  match s.sockets.get? i with
  | none => s
  | some sk =>
      if sk.readyState = .connecting ∨ sk.readyState = .isOpen then
        setSocket s i { sk with readyState := .closing }
      else s

/-- The socket at index `i` reaches CLOSED: its `onclose` handler, if still
set, advances the cursor when the attempt never opened and more than one url
was a candidate, then schedules a reconnect. A socket closes once. -/
def onClose (i : Nat) (s : State) : State :=
  match s.sockets.get? i with
  | none => s
  | some sk =>
      if sk.readyState = .closed then s
      else
        let s1 := setSocket s i { sk with readyState := .closed }
        if !sk.attached then s1
        else
          let s2 :=
            if !sk.opened ∧ sk.urls.length > 1 then
              { s1 with wsUrlIndex := (s1.wsUrlIndex + 1) % sk.urls.length }
            else s1
          scheduleReconnect s2

/-- A message arrives on the socket at index `i`: its `onmessage` handler, if
still set, hands the parsed payload to `handleSpot`; `none` is a text that
`JSON.parse` rejects. -/
def onMessage (E : Engine) (i : Nat) (now : Int) (payload : Option JsVal) (s : State) : State :=
  match s.sockets.get? i with
  | none => s
  | some sk =>
      if sk.readyState = .isOpen ∧ sk.attached then
        match payload with
        | none => s
        | some v => handleSpot E now v s
      else s

/-- Source `closeWs()`: detach the four handlers, close, forget the socket. -/
def closeWs (s : State) : State :=
  match s.ws with
  | none => s
  | some i =>
      match s.sockets.get? i with
      | none => { s with ws := none }
      | some sk =>
          let rs := if sk.readyState = .connecting ∨ sk.readyState = .isOpen
            then ReadyState.closing else sk.readyState
          { setSocket s i { sk with attached := false, readyState := rs } with ws := none }

/-- Source `applyEffectiveEnabled()`. -/
def applyEffectiveEnabled (throws : Bool) (s : State) : State :=
  let serverEnabled := match s.serverEnabled with
    | none => false
    | some b => b
  let effective := s.cfg.enabled && serverEnabled
  if s.enabled = effective then s
  else
    let s1 := { s with enabled := effective }
    if !s1.enabled then closeWs s1
    else scheduleRender (connectWs throws s1)

/-- Source `syncServerConfig()`, with `flag` the value of `getServerEnabled()`. -/
def syncServerConfig (flag : Option Bool) (throws : Bool) (s : State) : State :=
  match flag with
  | none => s
  | some b =>
      if s.serverEnabled = some b then s
      else applyEffectiveEnabled throws { s with serverEnabled := some b }

/-- A `patch` object for `updateConfig`: the properties it sets. -/
structure Patch where
  ws_url : Option String := none
  ws_urls : Option (Option (List String)) := none
  max_age_sec : Option Int := none
  modes : Option (List String) := none
  enabled : Option Bool := none
  max_spots : Option Int := none

/-- The merge `$.extend({}, cfg, patch)`. -/
def Cfg.extend (cfg : Cfg) (patch : Patch) : Cfg :=
  { ws_url := patch.ws_url.getD cfg.ws_url
    ws_urls := patch.ws_urls.getD cfg.ws_urls
    max_age_sec := patch.max_age_sec.getD cfg.max_age_sec
    modes := patch.modes.getD cfg.modes
    enabled := patch.enabled.getD cfg.enabled
    max_spots := patch.max_spots.getD cfg.max_spots }

/-- Source `updateConfig(patch)`. -/
def updateConfig (patch : Patch) (throws : Bool) (s : State) : State :=
  applyEffectiveEnabled throws
    { s with cfg := s.cfg.extend patch, wsUrls := none, wsUrlIndex := 0 }

/-- The `change` handler of the settings checkbox. -/
def onToggle (checked : Bool) (throws : Bool) (s : State) : State :=
  updateConfig { enabled := some checked } throws
    { s with cfg := { s.cfg with enabled := checked } }

/-- Source `start()`; `overlay` is the result of `ensureOverlay()`, and the two
flags say whether the socket constructor throws in the `connectWs` call made by
`applyEffectiveEnabled` and in the one made by `start` itself. -/
def start (overlay throws1 throws2 : Bool) (s : State) : State :=
  if !overlay then s
  else
    let s1 := applyEffectiveEnabled throws1 s
    let s2 := connectWs throws2 s1
    scheduleRender { s2 with running := true }

/-! ## Rendering -/

/-- What one call of `render` reads from the page: whether the canvas and its
context exist, `isOwrxReady()`, `getServerEnabled()`, whether a socket
constructor would throw, the canvas size, the clip area `getClipArea` returns,
the host's frequency-to-pixel map (`frequencyToX`, `none` for `null`) and the
width `ctx.measureText` reports for a label. -/
structure Host where
  canvas : Bool
  owrxReady : Bool
  serverFlag : Option Bool
  wsThrows : Bool
  cssW : ℚ
  cssH : ℚ
  clipW : ℚ
  clipH : ℚ
  frequencyToX : JsNum → Option ℚ
  textWidth : String → ℚ

/-- An entry `{ start, end }` of a label lane. -/
structure Interval where
  start : ℚ
  stop : ℚ
  deriving DecidableEq

/-- The variables `labelLanes` and `labelCount` of `render`. A lane that has
not been created yet reads as the empty lane, which is what
`if (!labelLanes[l]) labelLanes[l] = []` makes of it. -/
structure LoopState where
  labelLanes : Nat → List Interval
  labelCount : Nat

/-- What `render` draws for one spot: nothing, the tick only, or the tick and
the label in a lane. -/
inductive Outcome where
  | hidden
  | tick (x alpha : ℚ)
  | label (x alpha : ℚ) (lane : Nat) (labelX labelW : ℚ)
  deriving DecidableEq

/-- The constant `maxLanes`. -/
def maxLanes : Nat := 6

/-- The constant `maxLabels`. -/
def maxLabels : Nat := 120

/-- The constant `labelH`. -/
def labelH : ℚ := 16

/-- The inner loop over `k`: some interval of the lane is not clear of the
candidate `[labelX, labelX + labelW]`. -/
def overlapsLane (labelX labelW : ℚ) (lane : List Interval) : Bool :=
  lane.any (fun r => !(decide (labelX + labelW < r.start) || decide (labelX > r.stop)))

/-- The loop over `l`: the first lane among `l, l+1, ..` (at most `n` of them)
in which the candidate overlaps nothing; `none` is `lane = -1`. -/
def findLane (labelX labelW : ℚ) (lanes : Nat → List Interval) : Nat → Nat → Option Nat
  | 0, _ => none
  | n + 1, l =>
      if overlapsLane labelX labelW (lanes l) then findLane labelX labelW lanes n (l + 1)
      else some l

/-- The statement `labelLanes[l].push({ start, end })`. -/
def pushInterval (lanes : Nat → List Interval) (l : Nat) (r : Interval) : Nat → List Interval :=
  fun k => if k = l then lanes l ++ [r] else lanes k

/-- The body of the loop over the sorted spots, for one spot. -/
def renderSpot (E : Engine) (h : Host) (cfg : Cfg) (now : Int) (st : LoopState) (spot : Spot) :
    LoopState × Outcome :=
  if ¬ classifyMode E (some spot.mode) ∈ cfg.modes then (st, .hidden)
  else
    match h.frequencyToX spot.freq with
    | none => (st, .hidden)
    | some x =>
        if x < -2 ∨ x > h.clipW + 2 then (st, .hidden)
        else
          let age : Int := max 0 (now - spot.time)
          let alpha : ℚ := max 0 (1 - (age : ℚ) / (cfg.max_age_sec : ℚ))
          if alpha ≤ 0 then (st, .hidden)
          else if st.labelCount ≥ maxLabels then (st, .tick x alpha)
          else
            let label := spot.call
            if label = "" then (st, .tick x alpha)
            else
              let labelW : ℚ := (⌈h.textWidth label⌉ : ℚ) + 12
              let labelX : ℚ := max 2 (min (h.cssW - labelW - 2) (x + 4))
              if labelX + labelW > h.clipW then (st, .tick x alpha)
              else
                match findLane labelX labelW st.labelLanes maxLanes 0 with
                | none => (st, .tick x alpha)
                | some lane =>
                    let st1 : LoopState :=
                      { st with labelLanes :=
                          pushInterval st.labelLanes lane ⟨labelX, labelX + labelW⟩ }
                    let labelY : ℚ := 6 + (lane : ℚ) * (labelH + 4)
                    if labelY + labelH > h.clipH - 4 then (st1, .tick x alpha)
                    else
                      ({ st1 with labelCount := st1.labelCount + 1 },
                        .label x alpha lane labelX labelW)

/-- The loop `for (i = 0; i < spots.length; i++)`: each spot with what was
drawn for it, in processing order. -/
def renderLoop (E : Engine) (h : Host) (cfg : Cfg) (now : Int) :
    LoopState → List Spot → List (Spot × Outcome)
  | _, [] => []
  | st, spot :: rest =>
      ((spot, (renderSpot E h cfg now st spot).2)
        :: renderLoop E h cfg now (renderSpot E h cfg now st spot).1 rest)

/-- The call `spots.sort((a, b) => b.time - a.time)`: the stable sort by
descending time. -/
def sortSpots (spots : List Spot) : List Spot :=
  spots.insertionSort (fun a b => b.time ≤ a.time)

/-- The loop state before the first spot. -/
def LoopState.empty : LoopState := ⟨fun _ => [], 0⟩

/-- The part of `render` from `if (!state.enabled) return;` on: prune the
store, sort a copy by descending time and run the loop. -/
def drawSpots (E : Engine) (h : Host) (now : Int) (s : State) : State × List (Spot × Outcome) :=
  if !s.enabled then (s, [])
  else
    let s3 := pruneSpots now s
    if s3.spots.length = 0 then (s3, [])
    else (s3, renderLoop E h s3.cfg now LoopState.empty (sortSpots s3.spots))

/-- Source `render()`, with `now = Math.floor(Date.now() / 1000)`: the new
state and, for each spot visited by the loop, what was drawn for it. Resizing
and clearing the canvas change no field of the model. -/
def render (E : Engine) (h : Host) (now : Int) (s : State) : State × List (Spot × Outcome) :=
  let s1 := { s with renderPending := false }
  if !h.canvas then (s1, [])
  else if !h.owrxReady then (scheduleRender s1, [])
  else
    let s2 := syncServerConfig h.serverFlag h.wsThrows s1
    if h.cssW = 0 ∨ h.cssH = 0 then (s2, [])
    else drawSpots E h now s2

/-! ## Events -/

/-- The callbacks the browser may run, with what each one reads from outside
the model. -/
inductive Event where
  | start (overlay throws1 throws2 : Bool)
  | wsOpen (i : Nat)
  | wsClosing (i : Nat)
  | wsClose (i : Nat)
  | wsMessage (i : Nat) (now : Int) (payload : Option JsVal)
  | timer (k : Nat) (throws : Bool)
  | toggle (checked throws : Bool)
  | render (h : Host) (now : Int)

/-- Run one callback. A timer event fires the pending timer at index `k`. -/
def step (E : Engine) : Event → State → State
  | .start overlay t1 t2, s => start overlay t1 t2 s
  | .wsOpen i, s => onOpen i s
  | .wsClosing i, s => onClosing i s
  | .wsClose i, s => onClose i s
  | .wsMessage i now payload, s => onMessage E i now payload s
  | .timer k throws, s =>
      if k < s.timers.length then reconnectTimer throws { s with timers := s.timers.eraseIdx k }
      else s
  | .toggle checked throws, s => onToggle checked throws s
  | .render h now, s => (render E h now s).1

/-- Run a sequence of callbacks, from left to right. -/
def run (E : Engine) (events : List Event) (s : State) : State :=
  events.foldl (fun st ev => step E ev st) s

/-! ## Sample data, invariants and derived notions -/

/-- A configuration as `loadConfig` builds it from the defaults on the page
`http://sdr.example`. -/
def sampleCfg : Cfg :=
  { ws_url := "ws://sdr.example:7373/spots"
    ws_urls := some ["ws://sdr.example:7373/spots", "ws://sdr.example/spiderws/spots"]
    max_age_sec := 300
    modes := ["CW", "SSB", "FT8"]
    enabled := true
    max_spots := 800 }

/-- The page location `http://sdr.example`. -/
def sampleLocation : Location := ⟨"http:", "sdr.example"⟩

/-- The state right after start-up on the sample page, server flag on. -/
def sampleInit : State := init sampleCfg (some true) sampleLocation

/-- The bounds on the reconnect delay: `wsBackoff` and the delay of every
pending reconnect timer lie in `[1000, 30000]`. -/
def BackoffInv (s : State) : Prop :=
  1000 ≤ s.wsBackoff ∧ s.wsBackoff ≤ 30000 ∧ ∀ d ∈ s.timers, 1000 ≤ d ∧ d ≤ 30000

/-- One failed attempt: the socket at index `i` closes without having opened,
then the reconnect timer fires and a new socket is created. -/
def failedAttempt (i : Nat) : List Event := [.wsClose i, .timer 0 false]

/-- Start-up followed by `n` failed attempts in a row. -/
def failedAttempts (n : Nat) : List Event :=
  .start true false false :: ((List.range n).map failedAttempt).flatten

/-- A well-formed spot message. -/
def samplePayload : JsVal :=
  .obj [("freq", .num (.fin 14074000)), ("call", .str "dl1abc"), ("mode", .str "ft8"),
    ("time", .num (.fin 1700000000))]

/-- A second well-formed spot message, without `mode` and `time`. -/
def otherPayload : JsVal :=
  .obj [("freq", .num (.fin (7030000 + 1 / 2))), ("call", .str "g4xyz")]

/-- The sample start state with room for two spots only. -/
def smallStore : State := { sampleInit with cfg := { sampleCfg with max_spots := 2 } }

/-- The url of the socket `state.ws` refers to: the target of the current
connection attempt. -/
def attemptUrl (s : State) : Option String :=
  match s.ws with
  | none => none
  | some j => (s.sockets.get? j).map Socket.url

/-- The cursor invariant for a fixed candidate list `urls`: `connectWs` still
computes `urls`, every socket was created for `urls`, and the cursor is `0` or
an index into `urls`. -/
def CursorInv (urls : List String) (s : State) : Prop :=
  candidateUrls s = urls ∧ (∀ sk ∈ s.sockets, sk.urls = urls)
    ∧ (s.wsUrlIndex = 0 ∨ s.wsUrlIndex < urls.length)

/-- A configuration with the three endpoints A, B, C. -/
def abcCfg : Cfg :=
  { sampleCfg with
    ws_url := "ws://a.example/spots"
    ws_urls := some ["ws://a.example/spots", "ws://b.example/spots", "ws://c.example/spots"] }

/-- The start-up state for the endpoints A, B, C, server flag on. -/
def abcInit : State := init abcCfg (some true) sampleLocation

/-- The start-up state for the endpoints A, B, C with the overlay enabled and
no socket yet. -/
def abcEnabled : State := { abcInit with enabled := true }

/-- The lane and horizontal interval `(lane, labelX, labelW)` of a drawn
label. -/
def Outcome.labelOf : Outcome → Option (Nat × ℚ × ℚ)
  | .label _ _ lane labelX labelW => some (lane, labelX, labelW)
  | _ => none

/-- Two draw outcomes do not collide: if both are labels in the same lane,
their intervals `[x1, x1 + w1]` and `[x2, x2 + w2]` are disjoint. -/
def NoClash (a b : Outcome) : Prop :=
  ∀ lane x1 w1 x2 w2, a.labelOf = some (lane, x1, w1) → b.labelOf = some (lane, x2, w2) →
    x1 + w1 < x2 ∨ x2 + w2 < x1

/-- The value of `state.enabled` after `syncServerConfig()` has read `flag`:
unchanged when the flag is unknown or not new, otherwise the user's preference
and the flag. -/
def enabledAfterSync (flag : Option Bool) (s : State) : Bool :=
  match flag with
  | none => s.enabled
  | some b => if s.serverEnabled = some b then s.enabled else (s.cfg.enabled && b)

/-- Whether a call of `render` gets past its early returns to the pruning of
the store. -/
def reachesStore (h : Host) (s : State) : Bool :=
  h.canvas && h.owrxReady && !(decide (h.cssW = 0 ∨ h.cssH = 0))
    && enabledAfterSync h.serverFlag s

/-- What `render` draws for a store `spots` once it is past its early returns:
prune by age, sort by descending time, run the loop. -/
def renderStore (E : Engine) (h : Host) (cfg : Cfg) (now : Int) (spots : List Spot) :
    List (Spot × Outcome) :=
  renderLoop E h cfg now LoopState.empty
    (sortSpots (spots.filter (fun sp => decide (now - sp.time ≤ cfg.max_age_sec))))

/-- A page for concrete render ticks: a 1000 by 400 canvas with nothing
clipped, 100 Hz per pixel from 14.000 MHz, seven pixels per character. -/
def sampleHost : Host :=
  { canvas := true
    owrxReady := true
    serverFlag := some true
    wsThrows := false
    cssW := 1000
    cssH := 400
    clipW := 1000
    clipH := 400
    frequencyToX := fun f =>
      match f with
      | .fin q => some ((q - 14000000) / 100)
      | _ => none
    textWidth := fun label => 7 * (label.length : ℚ) }

/-- The sample page with a clip area 30 pixels high: only lane 0 fits. -/
def lowHost : Host := { sampleHost with clipH := 30 }

/-- A CW spot with the given frequency, call and time. -/
def mkSpot (freq : ℚ) (call : String) (time : Int) : Spot :=
  { freq := .fin freq, call := call, mode := "CW", comment := "", spotter := "", band := "",
    time := time }

/-- The sample state, enabled, holding the given spots. -/
def withSpots (spots : List Spot) : State :=
  { sampleInit with enabled := true, spots := spots }

/-- A clock value for concrete render ticks. -/
def sampleNow : Int := 1700000000

/-- A spot seen at `sampleNow`. -/
def freshSpot : Spot := mkSpot 14010000 "NEW1A" sampleNow

/-- A spot seen 100 seconds before `sampleNow`, 100 Hz above `freshSpot`: its
label would cover the same pixels. -/
def staleSpot : Spot := mkSpot 14010100 "OLD2B" (sampleNow - 100)

/-- A spot seen 50 seconds before `sampleNow`, far from the other two. -/
def farSpot : Spot := mkSpot 14050000 "FAR3C" (sampleNow - 50)

/-- A well-formed message whose `time` is the integer `0`. -/
def zeroTimePayload : JsVal :=
  .obj [("freq", .num (.fin 14074000)), ("call", .str "dl1abc"), ("time", .num (.fin 0))]

/-- A message that passes both guards but whose `call` is an object with an own
`toString` property, so that `String(spot.call)` throws. -/
def throwingPayload : JsVal :=
  .obj [("freq", .num (.fin 14074000)), ("call", .obj [("toString", .num (.fin 1))])]

/-- The message `{"freq": 1e999, "call": "dl1abc"}`: `JSON.parse` reads the
frequency as `Infinity`. -/
def infinitePayload : JsVal :=
  .obj [("freq", .num .posInf), ("call", .str "dl1abc")]

/-- A message whose frequency is `NaN`. -/
def nanPayload : JsVal :=
  .obj [("freq", .num .nan), ("call", .str "dl1abc")]

/-- The message `{"freq": 14074000, "call": [[]]}`: the call is a truthy array
whose string conversion is empty. -/
def emptyCallPayload : JsVal :=
  .obj [("freq", .num (.fin 14074000)), ("call", .arr [.arr []])]

/-- The opacity `alpha` that `render` computes for a spot (source lines
307-308): `Math.max(0, 1 - Math.max(0, now - spot.time) / maxAge)`. -/
def spotAlpha (cfg : Cfg) (now : Int) (spot : Spot) : ℚ :=
  max 0 (1 - ((max 0 (now - spot.time) : Int) : ℚ) / (cfg.max_age_sec : ℚ))

/-- The stroke opacity of a tick: `Math.min(1, 0.9 * alpha + 0.1)`. -/
def tickOpacity (alpha : ℚ) : ℚ := min 1 (9 / 10 * alpha + 1 / 10)

/-- The opacity with which a tick (and label) was drawn, if any. -/
def Outcome.alphaOf : Outcome → Option ℚ
  | .hidden => none
  | .tick _ alpha => some alpha
  | .label _ alpha _ _ _ => some alpha

/-- A spot exactly `max_age_sec` (300 s) old at `sampleNow`. -/
def agedSpot : Spot := mkSpot 14020000 "AGE3C" (sampleNow - 300)

/-- The page location `https://sdr.example`. -/
def secureLocation : Location := ⟨"https:", "sdr.example"⟩

/-- The object `defaults`. -/
def defaultsObj : JsVal :=
  .obj [("ws_url", .null), ("ws_urls", .null), ("max_age_sec", .num (.fin 300)),
    ("modes", .arr [.str "CW", .str "SSB", .str "FT8"]), ("enabled", .bool true),
    ("max_spots", .num (.fin 800))]

/-- The test `v === undefined`. -/
def JsVal.isUndefined : JsVal → Bool
  | .undefined => true
  | _ => false

/-- Property `key` of `$.extend({}, defaults, globalCfg, localCfg)`: each
source overwrites the properties it defines, so the value is that of the last
source in which it is not `undefined`. -/
def mergedGet (globalCfg localCfg : JsVal) (key : String) : JsVal :=
  let l := localCfg.get key
  if !l.isUndefined then l
  else
    let g := globalCfg.get key
    if !g.isUndefined then g else defaultsObj.get key

/-- The two `modes` lines of `loadConfig`: a non-array becomes a copy of the
default list, then every entry is converted to an upper-case string; `none`
when a conversion throws. -/
def loadModes (E : Engine) (v : JsVal) : Option (List String) :=
  match v with
  | .arr items => items.mapM (fun m => (toStr E m).map E.toUpperCase)
  | _ => some (["CW", "SSB", "FT8"].map E.toUpperCase)

/-- The expression `Math.max(floor, parseInt(v, 10) || dflt)` of `loadConfig`;
`none` when the conversion of `v` to a string throws. Exact where `parseIntStr`
is: when the text of `v` parses within the safe integers. -/
def clampSetting (E : Engine) (floor dflt : Int) (v : JsVal) : Option Int :=
  match toStr E v with
  | none => none
  | some text =>
      match parseIntStr text with
      | none => some (max floor dflt)
      | some t => some (max floor (if t = 0 then dflt else t))

/-- The `ws_url` / `ws_urls` lines of `loadConfig`: a falsy `ws_url` is
replaced by the default list and its first element; then `ws_url` becomes a
string and an array `ws_urls` a list of distinct non-empty strings. -/
def loadEndpoints (E : Engine) (loc : Location) (urlVal urlsVal : JsVal) :
    Option (String × Option (List String)) :=
  let urls := buildDefaultWsUrls loc
  let url1 : JsVal := if !urlVal.truthy then (match urls.head? with
    | some u => .str u
    | none => .undefined) else urlVal
  let urls1 : JsVal := if !urlVal.truthy then .arr (urls.map .str) else urlsVal
  match stringOrEmpty E url1 with
  | none => none
  | some url =>
      match urls1 with
      | .arr items =>
          match items.mapM (stringOrEmpty E) with
          | none => none
          | some list => some (url, some (uniqUrls list))
      | _ => some (url, none)

/-- Source `loadConfig()`, for the value of `window.spider_config_global` and
the parsed `spider_config` item of the local storage (`none` when there is no
item or `JSON.parse` throws); `none` when a string conversion throws. -/
def loadConfig (E : Engine) (loc : Location) (globalVal : JsVal) (stored : Option JsVal) :
    Option Cfg :=
  let globalCfg := if globalVal.isObjectType then globalVal else .obj []
  let localCfg := stored.getD (.obj [])
  let get := mergedGet globalCfg localCfg
  match loadModes E (get "modes"), clampSetting E 10 300 (get "max_age_sec"),
        clampSetting E 50 800 (get "max_spots"),
        loadEndpoints E loc (get "ws_url") (get "ws_urls") with
  | some modes, some maxAge, some maxSpots, some (url, urls) =>
      some { ws_url := url, ws_urls := urls, max_age_sec := maxAge, modes := modes,
             enabled := match get "enabled" with
               | .bool false => false
               | _ => true,
             max_spots := maxSpots }
  | _, _, _, _ => none

/-- A saved configuration that sets both limits to zero. -/
def zeroLimits : JsVal :=
  .obj [("max_age_sec", .num (.fin 0)), ("max_spots", .num (.fin 0))]

/-- The step from `s` to `s'` leaves `state.enabled`, `state.cfg` and
`state.serverEnabled` as they are. -/
def SameFlags (s s' : State) : Prop :=
  s'.enabled = s.enabled ∧ s'.cfg = s.cfg ∧ s'.serverEnabled = s.serverEnabled

/-- The overlay is effectively enabled only if the user's preference is on and
the server flag is known and on. -/
def EnabledInv (s : State) : Prop :=
  s.enabled = true → s.cfg.enabled = true ∧ s.serverEnabled = some true

/-- Start-up with an unknown server flag. -/
def unknownFlagInit : State := init sampleCfg none sampleLocation

/-- Nothing was connected or scheduled on the way from `d` to `d'`: the list of
sockets has not grown, no reconnect timer was added, and `state.ws`, if it was
`null`, still is. -/
def Quiet (d d' : State) : Prop :=
  d'.sockets.length = d.sockets.length ∧ d'.timers.length ≤ d.timers.length
    ∧ (d.ws = none → d'.ws = none)

/-- Every state along the run of `events` from `d` is disabled. -/
def StaysDisabled (E : Engine) : List Event → State → Prop
  | [], _ => True
  | ev :: rest, d => (step E ev d).enabled = false ∧ StaysDisabled E rest (step E ev d)

/-- The sample client, connected, after the user switched the overlay off. -/
def stoppedState : State :=
  run asciiEngine [.start true false false, .wsOpen 0, .toggle false false] sampleInit

/-- The sample client switched off while a reconnect timer is pending: the
first socket closed before opening, then the user switched the overlay off. -/
def stoppedWithTimer : State :=
  run asciiEngine [.start true false false, .wsClose 0, .toggle false false] sampleInit

/-- The candidate list and cursor with which `connectWs` calls
`new WebSocket(urls[state.wsUrlIndex])`, or `none` when it returns before the
constructor: no candidate, overlay disabled, or a socket connecting or open. -/
def connectTarget (s : State) : Option (List String × Nat) :=
  let urls := candidateUrls s
  if urls.length = 0 then none
  else
    let i := if s.wsUrlIndex ≥ urls.length then 0 else s.wsUrlIndex
    if !s.enabled then none
    else if wsBusy s then none
    else some (urls, i)

/-- Every socket was created for a non-empty list of distinct candidates and
targets a member of that list. -/
def AttemptsInv (s : State) : Prop :=
  ∀ sk ∈ s.sockets, sk.urls ≠ [] ∧ sk.urls.Nodup ∧ sk.url ∈ sk.urls

/-- The callbacks of `Event`, a direct call of `connectWs`, and a call of
`updateConfig` with any patch. -/
inductive CfgEvent where
  | ev (e : Event)
  | connect (throws : Bool)
  | update (patch : Patch) (throws : Bool)

/-- Run one callback or call. -/
def stepCfg (E : Engine) : CfgEvent → State → State
  | .ev e, s => step E e s
  | .connect throws, s => connectWs throws s
  | .update patch throws, s => updateConfig patch throws s

/-- Run a sequence of callbacks and calls, from left to right. -/
def runCfg (E : Engine) (events : List CfgEvent) (s : State) : State :=
  events.foldl (fun st ev => stepCfg E ev st) s

/-- A patch that replaces the endpoints A, B, C by the single endpoint D. -/
def shrinkPatch : Patch :=
  { ws_url := some "ws://d.example/spots", ws_urls := some (some ["ws://d.example/spots"]) }

/-- A spot seen 1000 seconds before `sampleNow`: older than the 300 s bound. -/
def expiredSpot : Spot := mkSpot 14030000 "EXP4D" (sampleNow - 1000)

/-- The sample page while its canvas is laid out with zero width. -/
def collapsedHost : Host := { sampleHost with cssW := 0 }

/-- The sample page while the server reports the overlay as switched off. -/
def serverOffHost : Host := { sampleHost with serverFlag := some false }

/-- Spec wording: lane `l` fits vertically when `6 + 20*l + 16 <= clipH - 4`. -/
def laneFits (clipH : ℚ) (l : Nat) : Bool :=
  decide (6 + 20 * (l : ℚ) + 16 ≤ clipH - 4)

/-- Spec wording: first-fit placement restricted to the lanes that fit
vertically: the first lane among `l, l+1, ..` (at most `n` of them) that fits
and in which the candidate overlaps nothing. -/
def findFitLane (clipH labelX labelW : ℚ) (lanes : Nat → List Interval) : Nat → Nat → Option Nat
  | 0, _ => none
  | n + 1, l =>
      if laneFits clipH l ∧ overlapsLane labelX labelW (lanes l) = false then some l
      else findFitLane clipH labelX labelW lanes n (l + 1)

/-- Spec wording: the loop body with the restricted placement. A label that
finds no fitting lane is skipped and records nothing; a placed label is always
drawn. Everything before the lane search is as in `renderSpot`. -/
def renderSpotFit (E : Engine) (h : Host) (cfg : Cfg) (now : Int) (st : LoopState)
    (spot : Spot) : LoopState × Outcome :=
  if ¬ classifyMode E (some spot.mode) ∈ cfg.modes then (st, .hidden)
  else
    match h.frequencyToX spot.freq with
    | none => (st, .hidden)
    | some x =>
        if x < -2 ∨ x > h.clipW + 2 then (st, .hidden)
        else
          let age : Int := max 0 (now - spot.time)
          let alpha : ℚ := max 0 (1 - (age : ℚ) / (cfg.max_age_sec : ℚ))
          if alpha ≤ 0 then (st, .hidden)
          else if st.labelCount ≥ maxLabels then (st, .tick x alpha)
          else
            let label := spot.call
            if label = "" then (st, .tick x alpha)
            else
              let labelW : ℚ := (⌈h.textWidth label⌉ : ℚ) + 12
              let labelX : ℚ := max 2 (min (h.cssW - labelW - 2) (x + 4))
              if labelX + labelW > h.clipW then (st, .tick x alpha)
              else
                match findFitLane h.clipH labelX labelW st.labelLanes maxLanes 0 with
                | none => (st, .tick x alpha)
                | some lane =>
                    ({ labelLanes := pushInterval st.labelLanes lane ⟨labelX, labelX + labelW⟩
                       labelCount := st.labelCount + 1 },
                      .label x alpha lane labelX labelW)

/-- Spec wording: the loop over the sorted spots with the restricted placement. -/
def renderLoopFit (E : Engine) (h : Host) (cfg : Cfg) (now : Int) :
    LoopState → List Spot → List (Spot × Outcome)
  | _, [] => []
  | st, spot :: rest =>
      ((spot, (renderSpotFit E h cfg now st spot).2)
        :: renderLoopFit E h cfg now (renderSpotFit E h cfg now st spot).1 rest)

/-- Spec wording: what a render tick draws for a store: prune by age, sort by
descending time, place with the restricted first fit. -/
def renderStoreFit (E : Engine) (h : Host) (cfg : Cfg) (now : Int) (spots : List Spot) :
    List (Spot × Outcome) :=
  renderLoopFit E h cfg now LoopState.empty
    (sortSpots (spots.filter (fun sp => decide (now - sp.time ≤ cfg.max_age_sec))))

/-- A spot seen 200 seconds before `sampleNow` whose label starts at pixel 152:
it touches the interval [105, 152] of `staleSpot` but is clear of the interval
[104, 151] of `freshSpot`. -/
def edgeSpot : Spot := mkSpot 14014800 "EDG5E" (sampleNow - 200)

/-- The two loop states agree on the label count and on every lane that fits
vertically. -/
def FitAgree (clipH : ℚ) (st st' : LoopState) : Prop :=
  st.labelCount = st'.labelCount ∧
    ∀ l, laneFits clipH l = true → st.labelLanes l = st'.labelLanes l

/-- Source `handleSpot(spot)` as a call that may throw: `none` is the
`TypeError` raised while the object literal `normalized` is built, when
`String(..)` or `parseInt(..)` meets a value that cannot be converted to a
string; nothing has been pushed at that point. `handleSpot` above is this call
inside the `try`/`catch` of `onmessage`. -/
def handleSpotOrThrow (E : Engine) (now : Int) (spot : JsVal) (s : State) : Option State :=
  match accepts spot with
  | none => some s
  | some f =>
      match normalize E now spot f with
      | none => none
      | some sp => some (scheduleRender (pushSpot sp s))

/-- The text of `v` parses, if at all, to an integer that a double holds
exactly (absolute value at most 2^53). On these values `parseIntStr`, which
computes with exact integers, is `parseInt`; beyond them `parseInt` rounds. -/
def SafeParse (E : Engine) (v : JsVal) : Prop :=
  ∀ text t, toStr E v = some text → parseIntStr text = some t → t.natAbs ≤ 2 ^ 53

/-- The value is neither an array nor an object: `String(v)` cannot throw. -/
def JsVal.isPrimitive : JsVal → Bool
  | .arr _ => false
  | .obj _ => false
  | _ => true

/-- The value is a primitive or an array of primitives: the shape of a list
setting (`modes`, `ws_urls`) none of whose conversions can throw. -/
def JsVal.isPlainList : JsVal → Bool
  | .arr items => items.all JsVal.isPrimitive
  | .obj _ => false
  | _ => true

/-- A saved configuration whose limits are the texts `"0012"` and `"-7"`. -/
def textLimits : JsVal :=
  .obj [("max_age_sec", .str "0012"), ("max_spots", .str "-7")]

/-- The page location `http://sdr.example:8073`: a page served on a port of its
own, so that `location.host` carries the port. -/
def portLocation : Location := ⟨"http:", "sdr.example:8073"⟩

/-- The page location `https://sdr.example:8443`. -/
def securePortLocation : Location := ⟨"https:", "sdr.example:8443"⟩

/-- The characters of a URL text after its first `://`. -/
def afterScheme : List Char → List Char
  | [] => []
  | c :: rest =>
      match c, rest with
      | ':', '/' :: '/' :: tail => tail
      | _, _ => afterScheme rest

/-- The pieces of a text between its colons. -/
def splitColon : List Char → List (List Char)
  | [] => [[]]
  | c :: rest =>
      match splitColon rest with
      | [] => [[]]
      | part :: parts => if c = ':' then [] :: part :: parts else (c :: part) :: parts

/-- The port a URL text names explicitly: its authority (what stands between
`://` and the next `/`) is `name:digits` with a single colon. `none` when the
authority has no colon; also when it has several, which for a host that is a
name or an IPv4 address is a text that is not a URL. -/
def explicitPort (url : String) : Option String :=
  match splitColon ((afterScheme url.data).takeWhile (fun c => c != '/')) with
  | [name, port] =>
      if name ≠ [] ∧ port ≠ [] ∧ port.all Char.isDigit then some ⟨port⟩ else none
  | _ => none

/-! ## Theorems -/

theorem indexOfFrom_nonneg_iff (pat : List Char) (text : List Char) (k : Nat) :
    0 ≤ indexOfFrom pat text k ↔ pat <:+: text := by
  induction text generalizing k with
  | nil =>
      simp only [indexOfFrom]
      by_cases h : pat = []
      · simp [h]
      · simp [h, List.infix_nil]
  | cons c cs ih =>
      simp only [indexOfFrom]
      by_cases h : pat.isPrefixOf (c :: cs) = true
      · simp only [h, if_true]
        have hp : pat <+: c :: cs := List.isPrefixOf_iff_prefix.mp h
        exact ⟨fun _ => hp.isInfix, fun _ => Int.ofNat_nonneg k⟩
      · simp only [h]
        rw [if_neg (by simp), ih, List.infix_cons_iff]
        constructor
        · exact fun hi => Or.inr hi
        · rintro (hp | hi)
          · exact absurd (List.isPrefixOf_iff_prefix.mpr hp) h
          · exact hi

theorem indexOf_nonneg_iff (text kw : String) : indexOf text kw ≥ 0 ↔ Contains text kw := by
  unfold indexOf Contains
  exact indexOfFrom_nonneg_iff _ _ _

/-! ### The spot store -/

theorem pruneSpots_spots (now : Int) (s : State) :
    (pruneSpots now s).spots
      = s.spots.filter (fun sp => decide (now - sp.time ≤ s.cfg.max_age_sec)) := by
  unfold pruneSpots
  by_cases h : s.spots.length = 0
  · have : s.spots = [] := List.length_eq_zero.mp h
    simp [this]
  · simp [h]

theorem pruneSpots_cfg (now : Int) (s : State) : (pruneSpots now s).cfg = s.cfg := by
  unfold pruneSpots
  by_cases h : s.spots.length = 0 <;> simp [h]

/-- C1. After `pruneSpots(now)` the store is the previous store filtered by
`now - time <= max_age_sec`: the same spots in the same relative order, a spot
is retained exactly when it was stored and is young enough, and every retained
spot satisfies the age bound. -/
theorem pruneSpots_age_eviction (now : Int) (s : State) :
    (pruneSpots now s).spots
        = s.spots.filter (fun sp => decide (now - sp.time ≤ s.cfg.max_age_sec))
      ∧ (pruneSpots now s).spots.Sublist s.spots
      ∧ (∀ sp, sp ∈ (pruneSpots now s).spots
            ↔ sp ∈ s.spots ∧ now - sp.time ≤ s.cfg.max_age_sec)
      ∧ ∀ sp ∈ (pruneSpots now s).spots, now - sp.time ≤ s.cfg.max_age_sec := by
  rw [pruneSpots_spots]
  refine ⟨rfl, List.filter_sublist _, ?_, ?_⟩
  · intro sp
    simp [List.mem_filter]
  · intro sp hsp
    simpa using (List.mem_filter.mp hsp).2

/-- C4. Pruning twice at the same time changes nothing the second time. -/
theorem pruneSpots_idempotent (t : Int) (s : State) :
    pruneSpots t (pruneSpots t s) = pruneSpots t s := by
  have hc := pruneSpots_cfg t s
  have hs := pruneSpots_spots t s
  have h2 := pruneSpots_spots t (pruneSpots t s)
  rw [hc, hs, List.filter_filter] at h2
  simp only [Bool.and_self] at h2
  rw [← hs] at h2
  generalize pruneSpots t s = s1 at h2 ⊢
  unfold pruneSpots at h2 ⊢
  by_cases h : s1.spots.length = 0
  · simp [h]
  · simp only [h, if_false] at h2 ⊢
    cases s1
    simp_all

theorem scheduleRender_spots (s : State) : (scheduleRender s).spots = s.spots := by
  unfold scheduleRender
  split <;> rfl

theorem scheduleRender_cfg (s : State) : (scheduleRender s).cfg = s.cfg := by
  unfold scheduleRender
  split <;> rfl

theorem pushSpot_cfg (sp : Spot) (s : State) : (pushSpot sp s).cfg = s.cfg := by
  simp only [pushSpot]
  split <;> rfl

theorem pushSpot_spots (sp : Spot) (s : State) :
    (pushSpot sp s).spots
      = (s.spots ++ [sp]).drop (((s.spots ++ [sp]).length : Int) - s.cfg.max_spots).toNat := by
  unfold pushSpot
  by_cases h : ((s.spots ++ [sp]).length : Int) > s.cfg.max_spots
  · simp only [h, if_true]
  · simp only [h, if_false]
    have : (((s.spots ++ [sp]).length : Int) - s.cfg.max_spots).toNat = 0 := by
      apply Int.toNat_eq_zero.mpr
      omega
    rw [this, List.drop_zero]

theorem pushSpot_length_le (sp : Spot) (s : State) (hm : 0 ≤ s.cfg.max_spots) :
    ((pushSpot sp s).spots.length : Int) ≤ s.cfg.max_spots := by
  rw [pushSpot_spots, List.length_drop]
  omega

theorem handleSpot_cfg (E : Engine) (now : Int) (p : JsVal) (s : State) :
    (handleSpot E now p s).cfg = s.cfg := by
  unfold handleSpot
  split
  · rfl
  · split
    · rfl
    · rw [scheduleRender_cfg, pushSpot_cfg]

theorem handleSpot_length_le (E : Engine) (now : Int) (p : JsVal) (s : State)
    (hm : 0 ≤ s.cfg.max_spots) (hs : (s.spots.length : Int) ≤ s.cfg.max_spots) :
    ((handleSpot E now p s).spots.length : Int) ≤ s.cfg.max_spots := by
  unfold handleSpot
  split
  · exact hs
  · split
    · exact hs
    · rw [scheduleRender_spots]
      exact pushSpot_length_le _ _ hm

theorem pruneSpots_length_le (now : Int) (s : State) :
    (pruneSpots now s).spots.length ≤ s.spots.length := by
  rw [pruneSpots_spots]
  exact List.length_filter_le _ _

theorem runStore_invariant (E : Engine) (ops : List StoreOp) (s : State)
    (hm : 0 ≤ s.cfg.max_spots) (hs : (s.spots.length : Int) ≤ s.cfg.max_spots) :
    (runStore E ops s).cfg = s.cfg
      ∧ ((runStore E ops s).spots.length : Int) ≤ s.cfg.max_spots := by
  induction ops generalizing s with
  | nil => exact ⟨rfl, hs⟩
  | cons op ops ih =>
      have hstep : (op.apply E s).cfg = s.cfg
          ∧ ((op.apply E s).spots.length : Int) ≤ s.cfg.max_spots := by
        cases op with
        | ingest now p => exact ⟨handleSpot_cfg E now p s, handleSpot_length_le E now p s hm hs⟩
        | prune now =>
            refine ⟨pruneSpots_cfg now s, ?_⟩
            have := pruneSpots_length_le now s
            show ((pruneSpots now s).spots.length : Int) ≤ _
            omega
      have := ih (op.apply E s) (by rw [hstep.1]; exact hm) (by rw [hstep.1]; exact hstep.2)
      simp only [runStore, List.foldl_cons] at this ⊢
      rw [hstep.1] at this
      exact this

/-- C2. From the empty store, with `max_spots >= 50` left unchanged, the store
holds at most `max_spots` spots right after every `handleSpot` call, whatever
calls of `handleSpot` and `pruneSpots` came before and whether or not the
payload is accepted. -/
theorem handleSpot_capacity_bound (E : Engine) (s0 : State) (h0 : s0.spots = [])
    (hm : 50 ≤ s0.cfg.max_spots) (ops : List StoreOp) (now : Int) (payload : JsVal) :
    ((handleSpot E now payload (runStore E ops s0)).spots.length : Int) ≤ s0.cfg.max_spots := by
  have hinv := runStore_invariant E ops s0 (by omega) (by rw [h0]; simp; omega)
  have := handleSpot_length_le E now payload (runStore E ops s0)
    (by rw [hinv.1]; omega) (by rw [hinv.1]; exact hinv.2)
  rw [hinv.1] at this
  exact this

theorem handleSpot_capacity_bound_witness :
    sampleInit.spots = [] ∧ (50 : Int) ≤ sampleInit.cfg.max_spots
      ∧ ((handleSpot asciiEngine 1700000200 (.str "noise")
            (runStore asciiEngine
              [.ingest 1700000000 samplePayload, .prune 1700000100,
               .ingest 1700000150 otherPayload] sampleInit)).spots.length : Int)
          ≤ sampleInit.cfg.max_spots :=
  ⟨rfl, by decide,
    handleSpot_capacity_bound asciiEngine sampleInit rfl (by decide)
      [.ingest 1700000000 samplePayload, .prune 1700000100, .ingest 1700000150 otherPayload]
      1700000200 (.str "noise")⟩

theorem handleSpot_of_normalized (E : Engine) (input : Int × JsVal) (sp : Spot) (s : State)
    (h : normalized E input = some sp) :
    handleSpot E input.1 input.2 s = scheduleRender (pushSpot sp s) := by
  unfold normalized at h
  unfold handleSpot
  cases ha : accepts input.2 with
  | none => simp [ha] at h
  | some f =>
      simp only [ha] at h
      simp [h]

theorem ingestAll_spots (E : Engine) (m : Nat) (inputs : List (Int × JsVal)) (s : State)
    (hm : s.cfg.max_spots = m) (hs : s.spots.length ≤ m)
    (hv : ∀ x ∈ inputs, (normalized E x).isSome) :
    (ingestAll E inputs s).spots
      = (s.spots ++ inputs.filterMap (normalized E)).drop
          ((s.spots ++ inputs.filterMap (normalized E)).length - m) := by
  induction inputs generalizing s with
  | nil =>
      have : (s.spots ++ []).length - m = 0 := by simp; omega
      simp only [ingestAll, List.foldl_nil, List.filterMap_nil]
      rw [this, List.drop_zero, List.append_nil]
  | cons x xs ih =>
      obtain ⟨sp, hsp⟩ := Option.isSome_iff_exists.mp (hv x (List.mem_cons_self _ _))
      have hstep := handleSpot_of_normalized E x sp s hsp
      have hspots : (handleSpot E x.1 x.2 s).spots
          = (s.spots ++ [sp]).drop ((s.spots ++ [sp]).length - m) := by
        rw [hstep, scheduleRender_spots, pushSpot_spots, hm]
        congr 1
        simp only [List.length_append, List.length_singleton]
        omega
      have hcfg : (handleSpot E x.1 x.2 s).cfg.max_spots = m := by
        rw [handleSpot_cfg]; exact hm
      have hlen : (handleSpot E x.1 x.2 s).spots.length ≤ m := by
        rw [hspots, List.length_drop]; omega
      have := ih (handleSpot E x.1 x.2 s) hcfg hlen
        (fun y hy => hv y (List.mem_cons_of_mem _ hy))
      simp only [ingestAll, List.foldl_cons] at this ⊢
      rw [this, hspots, List.filterMap_cons, hsp]
      have hk : (s.spots ++ [sp]).length - m ≤ (s.spots ++ [sp]).length := Nat.sub_le _ _
      rw [← List.drop_append_of_le_length hk, List.drop_drop]
      have happ : s.spots ++ [sp] ++ List.filterMap (normalized E) xs
          = s.spots ++ sp :: List.filterMap (normalized E) xs := by simp
      rw [happ]
      congr 1
      simp only [List.length_drop, List.length_append, List.length_cons, List.length_singleton,
        List.length_nil]
      omega

theorem map_some_filterMap {α β : Type} (f : α → Option β) (l : List α)
    (hv : ∀ x ∈ l, (f x).isSome) : (l.filterMap f).map some = l.map f := by
  induction l with
  | nil => rfl
  | cons x xs ih =>
      obtain ⟨y, hy⟩ := Option.isSome_iff_exists.mp (hv x (List.mem_cons_self _ _))
      rw [List.filterMap_cons, hy, List.map_cons, List.map_cons, hy,
        ih (fun z hz => hv z (List.mem_cons_of_mem _ hz))]

/-- C3. Ingesting `n` valid payloads into an empty store with `max_spots = m`
and no pruning leaves exactly the normalized forms of the last `min n m`
payloads, in arrival order and without merging equal ones; the store then has
`min n m` entries, and with `n = m + 10` exactly the first ten are gone. -/
theorem handleSpot_fifo_eviction (E : Engine) (s0 : State) (m : Nat) (h0 : s0.spots = [])
    (hm : s0.cfg.max_spots = m) (inputs : List (Int × JsVal))
    (hv : ∀ x ∈ inputs, (normalized E x).isSome) :
    (ingestAll E inputs s0).spots.map some
        = (inputs.drop (inputs.length - min inputs.length m)).map (normalized E)
      ∧ (ingestAll E inputs s0).spots.length = min inputs.length m
      ∧ (inputs.length = m + 10 →
          (ingestAll E inputs s0).spots.map some = (inputs.drop 10).map (normalized E)) := by
  have hlenL : (inputs.filterMap (normalized E)).length = inputs.length := by
    have := congrArg List.length (map_some_filterMap (normalized E) inputs hv)
    simpa using this
  have key := ingestAll_spots E m inputs s0 hm (by rw [h0]; simp) hv
  rw [h0, List.nil_append, hlenL] at key
  have hmap : (ingestAll E inputs s0).spots.map some
      = (inputs.drop (inputs.length - m)).map (normalized E) := by
    rw [key, List.map_drop, map_some_filterMap _ _ hv, List.map_drop]
  have hsub : inputs.length - min inputs.length m = inputs.length - m := by omega
  refine ⟨by rw [hsub]; exact hmap, ?_, ?_⟩
  · rw [key, List.length_drop, hlenL]; omega
  · intro hn
    rw [hmap, hn]
    congr 2
    omega

theorem handleSpot_fifo_eviction_witness :
    smallStore.spots = [] ∧ smallStore.cfg.max_spots = (2 : Nat)
      ∧ (∀ x ∈ [((1700000000 : Int), samplePayload), (1700000001, samplePayload),
            (1700000002, otherPayload)], (normalized asciiEngine x).isSome)
      ∧ (ingestAll asciiEngine [(1700000000, samplePayload), (1700000001, samplePayload),
            (1700000002, otherPayload)] smallStore).spots.map some
          = [normalized asciiEngine (1700000001, samplePayload),
             normalized asciiEngine (1700000002, otherPayload)] :=
  have hv : ∀ x ∈ [((1700000000 : Int), samplePayload), (1700000001, samplePayload),
      (1700000002, otherPayload)], (normalized asciiEngine x).isSome := by
    decide!
  ⟨rfl, rfl, hv,
    (handleSpot_fifo_eviction asciiEngine smallStore 2 rfl rfl
      [(1700000000, samplePayload), (1700000001, samplePayload), (1700000002, otherPayload)]
      hv).1⟩

/-! ### Mode classification -/

/-- C5. `classifyMode` looks at the upper-cased mode `m`: it answers `CW` when
`m` contains "CW"; otherwise `SSB` (voice) when `m` contains one of SSB, USB,
LSB, AM, FM; otherwise `FT8` (digital) when `m` contains one of FT8, FT4, RTTY,
PSK, DIGI. With ASCII upper-casing, "USB" is voice, "CWR" is CW, "FT8" is
digital and "XYZZY" stays "XYZZY". -/
theorem classifyMode_priority (E : Engine) (mode : Option String) :
    (Contains (E.toUpperCase (mode.getD "")) "CW" → classifyMode E mode = "CW")
      ∧ (¬ Contains (E.toUpperCase (mode.getD "")) "CW" →
          (∃ kw ∈ voiceKeywords, Contains (E.toUpperCase (mode.getD "")) kw) →
          classifyMode E mode = "SSB")
      ∧ (¬ Contains (E.toUpperCase (mode.getD "")) "CW" →
          (¬ ∃ kw ∈ voiceKeywords, Contains (E.toUpperCase (mode.getD "")) kw) →
          (∃ kw ∈ digitalKeywords, Contains (E.toUpperCase (mode.getD "")) kw) →
          classifyMode E mode = "FT8")
      ∧ classifyMode asciiEngine (some "USB") = "SSB"
      ∧ classifyMode asciiEngine (some "CWR") = "CW"
      ∧ classifyMode asciiEngine (some "FT8") = "FT8"
      ∧ classifyMode asciiEngine (some "XYZZY") = "XYZZY" := by
  refine ⟨?_, ?_, ?_, by decide, by decide, by decide, by decide⟩
  · intro h
    have := (indexOf_nonneg_iff _ _).mpr h
    simp only [classifyMode, this, if_true]
  · intro hcw hv
    have h1 : ¬ indexOf (E.toUpperCase (mode.getD "")) "CW" ≥ 0 :=
      fun h => hcw ((indexOf_nonneg_iff _ _).mp h)
    simp only [voiceKeywords, List.mem_cons, List.mem_singleton, exists_eq_or_imp,
      exists_eq_left, List.not_mem_nil, false_and, exists_false, or_false,
      ← indexOf_nonneg_iff] at hv
    simp only [classifyMode, h1, if_false, hv, if_true]
  · intro hcw hv hd
    have h1 : ¬ indexOf (E.toUpperCase (mode.getD "")) "CW" ≥ 0 :=
      fun h => hcw ((indexOf_nonneg_iff _ _).mp h)
    simp only [voiceKeywords, List.mem_cons, List.mem_singleton, exists_eq_or_imp,
      exists_eq_left, List.not_mem_nil, false_and, exists_false, or_false,
      ← indexOf_nonneg_iff] at hv
    simp only [digitalKeywords, List.mem_cons, List.mem_singleton, exists_eq_or_imp,
      exists_eq_left, List.not_mem_nil, false_and, exists_false, or_false,
      ← indexOf_nonneg_iff] at hd
    simp only [classifyMode, h1, if_false, hv, hd, if_true]

/-- C6, as stated, fails: the empty mode and the absent mode contain no
keyword, yet `classifyMode` answers "UNKNOWN", not the (empty) upper-cased
string. -/
theorem classifyMode_empty_not_passthrough :
    (∀ kw ∈ allKeywords, ¬ Contains (asciiEngine.toUpperCase ((some "").getD "")) kw)
      ∧ classifyMode asciiEngine (some "") = "UNKNOWN"
      ∧ classifyMode asciiEngine (some "") ≠ asciiEngine.toUpperCase ((some "").getD "")
      ∧ (∀ kw ∈ allKeywords, ¬ Contains (asciiEngine.toUpperCase ((none : Option String).getD "")) kw)
      ∧ classifyMode asciiEngine none = "UNKNOWN"
      ∧ classifyMode asciiEngine none ≠ asciiEngine.toUpperCase ((none : Option String).getD "") := by
  refine ⟨?_, by decide, by decide, ?_, by decide, by decide⟩ <;>
  · intro kw hkw
    rw [← indexOf_nonneg_iff]
    revert kw
    decide

/-- C6, amended. When the upper-cased mode `m` contains none of the keywords,
`classifyMode` returns `m` itself if `m` is not empty, and "UNKNOWN" if `m` is
empty. -/
theorem classifyMode_passthrough (E : Engine) (mode : Option String)
    (h : ∀ kw ∈ allKeywords, ¬ Contains (E.toUpperCase (mode.getD "")) kw) :
    classifyMode E mode
      = if E.toUpperCase (mode.getD "") = "" then "UNKNOWN" else E.toUpperCase (mode.getD "") := by
  simp only [allKeywords, voiceKeywords, digitalKeywords, List.cons_append, List.nil_append,
    List.mem_cons, List.mem_singleton, List.not_mem_nil, or_false, forall_eq_or_imp, forall_eq,
    ← indexOf_nonneg_iff] at h
  obtain ⟨h1, h2, h3, h4, h5, h6, h7, h8, h9, h10, h11⟩ := h
  simp only [classifyMode, h1, h2, h3, h4, h5, h6, h7, h8, h9, h10, h11, or_self, if_false]
  by_cases hm : E.toUpperCase (mode.getD "") = "" <;> simp [hm]

theorem classifyMode_passthrough_witness :
    (∀ kw ∈ allKeywords, ¬ Contains (asciiEngine.toUpperCase ((some "xyzzy").getD "")) kw)
      ∧ classifyMode asciiEngine (some "xyzzy")
          = if asciiEngine.toUpperCase ((some "xyzzy").getD "") = "" then "UNKNOWN"
            else asciiEngine.toUpperCase ((some "xyzzy").getD "") :=
  have h : ∀ kw ∈ allKeywords, ¬ Contains (asciiEngine.toUpperCase ((some "xyzzy").getD "")) kw := by
    intro kw hkw
    rw [← indexOf_nonneg_iff]
    revert kw
    decide
  ⟨h, classifyMode_passthrough asciiEngine (some "xyzzy") h⟩

/-! ### Reconnect delay -/

theorem BackoffInv_of_eq {s s' : State} (hb : s'.wsBackoff = s.wsBackoff)
    (ht : s'.timers = s.timers) (h : BackoffInv s) : BackoffInv s' := by
  unfold BackoffInv at *
  rw [hb, ht]
  exact h

theorem scheduleRender_backoff (s : State) : BackoffInv s → BackoffInv (scheduleRender s) := by
  unfold scheduleRender
  split
  · exact id
  · exact BackoffInv_of_eq rfl rfl

theorem pruneSpots_backoff (now : Int) (s : State) :
    BackoffInv s → BackoffInv (pruneSpots now s) := by
  simp only [pruneSpots]
  split
  · exact id
  · exact BackoffInv_of_eq rfl rfl

theorem handleSpot_backoff (E : Engine) (now : Int) (p : JsVal) (s : State) :
    BackoffInv s → BackoffInv (handleSpot E now p s) := by
  intro h
  unfold handleSpot
  split
  · exact h
  · split
    · exact h
    · apply scheduleRender_backoff
      simp only [pushSpot]
      split <;> exact BackoffInv_of_eq rfl rfl h

theorem scheduleReconnect_backoff (s : State) :
    BackoffInv s → BackoffInv (scheduleReconnect s) := by
  intro h
  obtain ⟨h1, h2, h3⟩ := h
  unfold scheduleReconnect
  split
  · exact ⟨h1, h2, h3⟩
  · have hn : ¬ s.wsBackoff > 30000 := not_lt.mpr h2
    simp only [hn, if_false]
    refine ⟨h1, h2, ?_⟩
    intro d hd
    rcases List.mem_append.mp hd with hd | hd
    · exact h3 d hd
    · rw [List.mem_singleton.mp hd]
      exact ⟨h1, h2⟩

theorem connectWs_backoff (throws : Bool) (s : State) :
    BackoffInv s → BackoffInv (connectWs throws s) := by
  intro h
  simp only [connectWs]
  split_ifs <;>
    first
    | exact h
    | exact BackoffInv_of_eq rfl rfl h
    | exact scheduleReconnect_backoff _ (BackoffInv_of_eq rfl rfl h)

theorem scheduleReconnect_wsBackoff (s : State) :
    (scheduleReconnect s).wsBackoff = s.wsBackoff
      ∨ (30000 < s.wsBackoff ∧ (scheduleReconnect s).wsBackoff = 30000) := by
  unfold scheduleReconnect
  split
  · exact Or.inl rfl
  · by_cases hb : s.wsBackoff > 30000
    · right
      refine ⟨hb, ?_⟩
      simp only [hb, if_true]
    · left
      simp only [hb, if_false]

theorem connectWs_wsBackoff (throws : Bool) (s : State) :
    (connectWs throws s).wsBackoff = s.wsBackoff
      ∨ (30000 < s.wsBackoff ∧ (connectWs throws s).wsBackoff = 30000) := by
  simp only [connectWs]
  split_ifs <;>
    first
    | exact Or.inl rfl
    | exact scheduleReconnect_wsBackoff _

theorem reconnectTimer_wsBackoff (throws : Bool) (s : State) :
    (reconnectTimer throws s).wsBackoff = min 30000 (s.wsBackoff * (3 / 2)) := by
  show min 30000 ((connectWs throws s).wsBackoff * (3 / 2)) = _
  rcases connectWs_wsBackoff throws s with h | ⟨hb, h⟩
  · rw [h]
  · rw [h]
    have h1 : (30000 : ℚ) ≤ 30000 * (3 / 2) := by norm_num
    have h2 : (30000 : ℚ) ≤ s.wsBackoff * (3 / 2) := by linarith
    rw [min_eq_left h1, min_eq_left h2]

theorem reconnectTimer_backoff (throws : Bool) (s : State) :
    BackoffInv s → BackoffInv (reconnectTimer throws s) := by
  intro h
  have hc := connectWs_backoff throws s h
  obtain ⟨h1, h2, h3⟩ := hc
  refine ⟨?_, ?_, h3⟩
  · show 1000 ≤ min 30000 ((connectWs throws s).wsBackoff * (3 / 2))
    apply le_min
    · norm_num
    · linarith
  · exact min_le_left _ _

theorem setSocket_backoff (s : State) (i : Nat) (sk : Socket) :
    BackoffInv s → BackoffInv (setSocket s i sk) :=
  BackoffInv_of_eq rfl rfl

theorem onOpen_backoff (i : Nat) (s : State) : BackoffInv s → BackoffInv (onOpen i s) := by
  intro h
  unfold onOpen
  split
  · exact h
  · split
    · exact h
    · split
      · exact setSocket_backoff _ _ _ h
      · exact ⟨le_refl _, by norm_num, h.2.2⟩

theorem onClosing_backoff (i : Nat) (s : State) : BackoffInv s → BackoffInv (onClosing i s) := by
  intro h
  unfold onClosing
  split
  · exact h
  · split
    · exact setSocket_backoff _ _ _ h
    · exact h

theorem onClose_backoff (i : Nat) (s : State) : BackoffInv s → BackoffInv (onClose i s) := by
  intro h
  simp only [onClose]
  split
  · exact h
  · split
    · exact h
    · split
      · exact setSocket_backoff _ _ _ h
      · apply scheduleReconnect_backoff
        split
        · exact BackoffInv_of_eq rfl rfl h
        · exact setSocket_backoff _ _ _ h

theorem onMessage_backoff (E : Engine) (i : Nat) (now : Int) (p : Option JsVal) (s : State) :
    BackoffInv s → BackoffInv (onMessage E i now p s) := by
  intro h
  unfold onMessage
  split
  · exact h
  · split
    · split
      · exact h
      · exact handleSpot_backoff E now _ s h
    · exact h

theorem closeWs_backoff (s : State) : BackoffInv s → BackoffInv (closeWs s) := by
  intro h
  simp only [closeWs]
  split
  · exact h
  · split <;> exact BackoffInv_of_eq rfl rfl h

theorem applyEffectiveEnabled_backoff (throws : Bool) (s : State) :
    BackoffInv s → BackoffInv (applyEffectiveEnabled throws s) := by
  intro h
  simp only [applyEffectiveEnabled]
  split
  · exact h
  · split
    · exact closeWs_backoff _ (BackoffInv_of_eq rfl rfl h)
    · exact scheduleRender_backoff _ (connectWs_backoff _ _ (BackoffInv_of_eq rfl rfl h))

theorem syncServerConfig_backoff (flag : Option Bool) (throws : Bool) (s : State) :
    BackoffInv s → BackoffInv (syncServerConfig flag throws s) := by
  intro h
  unfold syncServerConfig
  split
  · exact h
  · split
    · exact h
    · exact applyEffectiveEnabled_backoff _ _ (BackoffInv_of_eq rfl rfl h)

theorem onToggle_backoff (checked throws : Bool) (s : State) :
    BackoffInv s → BackoffInv (onToggle checked throws s) := by
  intro h
  unfold onToggle updateConfig
  exact applyEffectiveEnabled_backoff _ _ (BackoffInv_of_eq rfl rfl h)

theorem start_backoff (overlay t1 t2 : Bool) (s : State) :
    BackoffInv s → BackoffInv (start overlay t1 t2 s) := by
  intro h
  simp only [start]
  split
  · exact h
  · apply scheduleRender_backoff
    exact BackoffInv_of_eq rfl rfl
      (connectWs_backoff t2 _ (applyEffectiveEnabled_backoff t1 s h))

theorem render_backoff (E : Engine) (h : Host) (now : Int) (s : State) :
    BackoffInv s → BackoffInv (render E h now s).1 := by
  intro hs
  have h1 : BackoffInv { s with renderPending := false } := BackoffInv_of_eq rfl rfl hs
  simp only [render]
  split
  · exact h1
  · split
    · exact scheduleRender_backoff _ h1
    · have h2 := syncServerConfig_backoff h.serverFlag h.wsThrows _ h1
      split
      · exact h2
      · simp only [drawSpots]
        split
        · exact h2
        · split <;> exact pruneSpots_backoff _ _ h2

theorem step_backoff (E : Engine) (ev : Event) (s : State) :
    BackoffInv s → BackoffInv (step E ev s) := by
  intro h
  cases ev with
  | start o t1 t2 => exact start_backoff o t1 t2 s h
  | wsOpen i => exact onOpen_backoff i s h
  | wsClosing i => exact onClosing_backoff i s h
  | wsClose i => exact onClose_backoff i s h
  | wsMessage i now p => exact onMessage_backoff E i now p s h
  | timer k throws =>
      simp only [step]
      split
      · apply reconnectTimer_backoff
        refine ⟨h.1, h.2.1, ?_⟩
        intro d hd
        exact h.2.2 d (List.mem_of_mem_eraseIdx hd)
      · exact h
  | toggle c t => exact onToggle_backoff c t s h
  | render hh now => exact render_backoff E hh now s h

theorem run_backoff (E : Engine) (events : List Event) (s : State) :
    BackoffInv s → BackoffInv (run E events s) := by
  induction events generalizing s with
  | nil => exact id
  | cons ev evs ih =>
      intro h
      exact ih _ (step_backoff E ev s h)

theorem init_backoff (cfg : Cfg) (srv : Option Bool) (loc : Location) :
    BackoffInv (init cfg srv loc) := by
  refine ⟨le_refl _, ?_, ?_⟩
  · show (1000 : ℚ) ≤ 30000
    norm_num
  · intro d hd
    simp [init] at hd

theorem onOpen_wsBackoff (i : Nat) (s : State) (sk : Socket) (hsk : s.sockets.get? i = some sk)
    (hc : sk.readyState = .connecting) (ha : sk.attached = true) :
    (onOpen i s).wsBackoff = 1000 := by
  unfold onOpen
  rw [hsk]
  simp [hc, ha]

/-- C9. From `wsBackoff = 1000`, after any sequence of callbacks (start-up,
socket opens and closes, constructor failures, timer firings, messages,
toggles, render ticks) the delay stays in `[1000, 30000]` and so does the delay
of every reconnect timer set; a timer firing replaces the delay by
`min(30000, 1.5 * delay)`; the open of a connecting socket whose handlers are
set resets it to 1000. After ten failed attempts in a row the delay is 30000,
and one open later it is 1000. -/
theorem wsBackoff_bounds (E : Engine) (cfg : Cfg) (srv : Option Bool) (loc : Location)
    (events : List Event) :
    let s := run E events (init cfg srv loc)
    (1000 ≤ s.wsBackoff ∧ s.wsBackoff ≤ 30000)
      ∧ (∀ d ∈ s.timers, 1000 ≤ d ∧ d ≤ 30000)
      ∧ (∀ k throws, k < s.timers.length →
          (step E (.timer k throws) s).wsBackoff = min 30000 (s.wsBackoff * (3 / 2)))
      ∧ (∀ i sk, s.sockets.get? i = some sk → sk.readyState = .connecting →
          sk.attached = true → (step E (.wsOpen i) s).wsBackoff = 1000)
      ∧ (run asciiEngine (failedAttempts 10) sampleInit).wsBackoff = 30000
      ∧ (run asciiEngine (failedAttempts 10 ++ [.wsOpen 10]) sampleInit).wsBackoff = 1000 := by
  intro s
  have hinv : BackoffInv s := run_backoff E events _ (init_backoff cfg srv loc)
  refine ⟨⟨hinv.1, hinv.2.1⟩, hinv.2.2, ?_, ?_, by decide!, by decide!⟩
  · intro k throws hk
    simp only [step, hk, if_true]
    exact reconnectTimer_wsBackoff throws _
  · intro i sk hsk hc ha
    exact onOpen_wsBackoff i s sk hsk hc ha

/-! ### Endpoint failover -/

theorem candidateUrls_congr {s s' : State} (hc : s'.cfg = s.cfg) (hl : s'.location = s.location) :
    candidateUrls s' = candidateUrls s := by
  unfold candidateUrls
  rw [hc, hl]

/-- What a `connectWs` call that reaches the constructor, which does not throw,
leaves behind. -/
theorem connectWs_attempt (s : State) (he : s.enabled = true) (hb : wsBusy s = false)
    (hlt : s.wsUrlIndex < (candidateUrls s).length) :
    (connectWs false s).ws = some s.sockets.length
      ∧ (connectWs false s).sockets = s.sockets ++
          [{ url := (candidateUrls s).getD s.wsUrlIndex "", readyState := .connecting,
             opened := false, urls := candidateUrls s, attached := true }]
      ∧ (connectWs false s).wsUrlIndex = s.wsUrlIndex
      ∧ (connectWs false s).enabled = true
      ∧ (connectWs false s).cfg = s.cfg
      ∧ (connectWs false s).location = s.location
      ∧ (connectWs false s).timers = s.timers := by
  have hne : ¬ (candidateUrls s).length = 0 := by omega
  have hge : ¬ s.wsUrlIndex ≥ (candidateUrls s).length := by omega
  have hb' : wsBusy { s with wsUrls := some (candidateUrls s) } = false := hb
  have he' : (!({ s with wsUrls := some (candidateUrls s) } : State).enabled) = false := by
    show (!s.enabled) = false
    rw [he]; rfl
  unfold connectWs
  simp only [hne, hge, if_false]
  rw [if_neg (by rw [he']; exact Bool.false_ne_true), if_neg (by rw [hb']; exact Bool.false_ne_true),
    if_neg Bool.false_ne_true]
  exact ⟨rfl, rfl, rfl, he, rfl, rfl, rfl⟩

theorem scheduleReconnect_fields (s : State) (he : s.enabled = true) :
    (scheduleReconnect s).wsUrlIndex = s.wsUrlIndex
      ∧ (scheduleReconnect s).sockets = s.sockets
      ∧ (scheduleReconnect s).ws = s.ws
      ∧ (scheduleReconnect s).enabled = true
      ∧ (scheduleReconnect s).cfg = s.cfg
      ∧ (scheduleReconnect s).location = s.location
      ∧ (scheduleReconnect s).timers.length = s.timers.length + 1 := by
  unfold scheduleReconnect
  rw [if_neg (by rw [he]; exact Bool.false_ne_true)]
  by_cases hb : s.wsBackoff > 30000
  · rw [if_pos hb]
    exact ⟨rfl, rfl, rfl, he, rfl, rfl, by simp⟩
  · rw [if_neg hb]
    exact ⟨rfl, rfl, rfl, he, rfl, rfl, by simp⟩

/-- What the `onclose` handler of a socket that is not yet closed leaves
behind, while the overlay is enabled. -/
theorem onClose_fields (j : Nat) (s : State) (sk : Socket) (hsk : s.sockets.get? j = some sk)
    (hr : sk.readyState ≠ .closed) (ha : sk.attached = true) (he : s.enabled = true) :
    (onClose j s).wsUrlIndex
        = (if sk.opened = false ∧ sk.urls.length > 1 then (s.wsUrlIndex + 1) % sk.urls.length
           else s.wsUrlIndex)
      ∧ (onClose j s).sockets = s.sockets.set j { sk with readyState := .closed }
      ∧ (onClose j s).ws = s.ws
      ∧ (onClose j s).enabled = true
      ∧ (onClose j s).cfg = s.cfg
      ∧ (onClose j s).location = s.location
      ∧ (onClose j s).timers.length = s.timers.length + 1 := by
  unfold onClose
  rw [hsk]
  simp only [hr, if_false, ha, Bool.not_true, Bool.false_eq_true]
  by_cases hc : sk.opened = false ∧ sk.urls.length > 1
  · have hc' : (!sk.opened) = true ∧ sk.urls.length > 1 := by
      refine ⟨?_, hc.2⟩
      rw [hc.1]; rfl
    rw [if_pos hc', if_pos hc]
    exact scheduleReconnect_fields _ he
  · have hc' : ¬ ((!sk.opened) = true ∧ sk.urls.length > 1) := by
      intro h
      apply hc
      refine ⟨?_, h.2⟩
      cases ho : sk.opened
      · rfl
      · rw [ho] at h; exact absurd h.1 (by decide)
    rw [if_neg hc', if_neg hc]
    exact scheduleReconnect_fields _ he

/-- What the `onopen` handler of a connecting socket leaves behind. -/
theorem onOpen_fields (j : Nat) (s : State) (sk : Socket) (hsk : s.sockets.get? j = some sk)
    (hr : sk.readyState = .connecting) (ha : sk.attached = true) :
    (onOpen j s).wsUrlIndex = s.wsUrlIndex
      ∧ (onOpen j s).sockets = s.sockets.set j { sk with readyState := .isOpen, opened := true }
      ∧ (onOpen j s).ws = s.ws
      ∧ (onOpen j s).enabled = s.enabled
      ∧ (onOpen j s).cfg = s.cfg
      ∧ (onOpen j s).location = s.location
      ∧ (onOpen j s).timers = s.timers := by
  unfold onOpen
  rw [hsk]
  simp only [hr, ne_eq, not_true_eq_false, if_false, ha, Bool.not_true, Bool.false_eq_true]
  exact ⟨rfl, rfl, rfl, rfl, rfl, rfl, rfl⟩

theorem wsBusy_closed (s : State) (j : Nat) (sk : Socket) (hws : s.ws = some j)
    (hsk : s.sockets.get? j = some sk) (hr : sk.readyState = .closed) : wsBusy s = false := by
  unfold wsBusy
  rw [hws]
  simp only []
  rw [hsk]
  simp [hr]

/-- The reconnect timer, fired while the overlay is enabled and the socket
`state.ws` is closed, opens a new socket to the candidate under the cursor. -/
theorem timer_attempt (E : Engine) (s : State) (k j : Nat) (sk : Socket)
    (hk : k < s.timers.length) (he : s.enabled = true) (hws : s.ws = some j)
    (hsk : s.sockets.get? j = some sk) (hr : sk.readyState = .closed)
    (hlt : s.wsUrlIndex < (candidateUrls s).length) :
    (step E (.timer k false) s).ws = some s.sockets.length
      ∧ attemptUrl (step E (.timer k false) s) = (candidateUrls s).get? s.wsUrlIndex := by
  have hb : wsBusy { s with timers := s.timers.eraseIdx k } = false :=
    wsBusy_closed _ j sk hws hsk hr
  have hc := connectWs_attempt { s with timers := s.timers.eraseIdx k } he hb hlt
  obtain ⟨h1, h2, -⟩ := hc
  have hstep : step E (.timer k false) s
      = reconnectTimer false { s with timers := s.timers.eraseIdx k } := by
    simp only [step, hk, if_true]
  have hws' : (step E (.timer k false) s).ws = some s.sockets.length := by
    rw [hstep]; exact h1
  have hso : (step E (.timer k false) s).sockets = s.sockets ++
      [{ url := (candidateUrls s).getD s.wsUrlIndex "", readyState := .connecting,
         opened := false, urls := candidateUrls s, attached := true }] := by
    rw [hstep]; exact h2
  refine ⟨hws', ?_⟩
  unfold attemptUrl
  rw [hws']
  simp only []
  rw [hso]
  simp [List.getD_eq_getElem?_getD, List.getElem?_eq_getElem hlt]

/-- After the socket `state.ws` closes, any firing of a reconnect timer opens a
new socket: to the next candidate if the closed one never opened, to the same
candidate otherwise. -/
theorem close_then_timer (E : Engine) (s : State) (j k : Nat) (sk : Socket)
    (he : s.enabled = true) (hws : s.ws = some j) (hsk : s.sockets.get? j = some sk)
    (hr : sk.readyState ≠ .closed) (ha : sk.attached = true)
    (hu : sk.urls = candidateUrls s) (hn : 1 < (candidateUrls s).length)
    (hlt : s.wsUrlIndex < (candidateUrls s).length)
    (hk : k < (onClose j s).timers.length) :
    0 < (onClose j s).timers.length
      ∧ (step E (.timer k false) (onClose j s)).ws = some s.sockets.length
      ∧ attemptUrl (step E (.timer k false) (onClose j s))
          = (candidateUrls s).get?
              (if sk.opened = false then (s.wsUrlIndex + 1) % (candidateUrls s).length
               else s.wsUrlIndex) := by
  obtain ⟨c1, c2, c3, c4, c5, c6, c7⟩ := onClose_fields j s sk hsk hr ha he
  have hcu : candidateUrls (onClose j s) = candidateUrls s := candidateUrls_congr c5 c6
  have hj : j < s.sockets.length := by
    rcases Nat.lt_or_ge j s.sockets.length with h | h
    · exact h
    · rw [List.get?_eq_none.mpr h] at hsk
      exact absurd hsk (by simp)
  have hidx : (onClose j s).wsUrlIndex
      = (if sk.opened = false then (s.wsUrlIndex + 1) % (candidateUrls s).length
         else s.wsUrlIndex) := by
    rw [c1, hu]
    by_cases ho : sk.opened = false
    · rw [if_pos ⟨ho, hn⟩, if_pos ho]
    · rw [if_neg (fun h => ho h.1), if_neg ho]
  have hlt2 : (onClose j s).wsUrlIndex < (candidateUrls (onClose j s)).length := by
    rw [hcu, hidx]
    split
    · exact Nat.mod_lt _ (by omega)
    · exact hlt
  have hsk2 : (onClose j s).sockets.get? j = some { sk with readyState := .closed } := by
    rw [c2]
    simp [List.getElem?_set_self, hj]
  have ht := timer_attempt E (onClose j s) k j _ hk c4 (c3.trans hws) hsk2 rfl hlt2
  refine ⟨by omega, ?_, ?_⟩
  · rw [ht.1, c2, List.length_set]
  · rw [ht.2, hcu, hidx]

theorem uniqUrlsLoop_nodup (out list : List String) (h : out.Nodup) :
    (uniqUrlsLoop out list).Nodup := by
  induction list generalizing out with
  | nil => exact h
  | cons url rest ih =>
      unfold uniqUrlsLoop
      split
      · exact ih out h
      · rename_i hc
        apply ih
        have hnot : url ∉ out := fun hm => hc (Or.inr (Or.inr hm))
        exact List.Nodup.append h (List.nodup_singleton url)
          (by
            intro a ha hb
            rw [List.mem_singleton.mp hb] at ha
            exact hnot ha)

theorem candidateUrls_nodup (s : State) : (candidateUrls s).Nodup := by
  unfold candidateUrls uniqUrls
  exact uniqUrlsLoop_nodup _ _ List.nodup_nil

theorem candidateUrls_congr_fields {s s' : State} (h1 : s'.cfg.ws_url = s.cfg.ws_url)
    (h2 : s'.cfg.ws_urls = s.cfg.ws_urls) (hl : s'.location = s.location) :
    candidateUrls s' = candidateUrls s := by
  unfold candidateUrls
  rw [h1, h2, hl]

theorem CursorInv_of_eq {urls : List String} {s s' : State}
    (h1 : s'.cfg.ws_url = s.cfg.ws_url) (h2 : s'.cfg.ws_urls = s.cfg.ws_urls)
    (hl : s'.location = s.location) (hs : s'.sockets = s.sockets)
    (hi : s'.wsUrlIndex = s.wsUrlIndex) (h : CursorInv urls s) : CursorInv urls s' := by
  unfold CursorInv at *
  rw [candidateUrls_congr_fields h1 h2 hl, hs, hi]
  exact h

theorem CursorInv_zero {urls : List String} {s s' : State} (h : CursorInv urls s)
    (h1 : s'.cfg.ws_url = s.cfg.ws_url) (h2 : s'.cfg.ws_urls = s.cfg.ws_urls)
    (hl : s'.location = s.location) (hs : s'.sockets = s.sockets)
    (hi : s'.wsUrlIndex = 0) : CursorInv urls s' := by
  unfold CursorInv at *
  rw [candidateUrls_congr_fields h1 h2 hl, hs, hi]
  exact ⟨h.1, h.2.1, Or.inl rfl⟩

theorem setSocket_cursor {urls : List String} (s : State) (i : Nat) (sk : Socket)
    (hsk : sk.urls = urls) (h : CursorInv urls s) : CursorInv urls (setSocket s i sk) := by
  refine ⟨h.1, ?_, h.2.2⟩
  intro sk' hm
  rcases List.mem_or_eq_of_mem_set hm with hm | rfl
  · exact h.2.1 sk' hm
  · exact hsk

theorem scheduleRender_cursor {urls : List String} (s : State) (h : CursorInv urls s) :
    CursorInv urls (scheduleRender s) := by
  unfold scheduleRender
  split
  · exact h
  · exact CursorInv_of_eq rfl rfl rfl rfl rfl h

theorem pruneSpots_cursor {urls : List String} (now : Int) (s : State) (h : CursorInv urls s) :
    CursorInv urls (pruneSpots now s) := by
  simp only [pruneSpots]
  split
  · exact h
  · exact CursorInv_of_eq rfl rfl rfl rfl rfl h

theorem handleSpot_cursor {urls : List String} (E : Engine) (now : Int) (p : JsVal) (s : State)
    (h : CursorInv urls s) : CursorInv urls (handleSpot E now p s) := by
  unfold handleSpot
  split
  · exact h
  · split
    · exact h
    · apply scheduleRender_cursor
      simp only [pushSpot]
      split <;> exact CursorInv_of_eq rfl rfl rfl rfl rfl h

theorem scheduleReconnect_cursor {urls : List String} (s : State) (h : CursorInv urls s) :
    CursorInv urls (scheduleReconnect s) := by
  unfold scheduleReconnect
  split
  · exact h
  · split <;> exact CursorInv_of_eq rfl rfl rfl rfl rfl h

theorem connectWs_cursor {urls : List String} (throws : Bool) (s : State)
    (h : CursorInv urls s) : CursorInv urls (connectWs throws s) := by
  obtain ⟨h1, h2, h3⟩ := h
  by_cases hz : (candidateUrls s).length = 0
  · simp only [connectWs, hz, if_true]
    exact ⟨h1, h2, h3⟩
  · have hpos : 0 < urls.length := by rw [← h1]; omega
    have hmod : (s.wsUrlIndex + 1) % (candidateUrls s).length < urls.length := by
      rw [h1]; exact Nat.mod_lt _ hpos
    have hmod0 : (0 + 1) % (candidateUrls s).length < urls.length := by
      rw [h1]; exact Nat.mod_lt _ hpos
    have hnew : ∀ (u : String) (sk : Socket),
        sk ∈ s.sockets ++ [(⟨u, .connecting, false, candidateUrls s, true⟩ : Socket)] →
          sk.urls = urls := by
      intro u sk hm
      rcases List.mem_append.mp hm with hm | hm
      · exact h2 sk hm
      · rw [List.mem_singleton.mp hm]; exact h1
    simp only [connectWs, hz, if_false]
    split_ifs <;>
      first
      | exact ⟨h1, h2, h3⟩
      | exact ⟨h1, h2, Or.inl rfl⟩
      | exact scheduleReconnect_cursor _ ⟨h1, h2, Or.inr hmod⟩
      | exact scheduleReconnect_cursor _ ⟨h1, h2, Or.inr hmod0⟩
      | exact ⟨h1, hnew _, h3⟩
      | exact ⟨h1, hnew _, Or.inl rfl⟩

theorem reconnectTimer_cursor {urls : List String} (throws : Bool) (s : State)
    (h : CursorInv urls s) : CursorInv urls (reconnectTimer throws s) :=
  CursorInv_of_eq rfl rfl rfl rfl rfl (connectWs_cursor throws s h)

theorem mem_of_get?_eq_some {α : Type} {l : List α} {i : Nat} {a : α}
    (h : l.get? i = some a) : a ∈ l := by
  exact List.get?_mem h

theorem onOpen_cursor {urls : List String} (i : Nat) (s : State) (h : CursorInv urls s) :
    CursorInv urls (onOpen i s) := by
  unfold onOpen
  split
  · exact h
  · rename_i sk hsk
    have hu : sk.urls = urls := h.2.1 sk (mem_of_get?_eq_some hsk)
    split
    · exact h
    · split
      · exact setSocket_cursor _ _ _ hu h
      · exact CursorInv_of_eq rfl rfl rfl rfl rfl
          (setSocket_cursor s i { sk with readyState := .isOpen, opened := true } hu h)

theorem onClosing_cursor {urls : List String} (i : Nat) (s : State) (h : CursorInv urls s) :
    CursorInv urls (onClosing i s) := by
  unfold onClosing
  split
  · exact h
  · rename_i sk hsk
    have hu : sk.urls = urls := h.2.1 sk (mem_of_get?_eq_some hsk)
    split
    · exact setSocket_cursor _ _ _ hu h
    · exact h

theorem onClose_cursor {urls : List String} (i : Nat) (s : State) (h : CursorInv urls s) :
    CursorInv urls (onClose i s) := by
  simp only [onClose]
  split
  · exact h
  · rename_i sk hsk
    have hu : sk.urls = urls := h.2.1 sk (mem_of_get?_eq_some hsk)
    have hs1 : CursorInv urls (setSocket s i { sk with readyState := .closed }) :=
      setSocket_cursor _ _ _ hu h
    split
    · exact h
    · split
      · exact hs1
      · apply scheduleReconnect_cursor
        split
        · rename_i hc
          refine ⟨hs1.1, hs1.2.1, Or.inr ?_⟩
          rw [hu]
          exact Nat.mod_lt _ (by rw [← hu]; omega)
        · exact hs1

theorem onMessage_cursor {urls : List String} (E : Engine) (i : Nat) (now : Int)
    (p : Option JsVal) (s : State) (h : CursorInv urls s) :
    CursorInv urls (onMessage E i now p s) := by
  unfold onMessage
  split
  · exact h
  · split
    · split
      · exact h
      · exact handleSpot_cursor E now _ s h
    · exact h

theorem closeWs_cursor {urls : List String} (s : State) (h : CursorInv urls s) :
    CursorInv urls (closeWs s) := by
  simp only [closeWs]
  split
  · exact h
  · split
    · exact CursorInv_of_eq rfl rfl rfl rfl rfl h
    · rename_i sk hsk
      have hu : sk.urls = urls := h.2.1 sk (mem_of_get?_eq_some hsk)
      exact CursorInv_of_eq rfl rfl rfl rfl rfl (setSocket_cursor s _ _ (by exact hu) h)

theorem applyEffectiveEnabled_cursor {urls : List String} (throws : Bool) (s : State)
    (h : CursorInv urls s) : CursorInv urls (applyEffectiveEnabled throws s) := by
  simp only [applyEffectiveEnabled]
  split
  · exact h
  · split
    · exact closeWs_cursor _ (CursorInv_of_eq rfl rfl rfl rfl rfl h)
    · exact scheduleRender_cursor _ (connectWs_cursor _ _ (CursorInv_of_eq rfl rfl rfl rfl rfl h))

theorem syncServerConfig_cursor {urls : List String} (flag : Option Bool) (throws : Bool)
    (s : State) (h : CursorInv urls s) : CursorInv urls (syncServerConfig flag throws s) := by
  unfold syncServerConfig
  split
  · exact h
  · split
    · exact h
    · exact applyEffectiveEnabled_cursor _ _ (CursorInv_of_eq rfl rfl rfl rfl rfl h)

theorem onToggle_cursor {urls : List String} (checked throws : Bool) (s : State)
    (h : CursorInv urls s) : CursorInv urls (onToggle checked throws s) := by
  unfold onToggle updateConfig
  exact applyEffectiveEnabled_cursor _ _ (CursorInv_zero h rfl rfl rfl rfl rfl)

theorem start_cursor {urls : List String} (overlay t1 t2 : Bool) (s : State)
    (h : CursorInv urls s) : CursorInv urls (start overlay t1 t2 s) := by
  simp only [start]
  split
  · exact h
  · apply scheduleRender_cursor
    exact CursorInv_of_eq rfl rfl rfl rfl rfl
      (connectWs_cursor t2 _ (applyEffectiveEnabled_cursor t1 s h))

theorem render_cursor {urls : List String} (E : Engine) (hh : Host) (now : Int) (s : State)
    (h : CursorInv urls s) : CursorInv urls (render E hh now s).1 := by
  have h1 : CursorInv urls { s with renderPending := false } :=
    CursorInv_of_eq rfl rfl rfl rfl rfl h
  simp only [render]
  split
  · exact h1
  · split
    · exact scheduleRender_cursor _ h1
    · have h2 := syncServerConfig_cursor hh.serverFlag hh.wsThrows _ h1
      split
      · exact h2
      · simp only [drawSpots]
        split
        · exact h2
        · split <;> exact pruneSpots_cursor _ _ h2

theorem step_cursor {urls : List String} (E : Engine) (ev : Event) (s : State)
    (h : CursorInv urls s) : CursorInv urls (step E ev s) := by
  cases ev with
  | start o t1 t2 => exact start_cursor o t1 t2 s h
  | wsOpen i => exact onOpen_cursor i s h
  | wsClosing i => exact onClosing_cursor i s h
  | wsClose i => exact onClose_cursor i s h
  | wsMessage i now p => exact onMessage_cursor E i now p s h
  | timer k throws =>
      simp only [step]
      split
      · exact reconnectTimer_cursor _ _ (CursorInv_of_eq rfl rfl rfl rfl rfl h)
      · exact h
  | toggle c t => exact onToggle_cursor c t s h
  | render hh now => exact render_cursor E hh now s h

theorem run_cursor {urls : List String} (E : Engine) (events : List Event) (s : State)
    (h : CursorInv urls s) : CursorInv urls (run E events s) := by
  induction events generalizing s with
  | nil => exact h
  | cons ev evs ih => exact ih _ (step_cursor E ev s h)

theorem init_cursor (cfg : Cfg) (srv : Option Bool) (loc : Location) :
    CursorInv (candidateUrls (init cfg srv loc)) (init cfg srv loc) := by
  refine ⟨rfl, ?_, Or.inl rfl⟩
  intro sk hm
  simp [init] at hm

/-- C10. With more than one candidate and the cursor at `i`, an attempt targets
candidate `i`; the candidates are pairwise distinct; when that socket closes
without having opened, a reconnect timer is pending and its firing targets
candidate `(i + 1) mod n`; when it opens and then closes, the firing targets
candidate `i` again. With [A, B, C]: A closing before open leads to B, and B
opening then closing leads to B again. With a single candidate the cursor stays
at 0 through every sequence of callbacks. -/
theorem endpoint_failover (E : Engine) (s : State) (i : Nat) (he : s.enabled = true)
    (hb : wsBusy s = false) (hn : 1 < (candidateUrls s).length) (hi : s.wsUrlIndex = i)
    (hlt : i < (candidateUrls s).length) :
    let urls := candidateUrls s
    let j := s.sockets.length
    let s1 := connectWs false s
    attemptUrl s1 = urls.get? i
      ∧ urls.Nodup
      ∧ 0 < (onClose j s1).timers.length
      ∧ (∀ k, k < (onClose j s1).timers.length →
          attemptUrl (step E (.timer k false) (onClose j s1)) = urls.get? ((i + 1) % urls.length))
      ∧ 0 < (onClose j (onOpen j s1)).timers.length
      ∧ (∀ k, k < (onClose j (onOpen j s1)).timers.length →
          attemptUrl (step E (.timer k false) (onClose j (onOpen j s1))) = urls.get? i)
      ∧ attemptUrl (run asciiEngine [.start true false false] abcInit)
          = some "ws://a.example/spots"
      ∧ attemptUrl (run asciiEngine [.start true false false, .wsClose 0, .timer 0 false] abcInit)
          = some "ws://b.example/spots"
      ∧ attemptUrl (run asciiEngine [.start true false false, .wsClose 0, .timer 0 false,
            .wsOpen 1, .wsClose 1, .timer 0 false] abcInit)
          = some "ws://b.example/spots"
      ∧ (∀ cfg srv loc events, (candidateUrls (init cfg srv loc)).length = 1 →
          (run E events (init cfg srv loc)).wsUrlIndex = 0) := by
  intro urls j s1
  subst hi
  obtain ⟨c1, c2, c3, c4, c5, c6, c7⟩ := connectWs_attempt s he hb hlt
  have hcu : candidateUrls s1 = urls := candidateUrls_congr c5 c6
  have hget : s1.sockets.get? j
      = some { url := urls.getD s.wsUrlIndex "", readyState := .connecting, opened := false,
               urls := urls, attached := true } := by
    rw [c2]
    simp [j]
  have hat : attemptUrl s1 = urls.get? s.wsUrlIndex := by
    unfold attemptUrl
    rw [c1]
    simp only []
    rw [hget]
    simp [List.getD_eq_getElem?_getD, List.getElem?_eq_getElem hlt]
  have hlen1 : s1.sockets.length = j + 1 := by rw [c2]; simp [j]
  -- the attempt closes before it opens
  have hclose := fun k hk => close_then_timer E s1 j k _ c4 c1 hget (by simp) rfl
    (by rw [hcu]) (by rw [hcu]; exact hn) (by rw [hcu, c3]; exact hlt) hk
  have hf1 := onClose_fields j s1 _ hget (by simp) rfl c4
  -- the attempt opens, then closes
  obtain ⟨o1, o2, o3, o4, o5, o6, o7⟩ := onOpen_fields j s1 _ hget rfl rfl
  have hcu2 : candidateUrls (onOpen j s1) = urls := (candidateUrls_congr o5 o6).trans hcu
  have hget2 : (onOpen j s1).sockets.get? j
      = some { url := urls.getD s.wsUrlIndex "", readyState := .isOpen, opened := true,
               urls := urls, attached := true } := by
    rw [o2]
    simp [List.getElem?_set_self, hlen1]
  have hopen := fun k hk => close_then_timer E (onOpen j s1) j k _ (o4.trans c4) (o3.trans c1)
    hget2 (by simp) rfl (by rw [hcu2]) (by rw [hcu2]; exact hn)
    (by rw [hcu2, o1, c3]; exact hlt) hk
  have hf2 := onClose_fields j (onOpen j s1) _ hget2 (by simp) rfl (o4.trans c4)
  refine ⟨hat, candidateUrls_nodup s, by omega, ?_, by omega, ?_, by decide!, by decide!,
    by decide!, ?_⟩
  · intro k hk
    have := (hclose k hk).2.2
    rw [hcu, c3] at this
    simpa using this
  · intro k hk
    have := (hopen k hk).2.2
    rw [hcu2, o1, c3] at this
    simpa using this
  · intro cfg srv loc events h1
    have hinv := run_cursor E events _ (init_cursor cfg srv loc)
    rcases hinv.2.2 with h | h
    · exact h
    · omega

theorem endpoint_failover_witness :
    abcEnabled.enabled = true ∧ wsBusy abcEnabled = false
      ∧ 1 < (candidateUrls abcEnabled).length
      ∧ attemptUrl (connectWs false abcEnabled) = (candidateUrls abcEnabled).get? 0
      ∧ (∀ k, k < (onClose 0 (connectWs false abcEnabled)).timers.length →
          attemptUrl (step asciiEngine (.timer k false) (onClose 0 (connectWs false abcEnabled)))
            = (candidateUrls abcEnabled).get? ((0 + 1) % (candidateUrls abcEnabled).length)) :=
  have h := endpoint_failover asciiEngine abcEnabled 0 rfl rfl (by decide) rfl (by decide)
  ⟨rfl, rfl, by decide, h.1, h.2.2.2.1⟩

/-! ### Label placement -/

theorem overlapsLane_false {labelX labelW : ℚ} {lane : List Interval}
    (h : overlapsLane labelX labelW lane = false) :
    ∀ r ∈ lane, labelX + labelW < r.start ∨ r.stop < labelX := by
  intro r hr
  unfold overlapsLane at h
  rw [List.any_eq_false] at h
  have := h r hr
  simp only [Bool.not_eq_true, Bool.not_eq_false', Bool.or_eq_true, decide_eq_true_eq] at this
  exact this

theorem findLane_clear {labelX labelW : ℚ} {lanes : Nat → List Interval} {n l lane : Nat}
    (h : findLane labelX labelW lanes n l = some lane) :
    overlapsLane labelX labelW (lanes lane) = false := by
  induction n generalizing l with
  | zero => simp [findLane] at h
  | succ n ih =>
      unfold findLane at h
      split at h
      · exact ih h
      · rename_i hc
        cases h
        simpa using hc

/-- A spot either leaves the lanes as they are or records one interval. -/
theorem renderSpot_lanes (E : Engine) (h : Host) (cfg : Cfg) (now : Int) (st : LoopState)
    (spot : Spot) :
    (renderSpot E h cfg now st spot).1.labelLanes = st.labelLanes
      ∨ ∃ lane r, (renderSpot E h cfg now st spot).1.labelLanes
          = pushInterval st.labelLanes lane r := by
  simp only [renderSpot]
  repeat' split
  all_goals first
    | exact Or.inl rfl
    | exact Or.inr ⟨_, _, rfl⟩

/-- A drawn label sits in the lane `findLane` chose for its interval, and the
interval has been recorded in that lane. -/
theorem renderSpot_label (E : Engine) (h : Host) (cfg : Cfg) (now : Int) (st st' : LoopState)
    (spot : Spot) (x alpha : ℚ) (lane : Nat) (labelX labelW : ℚ)
    (hr : renderSpot E h cfg now st spot = (st', .label x alpha lane labelX labelW)) :
    findLane labelX labelW st.labelLanes maxLanes 0 = some lane
      ∧ st'.labelLanes = pushInterval st.labelLanes lane ⟨labelX, labelX + labelW⟩ := by
  simp only [renderSpot] at hr
  repeat' split at hr
  all_goals first
    | (simp only [Prod.mk.injEq, Outcome.label.injEq] at hr
       obtain ⟨rfl, rfl, rfl, rfl, rfl, rfl⟩ := hr
       refine ⟨?_, rfl⟩
       assumption)
    | (simp only [Prod.mk.injEq] at hr
       exact absurd hr.2 (by simp))

theorem scheduleRender_frame (s : State) :
    (scheduleRender s).spots = s.spots ∧ (scheduleRender s).cfg = s.cfg
      ∧ (scheduleRender s).enabled = s.enabled := by
  unfold scheduleRender
  split <;> exact ⟨rfl, rfl, rfl⟩

theorem scheduleReconnect_frame (s : State) :
    (scheduleReconnect s).spots = s.spots ∧ (scheduleReconnect s).cfg = s.cfg
      ∧ (scheduleReconnect s).enabled = s.enabled := by
  unfold scheduleReconnect
  split
  · exact ⟨rfl, rfl, rfl⟩
  · split <;> exact ⟨rfl, rfl, rfl⟩

theorem connectWs_frame (throws : Bool) (s : State) :
    (connectWs throws s).spots = s.spots ∧ (connectWs throws s).cfg = s.cfg
      ∧ (connectWs throws s).enabled = s.enabled := by
  simp only [connectWs]
  split_ifs <;>
    first
    | exact ⟨rfl, rfl, rfl⟩
    | exact scheduleReconnect_frame _

theorem closeWs_frame (s : State) :
    (closeWs s).spots = s.spots ∧ (closeWs s).cfg = s.cfg
      ∧ (closeWs s).enabled = s.enabled := by
  simp only [closeWs]
  split
  · exact ⟨rfl, rfl, rfl⟩
  · split <;> exact ⟨rfl, rfl, rfl⟩

theorem applyEffectiveEnabled_frame (throws : Bool) (s : State) :
    (applyEffectiveEnabled throws s).spots = s.spots
      ∧ (applyEffectiveEnabled throws s).cfg = s.cfg
      ∧ (applyEffectiveEnabled throws s).enabled
          = (s.cfg.enabled && (match s.serverEnabled with
              | none => false
              | some b => b)) := by
  simp only [applyEffectiveEnabled]
  split
  · rename_i he
    exact ⟨rfl, rfl, he⟩
  · split
    · obtain ⟨h1, h2, h3⟩ := closeWs_frame
        { s with enabled := (s.cfg.enabled && (match s.serverEnabled with
              | none => false
              | some b => b)) }
      exact ⟨h1, h2, h3⟩
    · obtain ⟨h1, h2, h3⟩ := connectWs_frame throws
        { s with enabled := (s.cfg.enabled && (match s.serverEnabled with
              | none => false
              | some b => b)) }
      obtain ⟨g1, g2, g3⟩ := scheduleRender_frame (connectWs throws
        { s with enabled := (s.cfg.enabled && (match s.serverEnabled with
              | none => false
              | some b => b)) })
      exact ⟨g1.trans h1, g2.trans h2, g3.trans h3⟩

theorem syncServerConfig_frame (flag : Option Bool) (throws : Bool) (s : State) :
    (syncServerConfig flag throws s).spots = s.spots
      ∧ (syncServerConfig flag throws s).cfg = s.cfg
      ∧ (syncServerConfig flag throws s).enabled = enabledAfterSync flag s := by
  unfold syncServerConfig enabledAfterSync
  split
  · exact ⟨rfl, rfl, rfl⟩
  · rename_i b
    by_cases hb : s.serverEnabled = some b
    · simp [hb]
    · rw [if_neg hb, if_neg hb]
      exact applyEffectiveEnabled_frame throws { s with serverEnabled := some b }

theorem renderLoop_nil (E : Engine) (h : Host) (cfg : Cfg) (now : Int) (st : LoopState) :
    renderLoop E h cfg now st [] = [] := rfl

theorem drawSpots_outcomes (E : Engine) (h : Host) (now : Int) (s : State) :
    (drawSpots E h now s).2
      = if s.enabled then renderStore E h s.cfg now s.spots else [] := by
  unfold drawSpots
  cases he : s.enabled
  · simp
  · simp only [Bool.not_true, Bool.false_eq_true, if_false, if_true]
    rw [renderStore, ← pruneSpots_spots, ← pruneSpots_cfg now s]
    split
    · rename_i h0
      rw [List.length_eq_zero.mp h0]
      rfl
    · rfl

/-- The outcomes of `render` are those of `renderStore` on the store, or none
when an early return is taken. -/
theorem render_outcomes (E : Engine) (h : Host) (now : Int) (s : State) :
    (render E h now s).2
      = if reachesStore h s then renderStore E h s.cfg now s.spots else [] := by
  obtain ⟨f1, f2, f3⟩ := syncServerConfig_frame h.serverFlag h.wsThrows
    { s with renderPending := false }
  have f3' : (syncServerConfig h.serverFlag h.wsThrows { s with renderPending := false }).enabled
      = enabledAfterSync h.serverFlag s := f3
  unfold render reachesStore
  cases hc : h.canvas
  · simp
  cases hr : h.owrxReady
  · simp
  by_cases hz : h.cssW = 0 ∨ h.cssH = 0
  · simp [hz]
  simp only [Bool.not_true, Bool.false_eq_true, if_false, hz, decide_False, Bool.not_false,
    Bool.and_self, Bool.true_and]
  rw [drawSpots_outcomes, f3', f2, f1]

theorem mem_pushInterval (lanes : Nat → List Interval) (l : Nat) (r : Interval) (k : Nat)
    (x : Interval) (hx : x ∈ lanes k) : x ∈ pushInterval lanes l r k := by
  unfold pushInterval
  split
  · rename_i hk
    rw [← hk]
    exact List.mem_append_left _ hx
  · exact hx

theorem renderSpot_lanes_mono (E : Engine) (h : Host) (cfg : Cfg) (now : Int) (st : LoopState)
    (spot : Spot) (k : Nat) (x : Interval) (hx : x ∈ st.labelLanes k) :
    x ∈ (renderSpot E h cfg now st spot).1.labelLanes k := by
  rcases renderSpot_lanes E h cfg now st spot with he | ⟨lane, r, he⟩
  · rw [he]; exact hx
  · rw [he]; exact mem_pushInterval _ _ _ _ _ hx

theorem labelOf_eq_some {o : Outcome} {lane : Nat} {x w : ℚ}
    (h : o.labelOf = some (lane, x, w)) : ∃ x0 alpha, o = .label x0 alpha lane x w := by
  cases o with
  | hidden => simp [Outcome.labelOf] at h
  | tick _ _ => simp [Outcome.labelOf] at h
  | label x0 alpha l lx lw =>
      simp only [Outcome.labelOf, Option.some.injEq, Prod.mk.injEq] at h
      obtain ⟨rfl, rfl, rfl⟩ := h
      exact ⟨x0, alpha, rfl⟩

/-- The loop invariant behind the non-overlap of labels: the outcomes of a run
are pairwise clash-free, and every label drawn is clear of every interval that
its lane held when the run started. -/
theorem renderLoop_noClash (E : Engine) (h : Host) (cfg : Cfg) (now : Int) (spots : List Spot) :
    ∀ st : LoopState,
      (renderLoop E h cfg now st spots).Pairwise (fun a b => NoClash a.2 b.2)
        ∧ ∀ e ∈ renderLoop E h cfg now st spots, ∀ lane x w,
            e.2.labelOf = some (lane, x, w) →
              ∀ r ∈ st.labelLanes lane, x + w < r.start ∨ r.stop < x := by
  induction spots with
  | nil =>
      intro st
      exact ⟨List.Pairwise.nil, fun e he => absurd he (List.not_mem_nil e)⟩
  | cons spot rest ih =>
      intro st
      obtain ⟨ihp, ihc⟩ := ih (renderSpot E h cfg now st spot).1
      have hhead : ∀ lane x w, (renderSpot E h cfg now st spot).2.labelOf = some (lane, x, w) →
          findLane x w st.labelLanes maxLanes 0 = some lane
            ∧ (renderSpot E h cfg now st spot).1.labelLanes
                = pushInterval st.labelLanes lane ⟨x, x + w⟩ := by
        intro lane x w hl
        obtain ⟨x0, alpha, ho⟩ := labelOf_eq_some hl
        exact renderSpot_label E h cfg now st _ spot x0 alpha lane x w (Prod.ext rfl ho)
      refine ⟨?_, ?_⟩
      · show List.Pairwise _ (_ :: _)
        refine List.Pairwise.cons ?_ ihp
        intro e he lane x1 w1 x2 w2 h1 h2
        obtain ⟨-, hlanes⟩ := hhead lane x1 w1 h1
        have hmem : (⟨x1, x1 + w1⟩ : Interval)
            ∈ (renderSpot E h cfg now st spot).1.labelLanes lane := by
          rw [hlanes]
          simp [pushInterval]
        rcases ihc e he lane x2 w2 h2 _ hmem with hlt | hlt
        · exact Or.inr hlt
        · exact Or.inl hlt
      · intro e he lane x w hl r hr
        rcases List.mem_cons.mp he with rfl | he
        · obtain ⟨hf, -⟩ := hhead lane x w hl
          exact overlapsLane_false (findLane_clear hf) r hr
        · exact ihc e he lane x w hl r (renderSpot_lanes_mono E h cfg now st spot lane r hr)

/-- C7. In every render tick, two distinct labels drawn in the same lane have
disjoint horizontal intervals: `x1 + w1 < x2` or `x2 + w2 < x1`. On the sample
page, two labels far apart share lane 0 and a third, which would cover the
first, is moved to lane 1. -/
theorem render_labels_disjoint (E : Engine) (h : Host) (now : Int) (s : State) :
    (render E h now s).2.Pairwise (fun a b =>
        ∀ lane x1 w1 x2 w2, a.2.labelOf = some (lane, x1, w1) →
          b.2.labelOf = some (lane, x2, w2) → x1 + w1 < x2 ∨ x2 + w2 < x1)
      ∧ (render asciiEngine sampleHost sampleNow
            (withSpots [staleSpot, freshSpot, farSpot])).2.map (fun e => (e.1.call, e.2.labelOf))
          = [("NEW1A", some (0, 104, 47)), ("FAR3C", some (0, 504, 47)),
             ("OLD2B", some (1, 105, 47))] := by
  refine ⟨?_, by decide!⟩
  rw [render_outcomes]
  split
  · exact (renderLoop_noClash E h s.cfg now _ LoopState.empty).1
  · exact List.Pairwise.nil

/-! ### Recency priority -/

theorem orderedInsert_of_forall {α : Type} (r : α → α → Prop) [DecidableRel r] (a : α)
    (l : List α) (h : ∀ b ∈ l, r a b) : l.orderedInsert r a = a :: l := by
  cases l with
  | nil => rfl
  | cons b l => simp [List.orderedInsert, h b (List.mem_cons_self _ _)]

theorem filter_orderedInsert {α : Type} (r : α → α → Prop) [DecidableRel r] [IsTrans α r]
    (p : α → Bool) (a : α) (l : List α) (hl : l.Sorted r) :
    (l.orderedInsert r a).filter p
      = if p a then (l.filter p).orderedInsert r a else l.filter p := by
  induction l with
  | nil =>
      cases hp : p a <;> simp [List.orderedInsert, hp]
  | cons b l ih =>
      have hbl : ∀ x ∈ l, r b x := List.rel_of_sorted_cons hl
      by_cases hab : r a b
      · have hall : ∀ x ∈ (b :: l).filter p, r a x := by
          intro x hx
          rcases List.mem_cons.mp (List.mem_filter.mp hx).1 with rfl | hx'
          · exact hab
          · exact IsTrans.trans a b x hab (hbl x hx')
        rw [List.orderedInsert, if_pos hab]
        cases hp : p a
        · simp [hp]
        · rw [if_pos rfl, orderedInsert_of_forall r a _ hall, List.filter_cons, hp, if_pos rfl]
      · rw [List.orderedInsert, if_neg hab]
        have ih' := ih hl.of_cons
        cases hpb : p b
        · rw [List.filter_cons, hpb, ih']
          simp [hpb]
        · rw [List.filter_cons, hpb, if_pos rfl, ih']
          cases hp : p a
          · simp [hpb]
          · simp [hpb, List.orderedInsert, hab]

theorem filter_insertionSort {α : Type} (r : α → α → Prop) [DecidableRel r] [IsTrans α r]
    [IsTotal α r] (p : α → Bool) (l : List α) :
    (l.insertionSort r).filter p = (l.filter p).insertionSort r := by
  induction l with
  | nil => rfl
  | cons a l ih =>
      rw [List.insertionSort_cons_eq_take_drop, ← List.orderedInsert_eq_take_drop,
        filter_orderedInsert r p a _ (List.sorted_insertionSort r l), ih]
      cases hp : p a
      · simp [hp]
      · simp [hp, List.insertionSort]

theorem newerFirst_trans : IsTrans Spot (fun a b => b.time ≤ a.time) :=
  ⟨fun _ _ _ hab hbc => le_trans hbc hab⟩

theorem newerFirst_total : IsTotal Spot (fun a b => b.time ≤ a.time) :=
  ⟨fun a b => le_total b.time a.time⟩

theorem sortSpots_sorted (spots : List Spot) :
    (sortSpots spots).Sorted (fun a b => b.time ≤ a.time) :=
  haveI := newerFirst_trans
  haveI := newerFirst_total
  List.sorted_insertionSort _ spots

theorem sortSpots_filter (p : Spot → Bool) (spots : List Spot) :
    (sortSpots spots).filter p = sortSpots (spots.filter p) :=
  haveI := newerFirst_trans
  haveI := newerFirst_total
  filter_insertionSort _ p spots

theorem renderLoop_map_fst (E : Engine) (h : Host) (cfg : Cfg) (now : Int) (spots : List Spot) :
    ∀ st : LoopState, (renderLoop E h cfg now st spots).map Prod.fst = spots := by
  induction spots with
  | nil => intro st; rfl
  | cons spot rest ih =>
      intro st
      simp only [renderLoop, List.map_cons]
      rw [ih]

/-- On a list sorted by descending time, the outcomes of the spots not older
than `t` are the outcomes of the loop run on those spots alone. -/
theorem renderLoop_filter (E : Engine) (h : Host) (cfg : Cfg) (now : Int) (t : Int)
    (spots : List Spot) (hs : spots.Sorted (fun a b => b.time ≤ a.time)) :
    ∀ st : LoopState,
      (renderLoop E h cfg now st spots).filter (fun e => decide (t ≤ e.1.time))
        = renderLoop E h cfg now st (spots.filter (fun sp => decide (t ≤ sp.time))) := by
  induction spots with
  | nil => intro st; rfl
  | cons spot rest ih =>
      intro st
      by_cases hp : t ≤ spot.time
      · simp only [renderLoop, List.filter_cons, hp, decide_True, if_true]
        rw [ih hs.of_cons]
      · have hall : ∀ sp ∈ spot :: rest, ¬ t ≤ sp.time := by
          intro sp hsp
          rcases List.mem_cons.mp hsp with rfl | hsp
          · exact hp
          · have := List.rel_of_sorted_cons hs sp hsp
            omega
        have h1 : (spot :: rest).filter (fun sp => decide (t ≤ sp.time)) = [] := by
          rw [List.filter_eq_nil_iff]
          intro sp hsp
          simpa using hall sp hsp
        rw [h1, renderLoop_nil, List.filter_eq_nil_iff]
        intro e he
        have hmem : e.1 ∈ spot :: rest := by
          have := List.mem_map_of_mem Prod.fst he
          rwa [renderLoop_map_fst] at this
        simpa using hall e.1 hmem

theorem renderStore_filter (E : Engine) (h : Host) (cfg : Cfg) (now : Int) (t : Int)
    (spots : List Spot) :
    (renderStore E h cfg now spots).filter (fun e => decide (t ≤ e.1.time))
      = renderStore E h cfg now (spots.filter (fun sp => decide (t ≤ sp.time))) := by
  unfold renderStore
  rw [renderLoop_filter E h cfg now t _ (sortSpots_sorted _), sortSpots_filter,
    List.filter_filter, List.filter_filter]
  congr 3
  funext sp
  exact Bool.and_comm _ _

/-- C8. In a render tick the spots are visited in non-increasing order of
time, and what is drawn for the spots not older than `t` (label lane, tick
only, or nothing) does not depend on the older spots in the store: two stores
that agree on the spots with `time >= t` give those spots the same outcomes.
When a spot seen now and one seen 100 seconds ago compete for the only lane
that fits, the newer one is labelled and the older one is not, whichever was
stored first; alone, the older one would be labelled. -/
theorem render_recency_priority (E : Engine) (h : Host) (now : Int) (s : State)
    (alt : List Spot) (t : Int)
    (hsame : alt.filter (fun sp => decide (t ≤ sp.time))
      = s.spots.filter (fun sp => decide (t ≤ sp.time))) :
    ((render E h now s).2.map (fun e => e.1.time)).Pairwise (fun a b => b ≤ a)
      ∧ (render E h now { s with spots := alt }).2.filter (fun e => decide (t ≤ e.1.time))
          = (render E h now s).2.filter (fun e => decide (t ≤ e.1.time))
      ∧ (render asciiEngine lowHost sampleNow (withSpots [staleSpot, freshSpot])).2.map
            (fun e => (e.1.call, e.2.labelOf))
          = [("NEW1A", some (0, 104, 47)), ("OLD2B", none)]
      ∧ (render asciiEngine lowHost sampleNow (withSpots [freshSpot, staleSpot])).2.map
            (fun e => (e.1.call, e.2.labelOf))
          = [("NEW1A", some (0, 104, 47)), ("OLD2B", none)]
      ∧ (render asciiEngine lowHost sampleNow (withSpots [staleSpot])).2.map
            (fun e => (e.1.call, e.2.labelOf))
          = [("OLD2B", some (0, 105, 47))] := by
  refine ⟨?_, ?_, by decide!, by decide!, by decide!⟩
  · rw [render_outcomes]
    split
    · have hmap : (renderStore E h s.cfg now s.spots).map (fun e => e.1.time)
          = (sortSpots (s.spots.filter
              (fun sp => decide (now - sp.time ≤ s.cfg.max_age_sec)))).map Spot.time := by
        unfold renderStore
        have hcomp : (fun e : Spot × Outcome => e.1.time) = Spot.time ∘ Prod.fst := rfl
        rw [hcomp, ← List.map_map, renderLoop_map_fst]
      rw [hmap, List.pairwise_map]
      exact sortSpots_sorted _
    · exact List.Pairwise.nil
  · rw [render_outcomes, render_outcomes]
    have hr : reachesStore h { s with spots := alt } = reachesStore h s := by
      unfold reachesStore enabledAfterSync
      rfl
    rw [hr]
    split
    · show (renderStore E h s.cfg now alt).filter _ = _
      rw [renderStore_filter, renderStore_filter, hsame]
    · rfl

theorem render_recency_priority_witness :
    [freshSpot].filter (fun sp => decide (sampleNow ≤ sp.time))
        = (withSpots [freshSpot, staleSpot]).spots.filter (fun sp => decide (sampleNow ≤ sp.time))
      ∧ (render asciiEngine lowHost sampleNow
            { withSpots [freshSpot, staleSpot] with spots := [freshSpot] }).2.filter
            (fun e => decide (sampleNow ≤ e.1.time))
          = (render asciiEngine lowHost sampleNow (withSpots [freshSpot, staleSpot])).2.filter
            (fun e => decide (sampleNow ≤ e.1.time)) :=
  have hsame : [freshSpot].filter (fun sp => decide (sampleNow ≤ sp.time))
      = (withSpots [freshSpot, staleSpot]).spots.filter
          (fun sp => decide (sampleNow ≤ sp.time)) := by decide
  ⟨hsame, (render_recency_priority asciiEngine lowHost sampleNow
    (withSpots [freshSpot, staleSpot]) [freshSpot] sampleNow hsame).2.1⟩

/-! ### Ingest validation -/

theorem digitChar_value (k : Nat) (hk : k < 10) :
    (Nat.digitChar k).toNat - '0'.toNat = k ∧ (Nat.digitChar k).isDigit = true
      ∧ isStrWhiteSpace (Nat.digitChar k) = false ∧ Nat.digitChar k ≠ '-'
      ∧ Nat.digitChar k ≠ '+' := by
  interval_cases k <;> decide

theorem digitsValue_cons (c : Char) (ds : List Char) :
    digitsValue (c :: ds) = (c.toNat - '0'.toNat) * 10 ^ ds.length + digitsValue ds := by
  unfold digitsValue
  have key : ∀ (l : List Char) (acc : Nat),
      l.foldl (fun acc c => 10 * acc + (c.toNat - '0'.toNat)) acc
        = acc * 10 ^ l.length + l.foldl (fun acc c => 10 * acc + (c.toNat - '0'.toNat)) 0 := by
    intro l
    induction l with
    | nil => intro acc; simp
    | cons d l ih =>
        intro acc
        simp only [List.foldl_cons, List.length_cons]
        rw [ih (10 * acc + (d.toNat - '0'.toNat)), ih (10 * 0 + (d.toNat - '0'.toNat))]
        ring
  simp only [List.foldl_cons]
  rw [key ds (10 * 0 + (c.toNat - '0'.toNat))]
  ring

theorem toDigitsCore_spec (fuel n : Nat) (ds : List Char) (hf : n < fuel)
    (hds : ∀ c ∈ ds, c.isDigit = true ∧ isStrWhiteSpace c = false ∧ c ≠ '-' ∧ c ≠ '+') :
    digitsValue (Nat.toDigitsCore 10 fuel n ds) = n * 10 ^ ds.length + digitsValue ds
      ∧ (∀ c ∈ Nat.toDigitsCore 10 fuel n ds,
          c.isDigit = true ∧ isStrWhiteSpace c = false ∧ c ≠ '-' ∧ c ≠ '+')
      ∧ Nat.toDigitsCore 10 fuel n ds ≠ [] := by
  induction fuel generalizing n ds with
  | zero => omega
  | succ fuel ih =>
      have hd := digitChar_value (n % 10) (Nat.mod_lt _ (by decide))
      have hds' : ∀ c ∈ Nat.digitChar (n % 10) :: ds,
          c.isDigit = true ∧ isStrWhiteSpace c = false ∧ c ≠ '-' ∧ c ≠ '+' := by
        intro c hc
        rcases List.mem_cons.mp hc with rfl | hc
        · exact hd.2
        · exact hds c hc
      unfold Nat.toDigitsCore
      simp only []
      by_cases h0 : n / 10 = 0
      · rw [if_pos h0]
        refine ⟨?_, hds', by simp⟩
        rw [digitsValue_cons, hd.1]
        have : n % 10 = n := Nat.mod_eq_of_lt (by omega)
        rw [this]
      · rw [if_neg h0]
        have hlt : n / 10 < fuel := by omega
        obtain ⟨i1, i2, i3⟩ := ih (n / 10) (Nat.digitChar (n % 10) :: ds) hlt hds'
        refine ⟨?_, i2, i3⟩
        rw [i1, digitsValue_cons, hd.1, List.length_cons, pow_succ]
        rw [show n * 10 ^ ds.length = (10 * (n / 10) + n % 10) * 10 ^ ds.length by
          rw [Nat.div_add_mod]]
        ring

theorem parseIntStr_sign (c : Char) (rest : List Char) (hm : c ≠ '-') (hp : c ≠ '+') :
    parseIntStr.match_1 (fun _ => Bool × List Char) (c :: rest) (fun r => (true, r))
        (fun r => (false, r)) (fun r => (false, r))
      = (false, c :: rest) := by
  split
  · rename_i heq
    exact absurd (List.cons.inj heq).1 hm
  · rename_i heq
    exact absurd (List.cons.inj heq).1 hp
  · rfl

theorem parseIntStr_natDigits (n : Nat) : parseIntStr ⟨natDigits n⟩ = some (n : Int) := by
  obtain ⟨h1, h2, h3⟩ := toDigitsCore_spec (n + 1) n [] (Nat.lt_succ_self n)
    (fun c hc => absurd hc (List.not_mem_nil c))
  have hval : digitsValue (natDigits n) = n := by
    unfold natDigits Nat.toDigits
    rw [h1]
    simp [digitsValue]
  have hall : ∀ c ∈ natDigits n,
      c.isDigit = true ∧ isStrWhiteSpace c = false ∧ c ≠ '-' ∧ c ≠ '+' := h2
  have hne : natDigits n ≠ [] := h3
  unfold parseIntStr
  simp only []
  cases hd : natDigits n with
  | nil => exact absurd hd hne
  | cons c rest =>
      obtain ⟨hcd, hw, hm, hp⟩ := hall c (by rw [hd]; exact List.mem_cons_self _ _)
      have hdrop : (c :: rest).dropWhile isStrWhiteSpace = c :: rest := by
        simp [List.dropWhile, hw]
      rw [hdrop]
      have htake : (c :: rest).takeWhile Char.isDigit = c :: rest := by
        rw [List.takeWhile_eq_self_iff]
        intro x hx
        exact (hall x (by rw [hd]; exact hx)).1
      rw [parseIntStr_sign c rest hm hp]
      simp only [htake]
      rw [if_neg (by simp), if_neg (by simp), ← hd, hval]


theorem parseIntStr_neg_natDigits (n : Nat) :
    parseIntStr ⟨'-' :: natDigits n⟩ = some (-(n : Int)) := by
  obtain ⟨h1, h2, h3⟩ := toDigitsCore_spec (n + 1) n [] (Nat.lt_succ_self n)
    (fun c hc => absurd hc (List.not_mem_nil c))
  have hval : digitsValue (natDigits n) = n := by
    unfold natDigits Nat.toDigits
    rw [h1]
    simp [digitsValue]
  have hall : ∀ c ∈ natDigits n,
      c.isDigit = true ∧ isStrWhiteSpace c = false ∧ c ≠ '-' ∧ c ≠ '+' := h2
  have hne : natDigits n ≠ [] := h3
  have htake : (natDigits n).takeWhile Char.isDigit = natDigits n := by
    rw [List.takeWhile_eq_self_iff]
    intro x hx
    exact (hall x hx).1
  have hdrop : ('-' :: natDigits n).dropWhile isStrWhiteSpace = '-' :: natDigits n := by
    have : isStrWhiteSpace '-' = false := by decide
    simp [List.dropWhile, this]
  unfold parseIntStr
  simp only []
  rw [hdrop]
  have hsign : parseIntStr.match_1 (fun _ => Bool × List Char) ('-' :: natDigits n)
      (fun r => (true, r)) (fun r => (false, r)) (fun r => (false, r))
        = (true, natDigits n) := rfl
  rw [hsign]
  simp only [htake]
  rw [if_neg hne, if_pos trivial, hval]

/-- An integer time that is not zero and is a safe integer is kept as it is. -/
theorem timeOrNow_int (E : Engine) (now t : Int) (h0 : t ≠ 0) (hs : t.natAbs ≤ 2 ^ 53) :
    timeOrNow E now (.num (.fin (t : ℚ))) = some t := by
  have hden : ((t : ℚ)).den = 1 := Rat.den_intCast t
  have hnum : ((t : ℚ)).num = t := Rat.num_intCast t
  have hstr : toStr E (.num (.fin (t : ℚ)))
      = some (if t < 0 then ⟨'-' :: natDigits t.natAbs⟩ else ⟨natDigits t.natAbs⟩) := by
    simp only [toStr, numberToString, hden, hnum, hs, and_self, if_true]
  unfold timeOrNow
  rw [hstr]
  by_cases hneg : t < 0
  · rw [if_pos hneg]
    simp only []
    rw [parseIntStr_neg_natDigits]
    have : -(t.natAbs : Int) = t := by omega
    simp only [this, h0, if_false]
  · rw [if_neg hneg]
    simp only []
    rw [parseIntStr_natDigits]
    have : (t.natAbs : Int) = t := by omega
    simp only [this, h0, if_false]

theorem handleSpot_rejects (E : Engine) (now : Int) (payload : JsVal) (s : State)
    (h : accepts payload = none) : handleSpot E now payload s = s := by
  unfold handleSpot
  rw [h]

theorem accepts_eq_none (payload : JsVal)
    (h : payload.truthy = false ∨ payload.isObjectType = false
      ∨ (∀ f, payload.get "freq" ≠ .num f) ∨ (payload.get "call").truthy = false) :
    accepts payload = none := by
  unfold accepts
  by_cases hg : (!payload.truthy || !payload.isObjectType) = true
  · rw [if_pos hg]
  · rw [if_neg hg]
    have hg' : payload.truthy = true ∧ payload.isObjectType = true := by
      cases ht : payload.truthy <;> cases ho : payload.isObjectType <;> simp_all
    rcases h with h | h | h | h
    · rw [hg'.1] at h; exact absurd h (by decide)
    · rw [hg'.2] at h; exact absurd h (by decide)
    · split
      · rename_i f hf
        exact absurd hf (h f)
      · rfl
    · split
      · rw [h]; rfl
      · rfl

theorem accepts_eq_some (payload : JsVal) (f : JsNum) (ht : payload.truthy = true)
    (ho : payload.isObjectType = true) (hf : payload.get "freq" = .num f)
    (hc : (payload.get "call").truthy = true) : accepts payload = some f := by
  unfold accepts
  rw [if_neg (by rw [ht, ho]; decide), hf]
  simp only []
  rw [if_pos hc]


/-- C11, as stated, fails. A payload with a numeric `freq`, a non-empty `call`
and the integer time `0` is stored with the ingestion time, not with time `0`;
and a payload that passes both guards but whose `call` is an object with an own
`toString` property makes the normalization throw, so nothing is appended
and the call ends with an error. -/
theorem handleSpot_not_always_appends :
    accepts zeroTimePayload = some (.fin 14074000)
      ∧ (handleSpot asciiEngine 1700000000 zeroTimePayload sampleInit).spots.map Spot.time
          = [1700000000]
      ∧ accepts throwingPayload = some (.fin 14074000)
      ∧ (handleSpot asciiEngine 1700000000 throwingPayload sampleInit).spots = []
      ∧ handleSpotOrThrow asciiEngine 1700000000 throwingPayload sampleInit = none := by
  refine ⟨by decide!, by decide!, by decide!, by decide!, by decide!⟩

theorem toStr_parse_int (E : Engine) (t : Int) (hs : t.natAbs ≤ 2 ^ 53) :
    ∃ text, toStr E (.num (.fin (t : ℚ))) = some text ∧ parseIntStr text = some t := by
  have hden : ((t : ℚ)).den = 1 := Rat.den_intCast t
  have hnum : ((t : ℚ)).num = t := Rat.num_intCast t
  have hstr : toStr E (.num (.fin (t : ℚ)))
      = some (if t < 0 then ⟨'-' :: natDigits t.natAbs⟩ else ⟨natDigits t.natAbs⟩) := by
    simp only [toStr, numberToString, hden, hnum, hs, and_self, if_true]
  refine ⟨_, hstr, ?_⟩
  by_cases hneg : t < 0
  · rw [if_pos hneg, parseIntStr_neg_natDigits]
    congr 1
    omega
  · rw [if_neg hneg, parseIntStr_natDigits]
    congr 1
    omega

theorem handleSpot_catch (E : Engine) (now : Int) (payload : JsVal) (s : State) :
    handleSpot E now payload s = (handleSpotOrThrow E now payload s).getD s := by
  unfold handleSpot handleSpotOrThrow
  cases accepts payload with
  | none => rfl
  | some f =>
      dsimp only
      cases normalize E now payload f <;> rfl

theorem timeOrNow_text (E : Engine) (now : Int) (v : JsVal) (text : String)
    (hv : toStr E v = some text) :
    timeOrNow E now v
      = some (match parseIntStr text with
          | none => now
          | some t => if t = 0 then now else t) := by
  unfold timeOrNow
  rw [hv]
  dsimp only
  cases parseIntStr text <;> rfl

/-- C11, amended. A payload that is not an object, whose `freq` is not a
number or whose `call` is falsy is rejected silently: `handleSpot` returns
without an error and leaves the state as it is. A payload that passes these
guards but has a field whose conversion to a string throws makes `handleSpot`
throw before it pushes anything; inside the `try`/`catch` of `onmessage` the
state stays as it is. A payload that passes the guards with a finite `freq`,
whose conversions succeed and whose time text parses within the safe integers,
makes `handleSpot` return without an error having appended exactly one spot
(then dropping from the front what exceeds `max_spots`): `freq` rounded to the
nearest integer, call and mode upper-cased, comment, spotter and band as
converted, a falsy field being the empty string, and the time
`parseInt(time, 10) || now`, which is the payload's time when that is a
non-zero safe integer and the ingestion time when it is absent, unparseable or
zero. -/
theorem handleSpot_validation (E : Engine) (now : Int) (payload : JsVal) (s : State) :
    ((payload.truthy = false ∨ payload.isObjectType = false
        ∨ (∀ f, payload.get "freq" ≠ .num f) ∨ (payload.get "call").truthy = false) →
        handleSpotOrThrow E now payload s = some s)
      ∧ (∀ f, payload.truthy = true → payload.isObjectType = true →
          payload.get "freq" = .num f → (payload.get "call").truthy = true →
          (stringOrEmpty E (payload.get "call") = none
            ∨ stringOrEmpty E (payload.get "mode") = none
            ∨ stringOrEmpty E (payload.get "comment") = none
            ∨ stringOrEmpty E (payload.get "spotter") = none
            ∨ stringOrEmpty E (payload.get "band") = none
            ∨ toStr E (payload.get "time") = none) →
          handleSpotOrThrow E now payload s = none ∧ handleSpot E now payload s = s)
      ∧ (∀ (q : ℚ) call mode comment spotter band text, payload.truthy = true →
          payload.isObjectType = true → payload.get "freq" = .num (.fin q) →
          (payload.get "call").truthy = true →
          stringOrEmpty E (payload.get "call") = some call →
          stringOrEmpty E (payload.get "mode") = some mode →
          stringOrEmpty E (payload.get "comment") = some comment →
          stringOrEmpty E (payload.get "spotter") = some spotter →
          stringOrEmpty E (payload.get "band") = some band →
          toStr E (payload.get "time") = some text →
          SafeParse E (payload.get "time") →
          ∃ s', handleSpotOrThrow E now payload s = some s'
            ∧ handleSpot E now payload s = s'
            ∧ s'.spots
              = (s.spots ++ [(⟨.fin ((⌊q + 1 / 2⌋ : Int) : ℚ), E.toUpperCase call,
                    E.toUpperCase mode, comment, spotter, band,
                    (match parseIntStr text with
                      | none => now
                      | some t => if t = 0 then now else t)⟩ : Spot)]).drop
                  (((s.spots.length + 1 : Nat) : Int) - s.cfg.max_spots).toNat)
      ∧ (∀ v : JsVal, v.truthy = false → stringOrEmpty E v = some "")
      ∧ (∀ t : Int, t ≠ 0 → t.natAbs ≤ 2 ^ 53 →
          timeOrNow E now (.num (.fin (t : ℚ))) = some t
            ∧ SafeParse E (.num (.fin (t : ℚ))))
      ∧ (timeOrNow E now .undefined = some now ∧ SafeParse E .undefined)
      ∧ (timeOrNow E now (.num (.fin 0)) = some now ∧ SafeParse E (.num (.fin 0)))
      ∧ (∀ text, parseIntStr text = none →
          timeOrNow E now (.str text) = some now ∧ SafeParse E (.str text))
      ∧ (handleSpotOrThrow asciiEngine 1700000000 otherPayload sampleInit).map State.spots
          = some [(⟨.fin 7030001, "G4XYZ", "", "", "", "", 1700000000⟩ : Spot)]
      ∧ (handleSpotOrThrow asciiEngine 1700000000 (.str "noise") sampleInit).map State.spots
          = some []
      ∧ handleSpotOrThrow asciiEngine 1700000000 throwingPayload sampleInit = none := by
  have hzero : toStr E (.num (.fin 0)) = some "0" := by
    have hs : numberToString E (.fin 0) = "0" := by
      have hd : ((0 : ℚ)).den = 1 ∧ ((0 : ℚ)).num.natAbs ≤ 2 ^ 53 := by simp
      have hn : ¬ ((0 : ℚ)).num < 0 := by simp
      simp only [numberToString]
      rw [if_pos hd, if_neg hn]
      rfl
    simp only [toStr, hs]
  refine ⟨?_, ?_, ?_, ?_, ?_, ?_, ?_, ?_, by decide!, by decide!, by decide!⟩
  · intro h
    unfold handleSpotOrThrow
    rw [accepts_eq_none payload h]
  · intro f ht ho hf hc hthrow
    have ha := accepts_eq_some payload f ht ho hf hc
    have hn : normalize E now payload f = none := by
      unfold normalize timeOrNow
      rcases hthrow with h | h | h | h | h | h <;> rw [h] <;> split <;> simp_all
    have h1 : handleSpotOrThrow E now payload s = none := by
      unfold handleSpotOrThrow
      rw [ha]
      dsimp only
      rw [hn]
    refine ⟨h1, ?_⟩
    rw [handleSpot_catch, h1]
    rfl
  · intro q call mode comment spotter band text ht ho hf hc h1 h2 h3 h4 h5 h6 _
    have ha := accepts_eq_some payload (.fin q) ht ho hf hc
    have hn : normalize E now payload (.fin q)
        = some (⟨.fin ((⌊q + 1 / 2⌋ : Int) : ℚ), E.toUpperCase call, E.toUpperCase mode,
            comment, spotter, band,
            (match parseIntStr text with
              | none => now
              | some t => if t = 0 then now else t)⟩ : Spot) := by
      unfold normalize
      rw [h1, h2, h3, h4, h5, timeOrNow_text E now _ text h6]
      rfl
    have hr : handleSpotOrThrow E now payload s
        = (normalize E now payload (.fin q)).map (fun sp => scheduleRender (pushSpot sp s)) := by
      unfold handleSpotOrThrow
      rw [ha]
      dsimp only
      rw [hn]
      rfl
    rw [hn] at hr
    refine ⟨_, hr, ?_, ?_⟩
    · rw [handleSpot_catch, hr]
      rfl
    · rw [scheduleRender_spots, pushSpot_spots]
      congr 2
      simp
  · intro v hv
    unfold stringOrEmpty
    rw [hv]
    rfl
  · intro t h0 hs
    refine ⟨timeOrNow_int E now t h0 hs, ?_⟩
    intro text t' hv hp
    obtain ⟨text0, hv0, hp0⟩ := toStr_parse_int E t hs
    rw [hv0] at hv
    cases hv
    rw [hp0] at hp
    cases hp
    exact hs
  · refine ⟨rfl, ?_⟩
    intro text t hv hp
    have hu : toStr E .undefined = some "undefined" := rfl
    rw [hu] at hv
    cases hv
    have hnone : parseIntStr "undefined" = none := by decide
    rw [hnone] at hp
    exact absurd hp (by simp)
  · have hp : parseIntStr "0" = some 0 := by decide
    refine ⟨?_, ?_⟩
    · unfold timeOrNow
      rw [hzero]
      simp only [hp, if_true]
    · intro text t hv hq
      rw [hzero] at hv
      cases hv
      rw [hp] at hq
      cases hq
      decide
  · intro text hp
    refine ⟨?_, ?_⟩
    · unfold timeOrNow
      simp only [toStr, hp]
    · intro text' t hv hq
      have hs : toStr E (.str text) = some text := by simp only [toStr]
      rw [hs] at hv
      cases hv
      rw [hp] at hq
      exact absurd hq (by simp)

/-- C12: the code at the failing inputs. `Infinity` and `NaN` pass the
`typeof spot.freq === 'number'` guard and `Math.round` keeps them, so the
stored frequency is not a finite integer; the call `[[]]` passes the
`!spot.call` guard but converts to the empty string, so the stored call is
empty. -/
theorem handleSpot_stores_malformed :
    (handleSpot asciiEngine 1700000000 infinitePayload sampleInit).spots.map Spot.freq
        = [JsNum.posInf]
      ∧ (handleSpot asciiEngine 1700000000 nanPayload sampleInit).spots.map Spot.freq
          = [JsNum.nan]
      ∧ (handleSpot asciiEngine 1700000000 emptyCallPayload sampleInit).spots.map Spot.call
          = [""] := by
  refine ⟨by decide!, by decide!, by decide!⟩

/-! ### Opacity by age -/

/-- Whatever the loop state, a spot is either not drawn or drawn with the
opacity `spotAlpha`, which is then positive. -/
theorem renderSpot_alpha (E : Engine) (h : Host) (cfg : Cfg) (now : Int) (st : LoopState)
    (spot : Spot) :
    ((renderSpot E h cfg now st spot).2 = .hidden
        ∨ (renderSpot E h cfg now st spot).2.alphaOf = some (spotAlpha cfg now spot))
      ∧ (spotAlpha cfg now spot ≤ 0 → (renderSpot E h cfg now st spot).2 = .hidden) := by
  simp only [renderSpot, spotAlpha]
  repeat' split
  all_goals first
    | exact ⟨Or.inl rfl, fun _ => rfl⟩
    | (refine ⟨Or.inr rfl, fun hle => ?_⟩
       exact absurd hle (by assumption))


theorem renderLoop_forall (E : Engine) (h : Host) (cfg : Cfg) (now : Int)
    (P : Spot × Outcome → Prop)
    (hP : ∀ st spot, P (spot, (renderSpot E h cfg now st spot).2)) (spots : List Spot) :
    ∀ st : LoopState, ∀ e ∈ renderLoop E h cfg now st spots, P e := by
  induction spots with
  | nil => intro st e he; exact absurd he (List.not_mem_nil e)
  | cons spot rest ih =>
      intro st e he
      rcases List.mem_cons.mp he with rfl | he
      · exact hP st spot
      · exact ih _ e he

theorem render_forall (E : Engine) (h : Host) (now : Int) (s : State)
    (P : Spot × Outcome → Prop)
    (hP : ∀ st spot, P (spot, (renderSpot E h s.cfg now st spot).2)) :
    ∀ e ∈ (render E h now s).2, P e := by
  rw [render_outcomes]
  split
  · exact renderLoop_forall E h s.cfg now P hP _ _
  · intro e he
    exact absurd he (List.not_mem_nil e)

theorem tickOpacity_bounds (a : ℚ) (h0 : 0 < a) (h1 : a ≤ 1) :
    tickOpacity a = 9 / 10 * a + 1 / 10 ∧ 1 / 10 < tickOpacity a ∧ tickOpacity a ≤ 1 := by
  have he : tickOpacity a = 9 / 10 * a + 1 / 10 := by
    unfold tickOpacity
    exact min_eq_right (by linarith)
  rw [he]
  exact ⟨rfl, by linarith, by linarith⟩

theorem spotAlpha_le_one (cfg : Cfg) (now : Int) (spot : Spot) (hmax : 0 < cfg.max_age_sec) :
    spotAlpha cfg now spot ≤ 1 := by
  unfold spotAlpha
  apply max_le
  · norm_num
  · have h1 : (0 : ℚ) ≤ ((max 0 (now - spot.time) : Int) : ℚ) := by
      exact_mod_cast le_max_left 0 (now - spot.time)
    have h2 : (0 : ℚ) < (cfg.max_age_sec : ℚ) := by exact_mod_cast hmax
    have := div_nonneg h1 h2.le
    linarith

theorem spotAlpha_expired (cfg : Cfg) (now : Int) (spot : Spot) (hmax : 0 < cfg.max_age_sec)
    (hage : cfg.max_age_sec ≤ now - spot.time) : spotAlpha cfg now spot ≤ 0 := by
  unfold spotAlpha
  apply max_le (le_refl 0)
  have h2 : (0 : ℚ) < (cfg.max_age_sec : ℚ) := by exact_mod_cast hmax
  have h1 : (cfg.max_age_sec : ℚ) ≤ ((max 0 (now - spot.time) : Int) : ℚ) := by
    exact_mod_cast le_trans hage (le_max_right 0 (now - spot.time))
  have : 1 ≤ ((max 0 (now - spot.time) : Int) : ℚ) / (cfg.max_age_sec : ℚ) := by
    rw [le_div_iff₀ h2]
    linarith
  linarith

/-- C13. With `max_age_sec > 0`, every spot visited by a render tick is either
not drawn at all or drawn with `alpha = max(0, 1 - max(0, now - time) /
max_age_sec)`; a spot with `alpha <= 0`, in particular one of age
`>= max_age_sec`, gets no tick and no label; a drawn spot has `0 < alpha <= 1`
and its tick opacity is `0.9 * alpha + 0.1`, in `(0.1, 1]`. A spot of age
exactly `max_age_sec` survives the pruning and is not drawn. -/
theorem render_opacity (E : Engine) (h : Host) (now : Int) (s : State)
    (hmax : 0 < s.cfg.max_age_sec) :
    (∀ e ∈ (render E h now s).2,
        (e.2 = .hidden ∨ e.2.alphaOf = some (spotAlpha s.cfg now e.1))
          ∧ (spotAlpha s.cfg now e.1 ≤ 0 → e.2 = .hidden)
          ∧ (s.cfg.max_age_sec ≤ now - e.1.time → e.2 = .hidden)
          ∧ (∀ a, e.2.alphaOf = some a →
              0 < a ∧ a ≤ 1 ∧ tickOpacity a = 9 / 10 * a + 1 / 10
                ∧ 1 / 10 < tickOpacity a ∧ tickOpacity a ≤ 1))
      ∧ (pruneSpots sampleNow (withSpots [agedSpot])).spots = [agedSpot]
      ∧ (render asciiEngine sampleHost sampleNow (withSpots [agedSpot])).2
          = [(agedSpot, .hidden)] := by
  refine ⟨?_, by decide, by decide!⟩
  apply render_forall
  intro st spot
  obtain ⟨h1, h2⟩ := renderSpot_alpha E h s.cfg now st spot
  refine ⟨h1, h2, fun hage => h2 (spotAlpha_expired s.cfg now spot hmax hage), ?_⟩
  intro a ha
  have hpos : 0 < a := by
    rcases h1 with h1 | h1
    · rw [h1] at ha
      simp [Outcome.alphaOf] at ha
    · rw [h1] at ha
      have hae : spotAlpha s.cfg now spot = a := Option.some.inj ha
      by_contra hn
      have := h2 (by rw [hae]; exact not_lt.mp hn)
      rw [this] at h1
      simp [Outcome.alphaOf] at h1
  have hle : a ≤ 1 := by
    rcases h1 with h1 | h1
    · rw [h1] at ha
      simp [Outcome.alphaOf] at ha
    · rw [h1] at ha
      rw [← Option.some.inj ha]
      exact spotAlpha_le_one s.cfg now spot hmax
  obtain ⟨t1, t2, t3⟩ := tickOpacity_bounds a hpos hle
  exact ⟨hpos, hle, t1, t2, t3⟩

theorem render_opacity_witness :
    (0 : Int) < (withSpots [freshSpot, staleSpot, agedSpot]).cfg.max_age_sec
      ∧ ∀ e ∈ (render asciiEngine sampleHost sampleNow
            (withSpots [freshSpot, staleSpot, agedSpot])).2,
          (e.2 = .hidden
            ∨ e.2.alphaOf
                = some (spotAlpha (withSpots [freshSpot, staleSpot, agedSpot]).cfg sampleNow e.1)) :=
  ⟨by decide, fun e he =>
    ((render_opacity asciiEngine sampleHost sampleNow (withSpots [freshSpot, staleSpot, agedSpot])
      (by decide)).1 e he).1⟩

/-! ### Default endpoints -/

theorem uniqUrlsLoop_keep (list : List String) :
    ∀ out : List String, (∀ u ∈ list, u ≠ "" ∧ u ∉ objectPrototypeKeys) →
      (out ++ list).Nodup → uniqUrlsLoop out list = out ++ list := by
  induction list with
  | nil => intro out _ _; simp [uniqUrlsLoop]
  | cons url rest ih =>
      intro out hgood hnd
      obtain ⟨h1, h2⟩ := hgood url (List.mem_cons_self _ _)
      have h3 : url ∉ out := by
        intro hm
        have := List.nodup_append.mp hnd
        exact this.2.2 hm (List.mem_cons_self _ _)
      unfold uniqUrlsLoop
      rw [if_neg (by
        rintro (h | h | h)
        · exact h1 h
        · exact h2 h
        · exact h3 h)]
      rw [ih (out ++ [url]) (fun u hu => hgood u (List.mem_cons_of_mem _ hu))
        (by simpa using hnd)]
      simp

theorem uniqUrls_keep (list : List String)
    (hgood : ∀ u ∈ list, u ≠ "" ∧ u ∉ objectPrototypeKeys) (hnd : list.Nodup) :
    uniqUrls list = list := by
  unfold uniqUrls
  rw [uniqUrlsLoop_keep list [] hgood (by simpa using hnd)]
  rfl

theorem ws_data (host tail : String) :
    ("ws://" ++ host ++ tail).data
      = 'w' :: 's' :: ':' :: '/' :: '/' :: (host.data ++ tail.data) := by
  simp [String.data_append]

theorem wss_data (host tail : String) :
    ("wss://" ++ host ++ tail).data
      = 'w' :: 's' :: 's' :: ':' :: '/' :: '/' :: (host.data ++ tail.data) := by
  simp [String.data_append]

theorem good_of_head_w (u : String) (rest : List Char) (h : u.data = 'w' :: rest) :
    u ≠ "" ∧ u ∉ objectPrototypeKeys := by
  have hk : ∀ k ∈ objectPrototypeKeys, k.data.head? ≠ some 'w' := by decide
  refine ⟨?_, ?_⟩
  · intro he
    rw [he] at h
    exact absurd h (by simp)
  · intro hm
    have := hk u hm
    rw [h] at this
    exact this rfl


/-- The texts `buildDefaultWsUrls` returns, with `H` the value of
`location.host` (which includes the page's port when it has one): they depend
only on the host and the protocol, no text occurs twice, the text
`ws://H:7373/spots` is among them, for `https:` they are `[wss://H/spiderws/spots,
wss://H:7373/spots, ws://H:7373/spots]` and for `http:` they are
`[ws://H:7373/spots, ws://H/spiderws/spots]`. -/
theorem buildDefaultWsUrls_spec (loc : Location) :
    (∀ loc' : Location, loc'.host = loc.host → loc'.protocol = loc.protocol →
        buildDefaultWsUrls loc' = buildDefaultWsUrls loc)
      ∧ (buildDefaultWsUrls loc).Nodup
      ∧ ("ws://" ++ loc.host ++ ":7373/spots") ∈ buildDefaultWsUrls loc
      ∧ (loc.protocol = "https:" →
          buildDefaultWsUrls loc
            = ["wss://" ++ loc.host ++ "/spiderws/spots", "wss://" ++ loc.host ++ ":7373/spots",
               "ws://" ++ loc.host ++ ":7373/spots"])
      ∧ (loc.protocol = "http:" →
          buildDefaultWsUrls loc
            = ["ws://" ++ loc.host ++ ":7373/spots", "ws://" ++ loc.host ++ "/spiderws/spots"])
      ∧ (loc.protocol ≠ "https:" → loc.protocol ≠ "http:" →
          buildDefaultWsUrls loc
            = ["ws://" ++ loc.host ++ "/spiderws/spots", "wss://" ++ loc.host ++ ":7373/spots",
               "ws://" ++ loc.host ++ ":7373/spots"])
      ∧ buildDefaultWsUrls secureLocation
          = ["wss://sdr.example/spiderws/spots", "wss://sdr.example:7373/spots",
             "ws://sdr.example:7373/spots"]
      ∧ buildDefaultWsUrls sampleLocation
          = ["ws://sdr.example:7373/spots", "ws://sdr.example/spiderws/spots"] := by
  have hne : ∀ {a b : String}, a.data ≠ b.data → a ≠ b := fun hd he => hd (congrArg String.data he)
  -- the four urls and their pairwise differences
  have g1 := good_of_head_w _ _ (ws_data loc.host ":7373/spots")
  have g2 := good_of_head_w _ _ (ws_data loc.host "/spiderws/spots")
  have g3 := good_of_head_w _ _ (wss_data loc.host ":7373/spots")
  have g4 := good_of_head_w _ _ (wss_data loc.host "/spiderws/spots")
  have d12 : "ws://" ++ loc.host ++ ":7373/spots" ≠ "ws://" ++ loc.host ++ "/spiderws/spots" := by
    apply hne
    rw [ws_data, ws_data]
    intro h
    simp only [List.cons.injEq, true_and] at h
    exact absurd (List.append_cancel_left h) (by decide)
  have d34 : "wss://" ++ loc.host ++ "/spiderws/spots" ≠ "wss://" ++ loc.host ++ ":7373/spots" := by
    apply hne
    rw [wss_data, wss_data]
    intro h
    simp only [List.cons.injEq, true_and] at h
    exact absurd (List.append_cancel_left h) (by decide)
  have dws : ∀ t t' : String, "wss://" ++ loc.host ++ t ≠ "ws://" ++ loc.host ++ t' := by
    intro t t'
    apply hne
    rw [wss_data, ws_data]
    intro h
    simp only [List.cons.injEq, true_and] at h
    exact absurd h.1 (by decide)
  have hhttps : uniqUrls ["wss://" ++ loc.host ++ "/spiderws/spots",
      "wss://" ++ loc.host ++ ":7373/spots", "ws://" ++ loc.host ++ ":7373/spots"]
        = ["wss://" ++ loc.host ++ "/spiderws/spots", "wss://" ++ loc.host ++ ":7373/spots",
           "ws://" ++ loc.host ++ ":7373/spots"] := by
    apply uniqUrls_keep
    · intro u hu
      simp only [List.mem_cons, List.mem_singleton, List.not_mem_nil, or_false] at hu
      rcases hu with rfl | rfl | rfl
      · exact g4
      · exact g3
      · exact g1
    · simp only [List.nodup_cons, List.mem_cons, List.mem_singleton, List.not_mem_nil,
        or_false, not_or, not_false_eq_true, List.nodup_nil, and_true]
      exact ⟨⟨d34, dws _ _⟩, dws _ _⟩
  have hhttp : uniqUrls ["ws://" ++ loc.host ++ ":7373/spots",
      "ws://" ++ loc.host ++ "/spiderws/spots"]
        = ["ws://" ++ loc.host ++ ":7373/spots", "ws://" ++ loc.host ++ "/spiderws/spots"] := by
    apply uniqUrls_keep
    · intro u hu
      simp only [List.mem_cons, List.mem_singleton, List.not_mem_nil, or_false] at hu
      rcases hu with rfl | rfl
      · exact g1
      · exact g2
    · simp only [List.nodup_cons, List.mem_cons, List.mem_singleton, List.not_mem_nil,
        or_false, not_false_eq_true, List.nodup_nil, and_true]
      exact d12
  have hother : uniqUrls ["ws://" ++ loc.host ++ "/spiderws/spots",
      "wss://" ++ loc.host ++ ":7373/spots", "ws://" ++ loc.host ++ ":7373/spots"]
        = ["ws://" ++ loc.host ++ "/spiderws/spots", "wss://" ++ loc.host ++ ":7373/spots",
           "ws://" ++ loc.host ++ ":7373/spots"] := by
    apply uniqUrls_keep
    · intro u hu
      simp only [List.mem_cons, List.mem_singleton, List.not_mem_nil, or_false] at hu
      rcases hu with rfl | rfl | rfl
      · exact g2
      · exact g3
      · exact g1
    · simp only [List.nodup_cons, List.mem_cons, List.mem_singleton, List.not_mem_nil,
        or_false, not_or, not_false_eq_true, List.nodup_nil, and_true]
      exact ⟨⟨(dws _ _).symm, d12.symm⟩, dws _ _⟩
  have e1 : loc.protocol = "https:" → buildDefaultWsUrls loc
      = ["wss://" ++ loc.host ++ "/spiderws/spots", "wss://" ++ loc.host ++ ":7373/spots",
         "ws://" ++ loc.host ++ ":7373/spots"] := by
    intro hp
    unfold buildDefaultWsUrls
    simp only [hp, if_true]
    rw [if_neg (by decide)]
    exact hhttps
  have e2 : loc.protocol = "http:" → buildDefaultWsUrls loc
      = ["ws://" ++ loc.host ++ ":7373/spots", "ws://" ++ loc.host ++ "/spiderws/spots"] := by
    intro hp
    unfold buildDefaultWsUrls
    simp only [hp, if_true]
    rw [if_neg (by decide)]
    exact hhttp
  have e3 : loc.protocol ≠ "https:" → loc.protocol ≠ "http:" → buildDefaultWsUrls loc
      = ["ws://" ++ loc.host ++ "/spiderws/spots", "wss://" ++ loc.host ++ ":7373/spots",
         "ws://" ++ loc.host ++ ":7373/spots"] := by
    intro hp1 hp2
    unfold buildDefaultWsUrls
    simp only [hp1, hp2, if_false]
    exact hother
  have hnd : (buildDefaultWsUrls loc).Nodup := by
    simp only [buildDefaultWsUrls, uniqUrls]
    split_ifs <;> exact uniqUrlsLoop_nodup _ _ List.nodup_nil
  refine ⟨?_, hnd, ?_, e1, e2, e3, by decide, by decide⟩
  · intro loc' hh hp
    cases loc
    cases loc'
    simp only at hh hp
    rw [hh, hp]
  · by_cases hp1 : loc.protocol = "https:"
    · rw [e1 hp1]; simp
    · by_cases hp2 : loc.protocol = "http:"
      · rw [e2 hp2]; simp
      · rw [e3 hp1 hp2]; simp

/-- C14: the code at the failing input. On the page `http://sdr.example:8073`
the list is `[ws://sdr.example:8073:7373/spots,
ws://sdr.example:8073/spiderws/spots]`: the first entry has two colons in its
authority and names no port, the second names the page's port 8073, so no
entry is a target on port 7373; likewise on `https://sdr.example:8443`. Without
a port in `location.host` the entries on port 7373 are there. -/
theorem buildDefaultWsUrls_port_in_host :
    buildDefaultWsUrls portLocation
        = ["ws://sdr.example:8073:7373/spots", "ws://sdr.example:8073/spiderws/spots"]
      ∧ (buildDefaultWsUrls portLocation).map explicitPort = [none, some "8073"]
      ∧ (∀ u ∈ buildDefaultWsUrls portLocation, explicitPort u ≠ some "7373")
      ∧ buildDefaultWsUrls securePortLocation
          = ["wss://sdr.example:8443/spiderws/spots", "wss://sdr.example:8443:7373/spots",
             "ws://sdr.example:8443:7373/spots"]
      ∧ (∀ u ∈ buildDefaultWsUrls securePortLocation, explicitPort u ≠ some "7373")
      ∧ (buildDefaultWsUrls sampleLocation).map explicitPort = [some "7373", none]
      ∧ (buildDefaultWsUrls secureLocation).map explicitPort
          = [none, some "7373", some "7373"] := by
  refine ⟨by decide, by decide, by decide, by decide, by decide, by decide, by decide⟩

/-! ### Configuration clamping -/

theorem clampSetting_ge (E : Engine) (floor dflt : Int) (v : JsVal) (r : Int)
    (h : clampSetting E floor dflt v = some r) : floor ≤ r := by
  unfold clampSetting at h
  split at h
  · exact absurd h (by simp)
  · split at h
    · rw [← Option.some.inj h]; exact le_max_left _ _
    · rw [← Option.some.inj h]; exact le_max_left _ _

theorem clampSetting_text (E : Engine) (floor dflt : Int) (v : JsVal) (text : String)
    (hv : toStr E v = some text) :
    clampSetting E floor dflt v
      = some (max floor (match parseIntStr text with
          | none => dflt
          | some t => if t = 0 then dflt else t)) := by
  unfold clampSetting
  rw [hv]
  simp only []
  cases parseIntStr text <;> rfl

theorem clampSetting_int (E : Engine) (floor dflt t : Int) (h0 : t ≠ 0)
    (hs : t.natAbs ≤ 2 ^ 53) :
    clampSetting E floor dflt (.num (.fin (t : ℚ))) = some (max floor t) := by
  obtain ⟨text, h1, h2⟩ := toStr_parse_int E t hs
  rw [clampSetting_text E floor dflt _ text h1, h2]
  simp only [h0, if_false]

theorem toStr_primitive (E : Engine) (v : JsVal) (ha : ∀ items, v ≠ .arr items)
    (ho : ∀ fields, v ≠ .obj fields) : (toStr E v).isSome = true := by
  cases v with
  | undefined => simp [toStr]
  | null => simp [toStr]
  | bool b => simp [toStr]
  | num x => simp [toStr]
  | str s => simp [toStr]
  | arr items => exact absurd rfl (ha items)
  | obj fields => exact absurd rfl (ho fields)

/-- C15, as stated, fails: with both saved limits equal to the integer `0`,
`loadConfig` yields the defaults 300 and 800, not `max(10, 0) = 10` and
`max(50, 0) = 50`. -/
theorem loadConfig_zero_gives_default :
    (loadConfig asciiEngine sampleLocation .undefined (some zeroLimits)).map
        (fun c => (c.max_age_sec, c.max_spots)) = some (300, 800)
      ∧ (300 : Int) ≠ max 10 0 ∧ (800 : Int) ≠ max 50 0 := by
  refine ⟨by decide!, by decide, by decide⟩

theorem toStr_isPrimitive (E : Engine) (v : JsVal) (h : v.isPrimitive = true) :
    (toStr E v).isSome = true := by
  cases v with
  | undefined => simp [toStr]
  | null => simp [toStr]
  | bool b => simp [toStr]
  | num x => simp [toStr]
  | str s => simp [toStr]
  | arr items => simp [JsVal.isPrimitive] at h
  | obj fields => simp [JsVal.isPrimitive] at h

theorem stringOrEmpty_isPrimitive (E : Engine) (v : JsVal) (h : v.isPrimitive = true) :
    (stringOrEmpty E v).isSome = true := by
  unfold stringOrEmpty
  split
  · exact toStr_isPrimitive E v h
  · rfl

theorem mapM_isSome {α β : Type} (f : α → Option β) (l : List α)
    (h : ∀ x ∈ l, (f x).isSome = true) : (l.mapM f).isSome = true := by
  induction l with
  | nil => rfl
  | cons a l ih =>
      obtain ⟨b, hb⟩ := Option.isSome_iff_exists.mp (h a (List.mem_cons_self a l))
      obtain ⟨bs, hbs⟩ := Option.isSome_iff_exists.mp
        (ih (fun x hx => h x (List.mem_cons_of_mem a hx)))
      rw [List.mapM_cons, hb, hbs]
      rfl

theorem loadModes_plain (E : Engine) (v : JsVal) (h : v.isPlainList = true) :
    (loadModes E v).isSome = true := by
  cases v with
  | arr items =>
      unfold loadModes
      apply mapM_isSome
      intro x hx
      have hp : x.isPrimitive = true := by
        simp only [JsVal.isPlainList, List.all_eq_true] at h
        exact h x hx
      obtain ⟨t, ht⟩ := Option.isSome_iff_exists.mp (toStr_isPrimitive E x hp)
      rw [ht]
      rfl
  | undefined => rfl
  | null => rfl
  | bool b => rfl
  | num x => rfl
  | str s => rfl
  | obj fields => simp [JsVal.isPlainList] at h

theorem loadEndpoints_plain (E : Engine) (loc : Location) (urlVal urlsVal : JsVal)
    (h1 : urlVal.isPrimitive = true) (h2 : urlsVal.isPlainList = true) :
    (loadEndpoints E loc urlVal urlsVal).isSome = true := by
  unfold loadEndpoints
  dsimp only
  by_cases ht : urlVal.truthy = true
  · have hn : ¬ ((!urlVal.truthy) = true) := by rw [ht]; simp
    rw [if_neg hn, if_neg hn]
    obtain ⟨url, hu⟩ := Option.isSome_iff_exists.mp (stringOrEmpty_isPrimitive E urlVal h1)
    rw [hu]
    dsimp only
    cases urlsVal with
    | arr items =>
        dsimp only
        have hm : (items.mapM (stringOrEmpty E)).isSome = true := by
          apply mapM_isSome
          intro x hx
          apply stringOrEmpty_isPrimitive
          simp only [JsVal.isPlainList, List.all_eq_true] at h2
          exact h2 x hx
        obtain ⟨list, hl⟩ := Option.isSome_iff_exists.mp hm
        rw [hl]
        rfl
    | undefined => rfl
    | null => rfl
    | bool b => rfl
    | num x => rfl
    | str s => rfl
    | obj fields => simp [JsVal.isPlainList] at h2
  · have hp : ((!urlVal.truthy) = true) := by
      cases hh : urlVal.truthy
      · rfl
      · exact absurd hh ht
    rw [if_pos hp, if_pos hp]
    have hm : (((buildDefaultWsUrls loc).map JsVal.str).mapM (stringOrEmpty E)).isSome
        = true := by
      apply mapM_isSome
      intro x hx
      apply stringOrEmpty_isPrimitive
      obtain ⟨u, -, rfl⟩ := List.mem_map.mp hx
      rfl
    obtain ⟨list, hl⟩ := Option.isSome_iff_exists.mp hm
    cases (buildDefaultWsUrls loc).head? with
    | none =>
        dsimp only
        obtain ⟨url, hu⟩ := Option.isSome_iff_exists.mp
          (stringOrEmpty_isPrimitive E .undefined rfl)
        rw [hu]
        dsimp only
        rw [hl]
        rfl
    | some u =>
        dsimp only
        obtain ⟨url, hu⟩ := Option.isSome_iff_exists.mp
          (stringOrEmpty_isPrimitive E (.str u) rfl)
        rw [hu]
        dsimp only
        rw [hl]
        rfl


theorem clampSetting_spec (E : Engine) (floor dflt : Int) (v : JsVal) (r : Int)
    (hfd : floor ≤ dflt) (h : clampSetting E floor dflt v = some r) :
    (SafeParse E v → floor ≤ r)
      ∧ (∀ text, toStr E v = some text → parseIntStr text = none → r = dflt)
      ∧ (∀ text, toStr E v = some text → parseIntStr text = some 0 → r = dflt)
      ∧ (∀ text t, toStr E v = some text → parseIntStr text = some t → t ≠ 0 →
          t.natAbs ≤ 2 ^ 53 → r = max floor t)
      ∧ (∀ t : Int, v = .num (.fin (t : ℚ)) → t.natAbs ≤ 2 ^ 53 →
          r = if t = 0 then dflt else max floor t) := by
  have key : ∀ text, toStr E v = some text →
      r = max floor (match parseIntStr text with
          | none => dflt
          | some t => if t = 0 then dflt else t) := by
    intro text hv
    rw [clampSetting_text E floor dflt v text hv] at h
    exact (Option.some.inj h).symm
  refine ⟨fun _ => clampSetting_ge E floor dflt v r h, ?_, ?_, ?_, ?_⟩
  · intro text hv hp
    rw [key text hv, hp]
    exact max_eq_right hfd
  · intro text hv hp
    rw [key text hv, hp]
    exact max_eq_right hfd
  · intro text t hv hp h0 _
    rw [key text hv, hp]
    simp only [h0, if_false]
  · intro t hv hs
    obtain ⟨text, h1, h2⟩ := toStr_parse_int E t hs
    rw [← hv] at h1
    rw [key text h1, h2]
    by_cases h0 : t = 0
    · simp only [h0, if_true]
      exact max_eq_right hfd
    · simp only [h0, if_false]

theorem loadConfig_limits (E : Engine) (loc : Location) (globalVal : JsVal)
    (stored : Option JsVal) (cfg : Cfg) (hc : loadConfig E loc globalVal stored = some cfg) :
    clampSetting E 10 300
        (mergedGet (if globalVal.isObjectType then globalVal else .obj [])
          (stored.getD (.obj [])) "max_age_sec") = some cfg.max_age_sec
      ∧ clampSetting E 50 800
        (mergedGet (if globalVal.isObjectType then globalVal else .obj [])
          (stored.getD (.obj [])) "max_spots") = some cfg.max_spots := by
  unfold loadConfig at hc
  simp only [] at hc
  split at hc
  · rename_i modes maxAge maxSpots url urls h1 h2 h3 h4
    have := Option.some.inj hc
    subst this
    exact ⟨h2, h3⟩
  · exact absurd hc (by simp)

theorem mergedGet_absent (g l : JsVal) (key : String) (hg : g.get key = .undefined)
    (hl : l.get key = .undefined) : mergedGet g l key = defaultsObj.get key := by
  unfold mergedGet
  simp only [hl, hg, JsVal.isUndefined, Bool.not_true, Bool.false_eq_true, if_false]

/-- C15, amended. `loadConfig` returns whenever no string conversion throws,
which is the case when the merged `max_age_sec`, `max_spots` and `ws_url` are
primitive values and `modes` and `ws_urls` are primitives or arrays of
primitives. Whenever it returns, each limit (`max_age_sec` with floor 10 and
default 300, `max_spots` with floor 50 and default 800) is at least its floor
when the text of the merged value parses within the safe integers; a value
absent from both the page and the saved configuration, a value whose text does
not parse, and a value that parses to zero yield the default; a value whose
text parses to a non-zero integer `t` of absolute value at most 2^53 yields
`max(floor, t)`, and so does the number `t` itself. -/
theorem loadConfig_clamping (E : Engine) (loc : Location) (globalVal : JsVal)
    (stored : Option JsVal) :
    ((mergedGet (if globalVal.isObjectType then globalVal else .obj [])
          (stored.getD (.obj [])) "modes").isPlainList = true →
        (mergedGet (if globalVal.isObjectType then globalVal else .obj [])
          (stored.getD (.obj [])) "max_age_sec").isPrimitive = true →
        (mergedGet (if globalVal.isObjectType then globalVal else .obj [])
          (stored.getD (.obj [])) "max_spots").isPrimitive = true →
        (mergedGet (if globalVal.isObjectType then globalVal else .obj [])
          (stored.getD (.obj [])) "ws_url").isPrimitive = true →
        (mergedGet (if globalVal.isObjectType then globalVal else .obj [])
          (stored.getD (.obj [])) "ws_urls").isPlainList = true →
        (loadConfig E loc globalVal stored).isSome = true)
      ∧ ((loadModes E (mergedGet (if globalVal.isObjectType then globalVal else .obj [])
              (stored.getD (.obj [])) "modes")).isSome = true →
          (toStr E (mergedGet (if globalVal.isObjectType then globalVal else .obj [])
              (stored.getD (.obj [])) "max_age_sec")).isSome = true →
          (toStr E (mergedGet (if globalVal.isObjectType then globalVal else .obj [])
              (stored.getD (.obj [])) "max_spots")).isSome = true →
          (loadEndpoints E loc
              (mergedGet (if globalVal.isObjectType then globalVal else .obj [])
                (stored.getD (.obj [])) "ws_url")
              (mergedGet (if globalVal.isObjectType then globalVal else .obj [])
                (stored.getD (.obj [])) "ws_urls")).isSome = true →
          (loadConfig E loc globalVal stored).isSome = true)
      ∧ (∀ cfg, loadConfig E loc globalVal stored = some cfg →
          ∀ (key : String) (floor dflt r : Int),
            (key, floor, dflt, r) ∈ [("max_age_sec", (10 : Int), (300 : Int), cfg.max_age_sec),
              ("max_spots", (50 : Int), (800 : Int), cfg.max_spots)] →
            (SafeParse E (mergedGet (if globalVal.isObjectType then globalVal else .obj [])
                (stored.getD (.obj [])) key) → floor ≤ r)
              ∧ ((if globalVal.isObjectType then globalVal else .obj []).get key = .undefined →
                  (stored.getD (.obj [])).get key = .undefined → r = dflt)
              ∧ (∀ text, toStr E (mergedGet
                    (if globalVal.isObjectType then globalVal else .obj [])
                    (stored.getD (.obj [])) key) = some text →
                  parseIntStr text = none → r = dflt)
              ∧ (∀ text, toStr E (mergedGet
                    (if globalVal.isObjectType then globalVal else .obj [])
                    (stored.getD (.obj [])) key) = some text →
                  parseIntStr text = some 0 → r = dflt)
              ∧ (∀ text t, toStr E (mergedGet
                    (if globalVal.isObjectType then globalVal else .obj [])
                    (stored.getD (.obj [])) key) = some text →
                  parseIntStr text = some t → t ≠ 0 → t.natAbs ≤ 2 ^ 53 → r = max floor t)
              ∧ (∀ t : Int, mergedGet (if globalVal.isObjectType then globalVal else .obj [])
                    (stored.getD (.obj [])) key = .num (.fin (t : ℚ)) →
                  t.natAbs ≤ 2 ^ 53 → r = if t = 0 then dflt else max floor t))
      ∧ loadConfig asciiEngine sampleLocation .undefined none = some sampleCfg
      ∧ (loadConfig asciiEngine sampleLocation .undefined (some textLimits)).map
          (fun c => (c.max_age_sec, c.max_spots)) = some (12, 50) := by
  refine ⟨?_, ?_, ?_, by decide!, by decide!⟩
  · intro hm ha hs hu hl
    obtain ⟨modes, hm⟩ := Option.isSome_iff_exists.mp (loadModes_plain E _ hm)
    obtain ⟨ta, ha⟩ := Option.isSome_iff_exists.mp (toStr_isPrimitive E _ ha)
    obtain ⟨ts, hs⟩ := Option.isSome_iff_exists.mp (toStr_isPrimitive E _ hs)
    obtain ⟨⟨url, urls⟩, he⟩ := Option.isSome_iff_exists.mp (loadEndpoints_plain E loc _ _ hu hl)
    unfold loadConfig
    simp only []
    rw [hm, clampSetting_text E 10 300 _ ta ha, clampSetting_text E 50 800 _ ts hs, he]
    rfl
  · intro hm ha hs he
    obtain ⟨modes, hm⟩ := Option.isSome_iff_exists.mp hm
    obtain ⟨ta, ha⟩ := Option.isSome_iff_exists.mp ha
    obtain ⟨ts, hs⟩ := Option.isSome_iff_exists.mp hs
    obtain ⟨⟨url, urls⟩, he⟩ := Option.isSome_iff_exists.mp he
    unfold loadConfig
    simp only []
    rw [hm, clampSetting_text E 10 300 _ ta ha, clampSetting_text E 50 800 _ ts hs, he]
    rfl
  · intro cfg hc key floor dflt r hmem
    obtain ⟨hA, hS⟩ := loadConfig_limits E loc globalVal stored cfg hc
    simp only [List.mem_cons, Prod.mk.injEq, List.mem_singleton, List.not_mem_nil, or_false]
      at hmem
    rcases hmem with ⟨rfl, rfl, rfl, rfl⟩ | ⟨rfl, rfl, rfl, rfl⟩
    · obtain ⟨p1, p2, p3, p4, p5⟩ := clampSetting_spec E 10 300 _ _ (by decide) hA
      refine ⟨p1, ?_, p2, p3, p4, p5⟩
      intro hg hl
      have hm := mergedGet_absent _ _ "max_age_sec" hg hl
      have hd : defaultsObj.get "max_age_sec" = .num (.fin ((300 : Int) : ℚ)) := by
        simp [defaultsObj, JsVal.get, List.find?]
      exact p5 300 (hm.trans hd) (by decide)
    · obtain ⟨p1, p2, p3, p4, p5⟩ := clampSetting_spec E 50 800 _ _ (by decide) hS
      refine ⟨p1, ?_, p2, p3, p4, p5⟩
      intro hg hl
      have hm := mergedGet_absent _ _ "max_spots" hg hl
      have hd : defaultsObj.get "max_spots" = .num (.fin ((800 : Int) : ℚ)) := by
        simp [defaultsObj, JsVal.get, List.find?]
      exact p5 800 (hm.trans hd) (by decide)

/-! ### Effective enablement -/

theorem SameFlags.inv {s s' : State} (h : SameFlags s s') (hi : EnabledInv s) : EnabledInv s' := by
  unfold EnabledInv at *
  rw [h.1, h.2.1, h.2.2]
  exact hi

theorem SameFlags.trans {s s' s'' : State} (h1 : SameFlags s s') (h2 : SameFlags s' s'') :
    SameFlags s s'' :=
  ⟨h2.1.trans h1.1, h2.2.1.trans h1.2.1, h2.2.2.trans h1.2.2⟩

theorem scheduleRender_flags (s : State) : SameFlags s (scheduleRender s) := by
  unfold scheduleRender
  split <;> exact ⟨rfl, rfl, rfl⟩

theorem pruneSpots_flags (now : Int) (s : State) : SameFlags s (pruneSpots now s) := by
  simp only [pruneSpots]
  split <;> exact ⟨rfl, rfl, rfl⟩

theorem handleSpot_flags (E : Engine) (now : Int) (p : JsVal) (s : State) :
    SameFlags s (handleSpot E now p s) := by
  unfold handleSpot
  split
  · exact ⟨rfl, rfl, rfl⟩
  · split
    · exact ⟨rfl, rfl, rfl⟩
    · refine SameFlags.trans ?_ (scheduleRender_flags _)
      simp only [pushSpot]
      split <;> exact ⟨rfl, rfl, rfl⟩

theorem scheduleReconnect_flags (s : State) : SameFlags s (scheduleReconnect s) := by
  unfold scheduleReconnect
  split
  · exact ⟨rfl, rfl, rfl⟩
  · split <;> exact ⟨rfl, rfl, rfl⟩

theorem connectWs_flags (throws : Bool) (s : State) : SameFlags s (connectWs throws s) := by
  simp only [connectWs]
  split_ifs <;>
    first
    | exact ⟨rfl, rfl, rfl⟩
    | exact SameFlags.trans ⟨rfl, rfl, rfl⟩ (scheduleReconnect_flags _)

theorem reconnectTimer_flags (throws : Bool) (s : State) :
    SameFlags s (reconnectTimer throws s) :=
  SameFlags.trans (connectWs_flags throws s) ⟨rfl, rfl, rfl⟩

theorem onOpen_flags (i : Nat) (s : State) : SameFlags s (onOpen i s) := by
  unfold onOpen
  split
  · exact ⟨rfl, rfl, rfl⟩
  · split
    · exact ⟨rfl, rfl, rfl⟩
    · split <;> exact ⟨rfl, rfl, rfl⟩

theorem onClosing_flags (i : Nat) (s : State) : SameFlags s (onClosing i s) := by
  unfold onClosing
  split
  · exact ⟨rfl, rfl, rfl⟩
  · split <;> exact ⟨rfl, rfl, rfl⟩

theorem onClose_flags (i : Nat) (s : State) : SameFlags s (onClose i s) := by
  simp only [onClose]
  split
  · exact ⟨rfl, rfl, rfl⟩
  · split
    · exact ⟨rfl, rfl, rfl⟩
    · split
      · exact ⟨rfl, rfl, rfl⟩
      · refine SameFlags.trans ?_ (scheduleReconnect_flags _)
        split <;> exact ⟨rfl, rfl, rfl⟩

theorem onMessage_flags (E : Engine) (i : Nat) (now : Int) (p : Option JsVal) (s : State) :
    SameFlags s (onMessage E i now p s) := by
  unfold onMessage
  split
  · exact ⟨rfl, rfl, rfl⟩
  · split
    · split
      · exact ⟨rfl, rfl, rfl⟩
      · exact handleSpot_flags E now _ s
    · exact ⟨rfl, rfl, rfl⟩

theorem closeWs_flags (s : State) : SameFlags s (closeWs s) := by
  simp only [closeWs]
  split
  · exact ⟨rfl, rfl, rfl⟩
  · split <;> exact ⟨rfl, rfl, rfl⟩

/-- After `applyEffectiveEnabled`, `state.enabled` is the user's preference
and the server flag, an unknown flag counting as off; preference and flag are
not touched. -/
theorem applyEffectiveEnabled_flags (throws : Bool) (s : State) :
    (applyEffectiveEnabled throws s).enabled
        = (s.cfg.enabled && (match s.serverEnabled with
            | none => false
            | some b => b))
      ∧ (applyEffectiveEnabled throws s).cfg = s.cfg
      ∧ (applyEffectiveEnabled throws s).serverEnabled = s.serverEnabled := by
  simp only [applyEffectiveEnabled]
  split
  · rename_i he
    exact ⟨he, rfl, rfl⟩
  · split
    · exact closeWs_flags { s with enabled := (s.cfg.enabled && (match s.serverEnabled with
            | none => false
            | some b => b)) }
    · exact SameFlags.trans (connectWs_flags throws
        { s with enabled := (s.cfg.enabled && (match s.serverEnabled with
            | none => false
            | some b => b)) }) (scheduleRender_flags _)

theorem applyEffectiveEnabled_inv (throws : Bool) (s : State) :
    EnabledInv (applyEffectiveEnabled throws s) := by
  obtain ⟨h1, h2, h3⟩ := applyEffectiveEnabled_flags throws s
  intro he
  rw [h1] at he
  rw [h2, h3]
  cases hc : s.cfg.enabled <;> cases hs : s.serverEnabled <;> simp_all

theorem syncServerConfig_inv (flag : Option Bool) (throws : Bool) (s : State)
    (h : EnabledInv s) : EnabledInv (syncServerConfig flag throws s) := by
  unfold syncServerConfig
  split
  · exact h
  · split
    · exact h
    · exact applyEffectiveEnabled_inv _ _

theorem start_inv (overlay t1 t2 : Bool) (s : State) (h : EnabledInv s) :
    EnabledInv (start overlay t1 t2 s) := by
  simp only [start]
  split
  · exact h
  · have h1 := applyEffectiveEnabled_inv t1 s
    have h2 := (connectWs_flags t2 (applyEffectiveEnabled t1 s)).inv h1
    have h3 : EnabledInv { connectWs t2 (applyEffectiveEnabled t1 s) with running := true } := h2
    exact (scheduleRender_flags _).inv h3

theorem render_inv (E : Engine) (hh : Host) (now : Int) (s : State) (h : EnabledInv s) :
    EnabledInv (render E hh now s).1 := by
  have h1 : EnabledInv { s with renderPending := false } := h
  simp only [render]
  split
  · exact h1
  · split
    · exact (scheduleRender_flags _).inv h1
    · have h2 := syncServerConfig_inv hh.serverFlag hh.wsThrows _ h1
      split
      · exact h2
      · simp only [drawSpots]
        split
        · exact h2
        · split <;> exact (pruneSpots_flags _ _).inv h2

theorem step_inv (E : Engine) (ev : Event) (s : State) (h : EnabledInv s) :
    EnabledInv (step E ev s) := by
  cases ev with
  | start o t1 t2 => exact start_inv o t1 t2 s h
  | wsOpen i => exact (onOpen_flags i s).inv h
  | wsClosing i => exact (onClosing_flags i s).inv h
  | wsClose i => exact (onClose_flags i s).inv h
  | wsMessage i now p => exact (onMessage_flags E i now p s).inv h
  | timer k throws =>
      simp only [step]
      split
      · have h0 : EnabledInv { s with timers := s.timers.eraseIdx k } := h
        exact (reconnectTimer_flags throws _).inv h0
      · exact h
  | toggle c t =>
      unfold step onToggle updateConfig
      exact applyEffectiveEnabled_inv _ _
  | render hh now => exact render_inv E hh now s h

theorem run_inv (E : Engine) (events : List Event) (s : State) (h : EnabledInv s) :
    EnabledInv (run E events s) := by
  induction events generalizing s with
  | nil => exact h
  | cons ev evs ih => exact ih _ (step_inv E ev s h)

/-- C16. After every call of `applyEffectiveEnabled`, `state.enabled` equals
`cfg.enabled` AND the server flag `state.serverEnabled`, an unknown (`null`)
flag counting as false, and neither the preference nor the flag is changed by
the call. Hence in every state reachable from start-up the overlay is enabled
only while the preference is on and the flag is known and true; with an unknown
flag, start-up leaves the overlay disabled and opens no socket. -/
theorem effective_enabled (E : Engine) (cfg : Cfg) (srv : Option Bool) (loc : Location)
    (events : List Event) :
    (∀ (throws : Bool) (s : State),
        (applyEffectiveEnabled throws s).enabled
            = (s.cfg.enabled && (match s.serverEnabled with
                | none => false
                | some b => b))
          ∧ (applyEffectiveEnabled throws s).cfg = s.cfg
          ∧ (applyEffectiveEnabled throws s).serverEnabled = s.serverEnabled)
      ∧ ((run E events (init cfg srv loc)).enabled = true →
          (run E events (init cfg srv loc)).cfg.enabled = true
            ∧ (run E events (init cfg srv loc)).serverEnabled = some true)
      ∧ (run asciiEngine [.start true false false] unknownFlagInit).enabled = false
      ∧ (run asciiEngine [.start true false false] unknownFlagInit).sockets = []
      ∧ (run asciiEngine [.start true false false] sampleInit).enabled = true := by
  refine ⟨applyEffectiveEnabled_flags, ?_, by decide!, by decide!, by decide!⟩
  have hinit : EnabledInv (init cfg srv loc) := by
    intro he
    exact absurd he (by simp [init])
  exact run_inv E events _ hinit

/-! ### Stop suppresses reconnection -/

theorem Quiet_refl (d : State) : Quiet d d := ⟨rfl, le_refl _, id⟩

theorem Quiet_trans {a b c : State} (h1 : Quiet a b) (h2 : Quiet b c) : Quiet a c :=
  ⟨h2.1.trans h1.1, le_trans h2.2.1 h1.2.1, fun h => h2.2.2 (h1.2.2 h)⟩

theorem scheduleReconnect_disabled (d : State) (hd : d.enabled = false) :
    scheduleReconnect d = d := by
  unfold scheduleReconnect
  rw [if_pos (by rw [hd]; rfl)]

theorem scheduleReconnect_quiet (d : State) (hd : d.enabled = false) :
    Quiet d (scheduleReconnect d) := by
  rw [scheduleReconnect_disabled d hd]
  exact Quiet_refl d

theorem connectWs_disabled (throws : Bool) (d : State) (hd : d.enabled = false) :
    (connectWs throws d).sockets = d.sockets ∧ (connectWs throws d).timers = d.timers
      ∧ (connectWs throws d).ws = d.ws ∧ (connectWs throws d).enabled = false := by
  simp only [connectWs]
  split_ifs <;>
    first
    | exact ⟨rfl, rfl, rfl, hd⟩
    | (exfalso; simp_all)

theorem reconnectTimer_disabled (throws : Bool) (d : State) (hd : d.enabled = false) :
    (reconnectTimer throws d).sockets = d.sockets ∧ (reconnectTimer throws d).timers = d.timers
      ∧ (reconnectTimer throws d).ws = d.ws ∧ (reconnectTimer throws d).enabled = false :=
  connectWs_disabled throws d hd

theorem setSocket_quiet (d : State) (i : Nat) (sk : Socket) : Quiet d (setSocket d i sk) :=
  ⟨by simp [setSocket], le_refl _, id⟩

theorem onOpen_quiet (i : Nat) (d : State) : Quiet d (onOpen i d) := by
  unfold onOpen
  split
  · exact Quiet_refl d
  · split
    · exact Quiet_refl d
    · split
      · exact setSocket_quiet _ _ _
      · exact ⟨by simp [setSocket], le_refl _, id⟩

theorem onClosing_quiet (i : Nat) (d : State) : Quiet d (onClosing i d) := by
  unfold onClosing
  split
  · exact Quiet_refl d
  · split
    · exact setSocket_quiet _ _ _
    · exact Quiet_refl d

theorem onClose_quiet (i : Nat) (d : State) (hd : d.enabled = false) : Quiet d (onClose i d) := by
  simp only [onClose]
  split
  · exact Quiet_refl d
  · split
    · exact Quiet_refl d
    · split
      · exact setSocket_quiet _ _ _
      · split
        · refine Quiet_trans ?_ (scheduleReconnect_quiet _ ?_)
          · exact ⟨by simp [setSocket], le_refl _, id⟩
          · exact hd
        · refine Quiet_trans ?_ (scheduleReconnect_quiet _ ?_)
          · exact setSocket_quiet _ _ _
          · exact hd

theorem scheduleRender_quiet (d : State) : Quiet d (scheduleRender d) := by
  unfold scheduleRender
  split
  · exact Quiet_refl d
  · exact ⟨rfl, le_refl _, id⟩

theorem pruneSpots_quiet (now : Int) (d : State) : Quiet d (pruneSpots now d) := by
  simp only [pruneSpots]
  split
  · exact Quiet_refl d
  · exact ⟨rfl, le_refl _, id⟩

theorem handleSpot_quiet (E : Engine) (now : Int) (p : JsVal) (d : State) :
    Quiet d (handleSpot E now p d) := by
  unfold handleSpot
  split
  · exact Quiet_refl d
  · split
    · exact Quiet_refl d
    · refine Quiet_trans ?_ (scheduleRender_quiet _)
      simp only [pushSpot]
      split <;> exact ⟨rfl, le_refl _, id⟩

theorem onMessage_quiet (E : Engine) (i : Nat) (now : Int) (p : Option JsVal) (d : State) :
    Quiet d (onMessage E i now p d) := by
  unfold onMessage
  split
  · exact Quiet_refl d
  · split
    · split
      · exact Quiet_refl d
      · exact handleSpot_quiet E now _ d
    · exact Quiet_refl d

/-- A disabled client that `applyEffectiveEnabled` leaves disabled is left as
it is: the call returns at `if (state.enabled === effective) return`. -/
theorem applyEffectiveEnabled_disabled (throws : Bool) (d : State) (hd : d.enabled = false)
    (hr : (applyEffectiveEnabled throws d).enabled = false) :
    applyEffectiveEnabled throws d = d := by
  have hf := (applyEffectiveEnabled_flags throws d).1
  rw [hr] at hf
  simp only [applyEffectiveEnabled]
  rw [if_pos (by rw [hd]; exact hf)]


theorem applyEffectiveEnabled_quiet (throws : Bool) (d0 d : State) (hq : Quiet d0 d)
    (hd : d.enabled = false) (hr : (applyEffectiveEnabled throws d).enabled = false) :
    Quiet d0 (applyEffectiveEnabled throws d) := by
  rw [applyEffectiveEnabled_disabled throws d hd hr]
  exact hq

theorem connectWs_quiet (throws : Bool) (d : State) (hd : d.enabled = false) :
    Quiet d (connectWs throws d) := by
  obtain ⟨h1, h2, h3, -⟩ := connectWs_disabled throws d hd
  exact ⟨by rw [h1], by rw [h2], fun h => by rw [h3]; exact h⟩

theorem start_quiet (overlay t1 t2 : Bool) (d : State) (hd : d.enabled = false)
    (hr : (start overlay t1 t2 d).enabled = false) : Quiet d (start overlay t1 t2 d) := by
  simp only [start] at hr ⊢
  split at hr
  · rename_i ho
    rw [if_pos ho]
    exact Quiet_refl d
  · rename_i ho
    rw [if_neg ho]
    have h1 : (applyEffectiveEnabled t1 d).enabled = false := by
      have f1 := (scheduleRender_flags
        { connectWs t2 (applyEffectiveEnabled t1 d) with running := true }).1
      have f2 := (connectWs_flags t2 (applyEffectiveEnabled t1 d)).1
      rw [f1] at hr
      exact f2.symm.trans hr
    rw [applyEffectiveEnabled_disabled t1 d hd h1]
    have hq := connectWs_quiet t2 d hd
    refine Quiet_trans ?_ (scheduleRender_quiet _)
    exact hq

theorem onToggle_quiet (checked throws : Bool) (d : State) (hd : d.enabled = false)
    (hr : (onToggle checked throws d).enabled = false) : Quiet d (onToggle checked throws d) := by
  unfold onToggle updateConfig at hr ⊢
  refine applyEffectiveEnabled_quiet throws d _ ?_ ?_ hr
  · exact ⟨rfl, le_refl _, id⟩
  · exact hd

theorem syncServerConfig_quiet (flag : Option Bool) (throws : Bool) (d : State)
    (hd : d.enabled = false) (hr : (syncServerConfig flag throws d).enabled = false) :
    Quiet d (syncServerConfig flag throws d) := by
  unfold syncServerConfig at hr ⊢
  split
  · exact Quiet_refl d
  · rename_i b
    simp only [] at hr
    split
    · exact Quiet_refl d
    · rename_i hb
      rw [if_neg hb] at hr
      refine applyEffectiveEnabled_quiet throws d _ ?_ ?_ hr
      · exact ⟨rfl, le_refl _, id⟩
      · exact hd

theorem render_quiet (E : Engine) (hh : Host) (now : Int) (d : State) (hd : d.enabled = false)
    (hr : (render E hh now d).1.enabled = false) : Quiet d (render E hh now d).1 := by
  have q0 : Quiet d { d with renderPending := false } := ⟨rfl, le_refl _, id⟩
  have hd0 : ({ d with renderPending := false } : State).enabled = false := hd
  simp only [render] at hr ⊢
  split
  · exact q0
  · split
    · exact Quiet_trans q0 (scheduleRender_quiet _)
    · rename_i hc hrd
      rw [if_neg hc, if_neg hrd] at hr
      have hs : (syncServerConfig hh.serverFlag hh.wsThrows
          { d with renderPending := false }).enabled = false := by
        split at hr
        · exact hr
        · simp only [drawSpots] at hr
          split at hr
          · rename_i he
            simpa using he
          · have f := (pruneSpots_flags now (syncServerConfig hh.serverFlag hh.wsThrows
              { d with renderPending := false })).1
            split at hr <;> exact f.symm.trans hr
      have q1 := Quiet_trans q0 (syncServerConfig_quiet hh.serverFlag hh.wsThrows _ hd0 hs)
      split
      · exact q1
      · simp only [drawSpots]
        split
        · exact q1
        · split <;> exact Quiet_trans q1 (pruneSpots_quiet _ _)

theorem step_quiet (E : Engine) (ev : Event) (d : State) (hd : d.enabled = false)
    (hr : (step E ev d).enabled = false) : Quiet d (step E ev d) := by
  cases ev with
  | start o t1 t2 => exact start_quiet o t1 t2 d hd hr
  | wsOpen i => exact onOpen_quiet i d
  | wsClosing i => exact onClosing_quiet i d
  | wsClose i => exact onClose_quiet i d hd
  | wsMessage i now p => exact onMessage_quiet E i now p d
  | timer k throws =>
      simp only [step]
      split
      · have hd0 : ({ d with timers := d.timers.eraseIdx k } : State).enabled = false := hd
        obtain ⟨h1, h2, h3, -⟩ := reconnectTimer_disabled throws _ hd0
        refine ⟨by rw [h1], ?_, fun h => by rw [h3]; exact h⟩
        rw [h2]
        show (d.timers.eraseIdx k).length ≤ d.timers.length
        rw [List.length_eraseIdx]
        split <;> omega
      · exact Quiet_refl d
  | toggle c t => exact onToggle_quiet c t d hd hr
  | render hh now => exact render_quiet E hh now d hd hr

theorem run_quiet (E : Engine) (events : List Event) :
    ∀ d : State, d.enabled = false → StaysDisabled E events d →
      Quiet d (run E events d) ∧ (run E events d).enabled = false := by
  induction events with
  | nil => intro d hd _; exact ⟨Quiet_refl d, hd⟩
  | cons ev rest ih =>
      intro d hd hs
      obtain ⟨h1, h2⟩ := hs
      obtain ⟨q, he⟩ := ih (step E ev d) h1 h2
      exact ⟨Quiet_trans (step_quiet E ev d hd h1) q, he⟩


theorem closeWs_fields (s : State) :
    (closeWs s).ws = none ∧ (closeWs s).sockets.length = s.sockets.length
      ∧ (closeWs s).timers = s.timers
      ∧ (∀ i sk, s.ws = some i → s.sockets.get? i = some sk →
          ∃ sk', (closeWs s).sockets.get? i = some sk' ∧ sk'.attached = false) := by
  simp only [closeWs]
  split
  · rename_i hws
    refine ⟨hws, rfl, rfl, ?_⟩
    intro i sk h
    rw [hws] at h
    exact absurd h (by simp)
  · rename_i j hws
    split
    · rename_i hnone
      refine ⟨rfl, rfl, rfl, ?_⟩
      intro i sk h hsk
      rw [hws] at h
      cases h
      rw [hnone] at hsk
      exact absurd hsk (by simp)
    · rename_i sk0 hsk0
      refine ⟨rfl, by simp [setSocket], rfl, ?_⟩
      intro i sk h hsk
      rw [hws] at h
      cases h
      have hj : j < s.sockets.length := by
        rcases Nat.lt_or_ge j s.sockets.length with h | h
        · exact h
        · rw [List.get?_eq_none.mpr h] at hsk
          exact absurd hsk (by simp)
      refine ⟨{ sk0 with attached := false, readyState :=
          if sk0.readyState = .connecting ∨ sk0.readyState = .isOpen
          then ReadyState.closing else sk0.readyState }, ?_, rfl⟩
      show (s.sockets.set j _).get? j = some _
      simp [List.getElem?_set_self, hj]

/-- Switching off an enabled client runs `closeWs`. -/
theorem applyEffectiveEnabled_stops (throws : Bool) (s : State) (he : s.enabled = true)
    (hr : (applyEffectiveEnabled throws s).enabled = false) :
    applyEffectiveEnabled throws s = closeWs { s with enabled := false } := by
  have hf := (applyEffectiveEnabled_flags throws s).1
  rw [hr] at hf
  simp only [applyEffectiveEnabled]
  rw [← hf, if_neg (by rw [he]; decide)]
  simp

/-- C17. When an enabled client is switched off, `closeWs` runs: `state.ws`
becomes `null` and the socket it referred to has its handlers cleared, without
any socket or timer being added. While the client is disabled, `connectWs`
creates no socket and sets no timer, `scheduleReconnect` does nothing, a late
timer firing only removes that timer, and along every sequence of callbacks
that leaves the client disabled no socket is created, no reconnect timer is
added and `state.ws` stays `null`. -/
theorem stop_suppresses_reconnect (E : Engine) (d : State) (hd : d.enabled = false) :
    (∀ (throws : Bool) (s : State), s.enabled = true →
        (applyEffectiveEnabled throws s).enabled = false →
        (applyEffectiveEnabled throws s).ws = none
          ∧ (applyEffectiveEnabled throws s).sockets.length = s.sockets.length
          ∧ (applyEffectiveEnabled throws s).timers = s.timers
          ∧ (∀ i sk, s.ws = some i → s.sockets.get? i = some sk →
              ∃ sk', (applyEffectiveEnabled throws s).sockets.get? i = some sk'
                ∧ sk'.attached = false))
      ∧ (∀ throws : Bool, (connectWs throws d).sockets = d.sockets
          ∧ (connectWs throws d).timers = d.timers ∧ (connectWs throws d).ws = d.ws)
      ∧ scheduleReconnect d = d
      ∧ (∀ (k : Nat) (throws : Bool), k < d.timers.length →
          (step E (.timer k throws) d).sockets = d.sockets
            ∧ (step E (.timer k throws) d).timers = d.timers.eraseIdx k
            ∧ (step E (.timer k throws) d).ws = d.ws)
      ∧ (∀ events : List Event, StaysDisabled E events d →
          (run E events d).sockets.length = d.sockets.length
            ∧ (run E events d).timers.length ≤ d.timers.length
            ∧ (d.ws = none → (run E events d).ws = none)
            ∧ (run E events d).enabled = false)
      ∧ (stoppedState.enabled = false ∧ stoppedState.ws = none
          ∧ stoppedState.sockets.map Socket.attached = [false] ∧ stoppedState.timers = [])
      ∧ (stoppedWithTimer.timers = [1000]
          ∧ (run asciiEngine [.timer 0 false] stoppedWithTimer).sockets.length = 1
          ∧ (run asciiEngine [.timer 0 false] stoppedWithTimer).timers = []
          ∧ (run asciiEngine [.timer 0 false] stoppedWithTimer).ws = none) := by
  refine ⟨?_, ?_, scheduleReconnect_disabled d hd, ?_, ?_, by decide!, by decide!⟩
  · intro throws s he hr
    rw [applyEffectiveEnabled_stops throws s he hr]
    obtain ⟨h1, h2, h3, h4⟩ := closeWs_fields { s with enabled := false }
    exact ⟨h1, h2, h3, h4⟩
  · intro throws
    obtain ⟨h1, h2, h3, -⟩ := connectWs_disabled throws d hd
    exact ⟨h1, h2, h3⟩
  · intro k throws hk
    have hd0 : ({ d with timers := d.timers.eraseIdx k } : State).enabled = false := hd
    obtain ⟨h1, h2, h3, -⟩ := reconnectTimer_disabled throws _ hd0
    simp only [step, hk, if_true]
    exact ⟨h1, h2, h3⟩
  · intro events hs
    obtain ⟨q, he⟩ := run_quiet E events d hd hs
    exact ⟨q.1, q.2.1, q.2.2, he⟩

theorem stop_suppresses_reconnect_witness :
    stoppedWithTimer.enabled = false ∧ scheduleReconnect stoppedWithTimer = stoppedWithTimer
      ∧ (∀ throws : Bool, (connectWs throws stoppedWithTimer).sockets = stoppedWithTimer.sockets
          ∧ (connectWs throws stoppedWithTimer).timers = stoppedWithTimer.timers
          ∧ (connectWs throws stoppedWithTimer).ws = stoppedWithTimer.ws) :=
  have h := stop_suppresses_reconnect asciiEngine stoppedWithTimer (by decide!)
  ⟨by decide!, h.2.2.1, h.2.1⟩

/-! ### Cursor validity -/

theorem connectTarget_valid (s : State) (urls : List String) (i : Nat)
    (h : connectTarget s = some (urls, i)) :
    urls = candidateUrls s ∧ urls ≠ [] ∧ urls.Nodup ∧ i < urls.length
      ∧ s.enabled = true ∧ wsBusy s = false
      ∧ i = (if s.wsUrlIndex ≥ urls.length then 0 else s.wsUrlIndex) := by
  unfold connectTarget at h
  simp only [] at h
  split at h
  · exact absurd h (by simp)
  · rename_i hne
    split at h
    · exact absurd h (by simp)
    · rename_i he
      split at h
      · exact absurd h (by simp)
      · rename_i hb
        simp only [Option.some.injEq, Prod.mk.injEq] at h
        obtain ⟨h1, h2⟩ := h
        subst h1
        refine ⟨rfl, ?_, candidateUrls_nodup s, ?_, by simpa using he, by simpa using hb, h2.symm⟩
        · intro h0
          exact hne (by rw [h0]; rfl)
        · rw [← h2]
          split
          · omega
          · omega


/-- With a target, `connectWs` either creates a socket for the candidate under
the cursor or, when the constructor throws, advances the cursor and schedules
a reconnect; the state it works on has `wsUrlIndex = i`. -/
theorem connectWs_at_target (throws : Bool) (s : State) (urls : List String) (i : Nat)
    (h : connectTarget s = some (urls, i)) :
    connectWs throws s
      = if throws then
          scheduleReconnect
            { s with wsUrls := some urls, wsUrlIndex := (i + 1) % urls.length }
        else
          { s with
            wsUrls := some urls
            wsUrlIndex := i
            ws := some s.sockets.length
            sockets := s.sockets ++ [(⟨urls.getD i "", .connecting, false, urls, true⟩ : Socket)] }
      := by
  obtain ⟨h1, h2, -, h4, h5, h6, h7⟩ := connectTarget_valid s urls i h
  subst h1
  have hne : ¬ (candidateUrls s).length = 0 := by
    intro h0
    exact h2 (List.length_eq_zero.mp h0)
  by_cases hge : s.wsUrlIndex ≥ (candidateUrls s).length
  · rw [if_pos hge] at h7
    subst h7
    have hb' : wsBusy { s with wsUrls := some (candidateUrls s), wsUrlIndex := 0 } = false := h6
    have he' : (!({ s with wsUrls := some (candidateUrls s), wsUrlIndex := 0 } : State).enabled)
        = false := by
      show (!s.enabled) = false
      rw [h5]; rfl
    unfold connectWs
    simp only [hne, hge, if_false, if_true]
    rw [if_neg (by rw [he']; exact Bool.false_ne_true),
      if_neg (by rw [hb']; exact Bool.false_ne_true)]
  · rw [if_neg hge] at h7
    subst h7
    have hb' : wsBusy { s with wsUrls := some (candidateUrls s) } = false := h6
    have he' : (!({ s with wsUrls := some (candidateUrls s) } : State).enabled) = false := by
      show (!s.enabled) = false
      rw [h5]; rfl
    unfold connectWs
    simp only [hne, hge, if_false]
    rw [if_neg (by rw [he']; exact Bool.false_ne_true),
      if_neg (by rw [hb']; exact Bool.false_ne_true)]

/-- Without a target, `connectWs` creates no socket and sets no timer. -/
theorem connectWs_no_target (throws : Bool) (s : State) (h : connectTarget s = none) :
    (connectWs throws s).sockets = s.sockets ∧ (connectWs throws s).timers = s.timers := by
  unfold connectTarget at h
  simp only [] at h
  by_cases hz : (candidateUrls s).length = 0
  · unfold connectWs
    simp only []
    rw [if_pos hz]
    exact ⟨rfl, rfl⟩
  · rw [if_neg hz] at h
    by_cases he : (!s.enabled) = true
    · have hd : s.enabled = false := by simpa using he
      obtain ⟨h1, h2, -⟩ := connectWs_disabled throws s hd
      exact ⟨h1, h2⟩
    · rw [if_neg he] at h
      by_cases hb : wsBusy s = true
      · have hb1 : wsBusy { s with wsUrls := some (candidateUrls s) } = true := hb
        have hb2 : wsBusy { s with wsUrls := some (candidateUrls s), wsUrlIndex := 0 } = true := hb
        simp only [connectWs]
        split_ifs <;> exact ⟨rfl, rfl⟩
      · rw [if_neg hb] at h
        exact absurd h (by simp)

theorem getD_mem {urls : List String} {i : Nat} (h : i < urls.length) :
    urls.getD i "" ∈ urls := by
  rw [List.getD_eq_getElem?_getD, List.getElem?_eq_getElem h]
  exact List.getElem_mem h


theorem AttemptsInv_of_eq {s s' : State} (h : AttemptsInv s) (hs : s'.sockets = s.sockets) :
    AttemptsInv s' := by
  unfold AttemptsInv at *
  rw [hs]
  exact h

theorem setSocket_attempts (s : State) (i : Nat) (sk sk' : Socket) (h : AttemptsInv s)
    (hsk : s.sockets.get? i = some sk) (hu : sk'.urls = sk.urls) (hx : sk'.url = sk.url) :
    AttemptsInv (setSocket s i sk') := by
  intro x hm
  rcases List.mem_or_eq_of_mem_set hm with hm | rfl
  · exact h x hm
  · rw [hu, hx]
    exact h sk (mem_of_get?_eq_some hsk)

theorem scheduleRender_attempts (s : State) (h : AttemptsInv s) :
    AttemptsInv (scheduleRender s) := by
  unfold scheduleRender
  split
  · exact h
  · exact AttemptsInv_of_eq h rfl

theorem pruneSpots_attempts (now : Int) (s : State) (h : AttemptsInv s) :
    AttemptsInv (pruneSpots now s) := by
  simp only [pruneSpots]
  split
  · exact h
  · exact AttemptsInv_of_eq h rfl

theorem handleSpot_attempts (E : Engine) (now : Int) (p : JsVal) (s : State)
    (h : AttemptsInv s) : AttemptsInv (handleSpot E now p s) := by
  unfold handleSpot
  split
  · exact h
  · split
    · exact h
    · apply scheduleRender_attempts
      simp only [pushSpot]
      split <;> exact AttemptsInv_of_eq h rfl

theorem scheduleReconnect_attempts (s : State) (h : AttemptsInv s) :
    AttemptsInv (scheduleReconnect s) := by
  unfold scheduleReconnect
  split
  · exact h
  · split <;> exact AttemptsInv_of_eq h rfl

theorem connectWs_attempts (throws : Bool) (s : State) (h : AttemptsInv s) :
    AttemptsInv (connectWs throws s) := by
  cases ht : connectTarget s with
  | none => exact AttemptsInv_of_eq h (connectWs_no_target throws s ht).1
  | some p =>
      obtain ⟨urls, i⟩ := p
      obtain ⟨-, h2, h3, h4, -⟩ := connectTarget_valid s urls i ht
      rw [connectWs_at_target throws s urls i ht]
      split
      · exact scheduleReconnect_attempts _ (AttemptsInv_of_eq h rfl)
      · intro sk hm
        rcases List.mem_append.mp hm with hm | hm
        · exact h sk hm
        · rw [List.mem_singleton.mp hm]
          exact ⟨h2, h3, getD_mem h4⟩

theorem reconnectTimer_attempts (throws : Bool) (s : State) (h : AttemptsInv s) :
    AttemptsInv (reconnectTimer throws s) :=
  AttemptsInv_of_eq (connectWs_attempts throws s h) rfl

theorem onOpen_attempts (i : Nat) (s : State) (h : AttemptsInv s) :
    AttemptsInv (onOpen i s) := by
  unfold onOpen
  split
  · exact h
  · rename_i sk hsk
    split
    · exact h
    · split
      · exact setSocket_attempts s i sk _ h hsk rfl rfl
      · exact AttemptsInv_of_eq
          (setSocket_attempts s i sk { sk with readyState := .isOpen, opened := true } h hsk
            rfl rfl) rfl

theorem onClosing_attempts (i : Nat) (s : State) (h : AttemptsInv s) :
    AttemptsInv (onClosing i s) := by
  unfold onClosing
  split
  · exact h
  · rename_i sk hsk
    split
    · exact setSocket_attempts s i sk _ h hsk rfl rfl
    · exact h

theorem onClose_attempts (i : Nat) (s : State) (h : AttemptsInv s) :
    AttemptsInv (onClose i s) := by
  simp only [onClose]
  split
  · exact h
  · rename_i sk hsk
    have hs1 : AttemptsInv (setSocket s i { sk with readyState := .closed }) :=
      setSocket_attempts s i sk _ h hsk rfl rfl
    split
    · exact h
    · split
      · exact hs1
      · apply scheduleReconnect_attempts
        split
        · exact AttemptsInv_of_eq hs1 rfl
        · exact hs1

theorem onMessage_attempts (E : Engine) (i : Nat) (now : Int) (p : Option JsVal) (s : State)
    (h : AttemptsInv s) : AttemptsInv (onMessage E i now p s) := by
  unfold onMessage
  split
  · exact h
  · split
    · split
      · exact h
      · exact handleSpot_attempts E now _ s h
    · exact h

theorem closeWs_attempts (s : State) (h : AttemptsInv s) : AttemptsInv (closeWs s) := by
  simp only [closeWs]
  split
  · exact h
  · rename_i j hws
    split
    · exact AttemptsInv_of_eq h rfl
    · rename_i sk hsk
      exact AttemptsInv_of_eq (setSocket_attempts s j sk
        { sk with attached := false, readyState :=
            if sk.readyState = .connecting ∨ sk.readyState = .isOpen
            then ReadyState.closing else sk.readyState } h hsk rfl rfl) rfl

theorem applyEffectiveEnabled_attempts (throws : Bool) (s : State) (h : AttemptsInv s) :
    AttemptsInv (applyEffectiveEnabled throws s) := by
  simp only [applyEffectiveEnabled]
  split
  · exact h
  · split
    · exact closeWs_attempts _ (AttemptsInv_of_eq h rfl)
    · exact scheduleRender_attempts _ (connectWs_attempts _ _ (AttemptsInv_of_eq h rfl))

theorem syncServerConfig_attempts (flag : Option Bool) (throws : Bool) (s : State)
    (h : AttemptsInv s) : AttemptsInv (syncServerConfig flag throws s) := by
  unfold syncServerConfig
  split
  · exact h
  · split
    · exact h
    · exact applyEffectiveEnabled_attempts _ _ (AttemptsInv_of_eq h rfl)

theorem updateConfig_attempts (patch : Patch) (throws : Bool) (s : State)
    (h : AttemptsInv s) : AttemptsInv (updateConfig patch throws s) := by
  unfold updateConfig
  exact applyEffectiveEnabled_attempts _ _ (AttemptsInv_of_eq h rfl)

theorem start_attempts (overlay t1 t2 : Bool) (s : State) (h : AttemptsInv s) :
    AttemptsInv (start overlay t1 t2 s) := by
  simp only [start]
  split
  · exact h
  · apply scheduleRender_attempts
    exact AttemptsInv_of_eq
      (connectWs_attempts t2 _ (applyEffectiveEnabled_attempts t1 s h)) rfl

theorem render_attempts (E : Engine) (hh : Host) (now : Int) (s : State)
    (h : AttemptsInv s) : AttemptsInv (render E hh now s).1 := by
  have h1 : AttemptsInv { s with renderPending := false } := AttemptsInv_of_eq h rfl
  simp only [render]
  split
  · exact h1
  · split
    · exact scheduleRender_attempts _ h1
    · have h2 := syncServerConfig_attempts hh.serverFlag hh.wsThrows _ h1
      split
      · exact h2
      · simp only [drawSpots]
        split
        · exact h2
        · split <;> exact pruneSpots_attempts _ _ h2

theorem step_attempts (E : Engine) (ev : Event) (s : State) (h : AttemptsInv s) :
    AttemptsInv (step E ev s) := by
  cases ev with
  | start o t1 t2 => exact start_attempts o t1 t2 s h
  | wsOpen i => exact onOpen_attempts i s h
  | wsClosing i => exact onClosing_attempts i s h
  | wsClose i => exact onClose_attempts i s h
  | wsMessage i now p => exact onMessage_attempts E i now p s h
  | timer k throws =>
      simp only [step]
      split
      · exact reconnectTimer_attempts _ _ (AttemptsInv_of_eq h rfl)
      · exact h
  | toggle c t =>
      unfold step onToggle
      exact updateConfig_attempts _ _ _ (AttemptsInv_of_eq h rfl)
  | render hh now => exact render_attempts E hh now s h

theorem runCfg_attempts (E : Engine) (events : List CfgEvent) (s : State)
    (h : AttemptsInv s) : AttemptsInv (runCfg E events s) := by
  induction events generalizing s with
  | nil => exact h
  | cons ev evs ih =>
      apply ih
      cases ev with
      | ev e => exact step_attempts E e s h
      | connect t => exact connectWs_attempts t s h
      | update p t => exact updateConfig_attempts p t s h

/-- C18. In every state reachable from start-up through callbacks, direct
`connectWs` calls and `updateConfig` calls with any patch, whenever `connectWs`
reaches the socket constructor it does so with a non-empty list of distinct
candidates and a cursor that indexes it, and the socket it creates targets the
member at the cursor; otherwise it creates nothing. Every socket ever created
targets a member of the non-empty duplicate-free list it was created for.
After the list [A, B, C] with the cursor at C is replaced by [D], the next
attempt targets D. -/
theorem cursor_valid_at_attempt (E : Engine) (cfg : Cfg) (srv : Option Bool) (loc : Location)
    (events : List CfgEvent) :
    (∀ urls i, connectTarget (runCfg E events (init cfg srv loc)) = some (urls, i) →
        urls ≠ [] ∧ urls.Nodup ∧ i < urls.length ∧ urls.getD i "" ∈ urls
          ∧ urls = candidateUrls (runCfg E events (init cfg srv loc))
          ∧ (connectWs false (runCfg E events (init cfg srv loc))).wsUrlIndex = i
          ∧ (connectWs false (runCfg E events (init cfg srv loc))).sockets
              = (runCfg E events (init cfg srv loc)).sockets
                ++ [(⟨urls.getD i "", .connecting, false, urls, true⟩ : Socket)])
      ∧ (connectTarget (runCfg E events (init cfg srv loc)) = none →
          ∀ throws, (connectWs throws (runCfg E events (init cfg srv loc))).sockets
            = (runCfg E events (init cfg srv loc)).sockets)
      ∧ (∀ sk ∈ (runCfg E events (init cfg srv loc)).sockets,
          sk.urls ≠ [] ∧ sk.urls.Nodup ∧ sk.url ∈ sk.urls)
      ∧ (runCfg asciiEngine [.ev (.start true false false), .ev (.wsClose 0),
            .ev (.timer 0 false), .ev (.wsClose 1)] abcInit).wsUrlIndex = 2
      ∧ attemptUrl (runCfg asciiEngine [.ev (.start true false false), .ev (.wsClose 0),
            .ev (.timer 0 false), .ev (.wsClose 1), .update shrinkPatch false,
            .ev (.timer 0 false)] abcInit) = some "ws://d.example/spots" := by
  refine ⟨?_, ?_, ?_, by decide!, by decide!⟩
  · intro urls i ht
    obtain ⟨h1, h2, h3, h4, -⟩ := connectTarget_valid _ urls i ht
    refine ⟨h2, h3, h4, getD_mem h4, h1, ?_, ?_⟩
    · rw [connectWs_at_target false _ urls i ht]
      rfl
    · rw [connectWs_at_target false _ urls i ht]
      rfl
  · intro ht throws
    exact (connectWs_no_target throws _ ht).1
  · have hinit : AttemptsInv (init cfg srv loc) := by
      intro sk hm
      simp [init] at hm
    exact runCfg_attempts E events _ hinit

/-! ### Render and the store -/

theorem render_spots (E : Engine) (h : Host) (now : Int) (s : State) :
    (render E h now s).1.spots
      = if reachesStore h s then (pruneSpots now s).spots else s.spots := by
  obtain ⟨f1, f2, f3⟩ := syncServerConfig_frame h.serverFlag h.wsThrows
    { s with renderPending := false }
  have f1' : (syncServerConfig h.serverFlag h.wsThrows { s with renderPending := false }).spots
      = s.spots := f1
  have f2' : (syncServerConfig h.serverFlag h.wsThrows { s with renderPending := false }).cfg
      = s.cfg := f2
  have f3' : (syncServerConfig h.serverFlag h.wsThrows { s with renderPending := false }).enabled
      = enabledAfterSync h.serverFlag s := f3
  have hp : (pruneSpots now
      (syncServerConfig h.serverFlag h.wsThrows { s with renderPending := false })).spots
      = (pruneSpots now s).spots := by
    rw [pruneSpots_spots, pruneSpots_spots, f1', f2']
  unfold render reachesStore
  cases hc : h.canvas
  · simp
  · cases ho : h.owrxReady
    · simp [scheduleRender_spots]
    · by_cases hz : h.cssW = 0 ∨ h.cssH = 0
      · simp [hz, f1']
      · cases he : enabledAfterSync h.serverFlag s
        · simp [hz, drawSpots, f3', he, f1']
        · simp only [Bool.not_true, Bool.false_eq_true, if_false, hz, decide_False,
            Bool.not_false, Bool.and_self, if_true, drawSpots, f3', he]
          split <;> exact hp

theorem render_cfg (E : Engine) (h : Host) (now : Int) (s : State) :
    (render E h now s).1.cfg = s.cfg := by
  obtain ⟨-, f2, -⟩ := syncServerConfig_frame h.serverFlag h.wsThrows
    { s with renderPending := false }
  have f2' : (syncServerConfig h.serverFlag h.wsThrows { s with renderPending := false }).cfg
      = s.cfg := f2
  simp only [render]
  split
  · rfl
  · split
    · exact scheduleRender_cfg _
    · split
      · exact f2'
      · simp only [drawSpots]
        split
        · exact f2'
        · split <;> exact (pruneSpots_cfg _ _).trans f2'

/-- C19, counterexample. A render tick that returns early does not prune: with
one spot 1000 s old in the store (bound 300 s), a tick on a canvas of zero
width, and a tick on which the server reports the overlay off, both leave the
spot in the store, while `pruneSpots` at that time empties the store. -/
theorem render_early_return_keeps_stale :
    (pruneSpots sampleNow (withSpots [expiredSpot])).spots = []
      ∧ (render asciiEngine collapsedHost sampleNow (withSpots [expiredSpot])).1.spots
          = [expiredSpot]
      ∧ (render asciiEngine serverOffHost sampleNow (withSpots [expiredSpot])).1.spots
          = [expiredSpot] := by
  refine ⟨by decide!, by decide!, by decide!⟩

/-- C19, amended. For every store content and time `now`, the store after a
render tick at `now` equals `pruneSpots(now)` applied to the store before it
when the tick gets past its early returns (canvas present, page ready, canvas
of non-zero size, overlay enabled after the server flag was read), and equals
the store before it otherwise. In both cases it is a sublist of the store
before it (same spot values, insertion order kept, none added), the
configuration is unchanged, and the spots the loop visits are the stable
descending-time sort of the pruned store, which is a separate list: a tick on
the store [expired, stale, fresh] leaves [stale, fresh] in the store and
visits fresh before stale. -/
theorem render_store_frame (E : Engine) (h : Host) (now : Int) (s : State) :
    (render E h now s).1.spots
        = (if reachesStore h s then (pruneSpots now s).spots else s.spots)
      ∧ (pruneSpots now s).spots
          = s.spots.filter (fun sp => decide (now - sp.time ≤ s.cfg.max_age_sec))
      ∧ (render E h now s).1.spots.Sublist s.spots
      ∧ (render E h now s).1.cfg = s.cfg
      ∧ (render E h now s).2.map Prod.fst
          = (if reachesStore h s then sortSpots (pruneSpots now s).spots else [])
      ∧ (sortSpots (pruneSpots now s).spots).Perm (pruneSpots now s).spots
      ∧ (render asciiEngine sampleHost sampleNow
            (withSpots [expiredSpot, staleSpot, freshSpot])).1.spots = [staleSpot, freshSpot]
      ∧ (render asciiEngine sampleHost sampleNow
            (withSpots [expiredSpot, staleSpot, freshSpot])).2.map Prod.fst
          = [freshSpot, staleSpot] := by
  refine ⟨render_spots E h now s, pruneSpots_spots now s, ?_, render_cfg E h now s, ?_, ?_,
    by decide!, by decide!⟩
  · rw [render_spots]
    split
    · rw [pruneSpots_spots]
      exact List.filter_sublist _
    · exact List.Sublist.refl _
  · rw [render_outcomes]
    split
    · rw [renderStore, renderLoop_map_fst, pruneSpots_spots]
    · rfl
  · exact List.perm_insertionSort _ _

/-! ### Vertical fit and first-fit placement -/

theorem laneFits_mono (clipH : ℚ) {l l' : Nat} (hl : l ≤ l') (h : laneFits clipH l' = true) :
    laneFits clipH l = true := by
  unfold laneFits at *
  have h1 : 6 + 20 * (l' : ℚ) + 16 ≤ clipH - 4 := of_decide_eq_true h
  have h2 : (l : ℚ) ≤ (l' : ℚ) := by exact_mod_cast hl
  exact decide_eq_true (by linarith)

theorem laneFits_iff (clipH : ℚ) (l : Nat) :
    laneFits clipH l = true ↔ ¬ (6 + (l : ℚ) * (labelH + 4) + labelH > clipH - 4) := by
  unfold laneFits labelH
  rw [decide_eq_true_iff, not_lt]
  constructor <;> intro h <;> linarith

theorem findFitLane_none (clipH X W : ℚ) (lanes : Nat → List Interval) (n : Nat) :
    ∀ l, laneFits clipH l = false → findFitLane clipH X W lanes n l = none := by
  induction n with
  | zero => intro l _; rfl
  | succ n ih =>
      intro l hl
      have hl1 : laneFits clipH (l + 1) = false := by
        cases hf : laneFits clipH (l + 1)
        · rfl
        · rw [laneFits_mono clipH (Nat.le_succ l) hf] at hl
          exact absurd hl (by simp)
      simp only [findFitLane]
      rw [if_neg (by rw [hl]; simp)]
      exact ih (l + 1) hl1

theorem findFitLane_eq (clipH X W : ℚ) (lanes lanes' : Nat → List Interval)
    (hag : ∀ l, laneFits clipH l = true → lanes l = lanes' l) (n : Nat) :
    ∀ l, findFitLane clipH X W lanes' n l
      = (findLane X W lanes n l).bind (fun l0 => if laneFits clipH l0 then some l0 else none) := by
  induction n with
  | zero => intro l; rfl
  | succ n ih =>
      intro l
      simp only [findFitLane, findLane]
      cases hf : laneFits clipH l
      · rw [if_neg (by simp)]
        by_cases ho : overlapsLane X W (lanes l) = true
        · rw [if_pos ho]
          exact ih (l + 1)
        · rw [if_neg ho]
          simp only [Option.some_bind, hf, Bool.false_eq_true, if_false]
          have hl1 : laneFits clipH (l + 1) = false := by
            cases hf1 : laneFits clipH (l + 1)
            · rfl
            · rw [laneFits_mono clipH (Nat.le_succ l) hf1] at hf
              exact absurd hf (by simp)
          exact findFitLane_none clipH X W lanes' n (l + 1) hl1
      · rw [← hag l hf]
        by_cases ho : overlapsLane X W (lanes l) = true
        · rw [if_pos ho, if_neg (by rw [ho]; simp)]
          exact ih (l + 1)
        · rw [if_neg ho]
          have ho' : overlapsLane X W (lanes l) = false := by
            cases hh : overlapsLane X W (lanes l)
            · rfl
            · exact absurd hh ho
          rw [if_pos ⟨rfl, ho'⟩]
          simp [hf]


theorem pushInterval_agree (clipH : ℚ) (lanes lanes' : Nat → List Interval) (lane : Nat)
    (r : Interval) (hag : ∀ l, laneFits clipH l = true → lanes l = lanes' l)
    (hf : laneFits clipH lane = true) :
    ∀ l, laneFits clipH l = true → pushInterval lanes lane r l = pushInterval lanes' lane r l := by
  intro l hl
  unfold pushInterval
  rw [hag l hl, hag lane hf]

theorem pushInterval_skip (clipH : ℚ) (lanes lanes' : Nat → List Interval) (lane : Nat)
    (r : Interval) (hag : ∀ l, laneFits clipH l = true → lanes l = lanes' l)
    (hf : laneFits clipH lane = false) :
    ∀ l, laneFits clipH l = true → pushInterval lanes lane r l = lanes' l := by
  intro l hl
  unfold pushInterval
  have hne : l ≠ lane := by
    rintro rfl
    rw [hl] at hf
    exact absurd hf (by simp)
  rw [if_neg hne]
  exact hag l hl

/-- One loop step: from states that agree on the fitting lanes, the source
step and the restricted step draw the same thing and again agree. -/
theorem renderSpot_fit (E : Engine) (h : Host) (cfg : Cfg) (now : Int) (st st' : LoopState)
    (spot : Spot) (hag : FitAgree h.clipH st st') :
    (renderSpot E h cfg now st spot).2 = (renderSpotFit E h cfg now st' spot).2
      ∧ FitAgree h.clipH (renderSpot E h cfg now st spot).1
          (renderSpotFit E h cfg now st' spot).1 := by
  obtain ⟨hc, hl⟩ := hag
  unfold renderSpot renderSpotFit
  by_cases hm : ¬ classifyMode E (some spot.mode) ∈ cfg.modes
  · rw [if_pos hm, if_pos hm]
    exact ⟨rfl, hc, hl⟩
  rw [if_neg hm, if_neg hm]
  cases hx : h.frequencyToX spot.freq with
  | none => exact ⟨rfl, hc, hl⟩
  | some x =>
      dsimp only
      by_cases h1 : x < -2 ∨ x > h.clipW + 2
      · rw [if_pos h1, if_pos h1]
        exact ⟨rfl, hc, hl⟩
      rw [if_neg h1, if_neg h1]
      by_cases h2 : max 0 (1 - ((max 0 (now - spot.time) : Int) : ℚ) / (cfg.max_age_sec : ℚ)) ≤ 0
      · rw [if_pos h2, if_pos h2]
        exact ⟨rfl, hc, hl⟩
      rw [if_neg h2, if_neg h2, ← hc]
      by_cases h3 : st.labelCount ≥ maxLabels
      · rw [if_pos h3, if_pos h3]
        exact ⟨rfl, hc, hl⟩
      rw [if_neg h3, if_neg h3]
      by_cases h4 : spot.call = ""
      · rw [if_pos h4, if_pos h4]
        exact ⟨rfl, hc, hl⟩
      rw [if_neg h4, if_neg h4]
      by_cases h5 : max 2 (min (h.cssW - ((⌈h.textWidth spot.call⌉ : ℚ) + 12) - 2) (x + 4))
          + ((⌈h.textWidth spot.call⌉ : ℚ) + 12) > h.clipW
      · rw [if_pos h5, if_pos h5]
        exact ⟨rfl, hc, hl⟩
      rw [if_neg h5, if_neg h5, findFitLane_eq h.clipH _ _ st.labelLanes st'.labelLanes hl]
      cases hfl : findLane (max 2 (min (h.cssW - ((⌈h.textWidth spot.call⌉ : ℚ) + 12) - 2) (x + 4)))
          ((⌈h.textWidth spot.call⌉ : ℚ) + 12) st.labelLanes maxLanes 0 with
      | none => exact ⟨rfl, hc, hl⟩
      | some lane =>
          dsimp only [Option.some_bind]
          cases hf : laneFits h.clipH lane
          · have hv : 6 + (lane : ℚ) * (labelH + 4) + labelH > h.clipH - 4 := by
              by_contra hcon
              rw [(laneFits_iff h.clipH lane).mpr hcon] at hf
              exact absurd hf (by simp)
            rw [if_pos hv, if_neg (by simp)]
            exact ⟨rfl, hc, pushInterval_skip h.clipH _ _ lane _ hl hf⟩
          · have hv : ¬ (6 + (lane : ℚ) * (labelH + 4) + labelH > h.clipH - 4) :=
              (laneFits_iff h.clipH lane).mp hf
            rw [if_neg hv, if_pos rfl]
            exact ⟨rfl, by rw [hc], pushInterval_agree h.clipH _ _ lane _ hl hf⟩

theorem renderLoop_fit (E : Engine) (h : Host) (cfg : Cfg) (now : Int) (spots : List Spot) :
    ∀ st st' : LoopState, FitAgree h.clipH st st' →
      renderLoop E h cfg now st spots = renderLoopFit E h cfg now st' spots := by
  induction spots with
  | nil => intro st st' _; rfl
  | cons spot rest ih =>
      intro st st' hag
      obtain ⟨h1, h2⟩ := renderSpot_fit E h cfg now st st' spot hag
      simp only [renderLoop, renderLoopFit]
      rw [h1, ih _ _ h2]


/-- C20. What a render tick draws (for every spot: nothing, the tick, or the
label with its lane and interval) equals the result of first-fit placement
restricted to the lanes that fit vertically, where lane `l` fits when
`6 + 20*l + 16 <= clipH - 4`, which is the negation of the source test
`labelY + labelH > clipH - 4`; in the restricted placement a skipped label
records no interval. So the intervals that `render` records for labels it then
skips never change what is drawn. On a page where only lane 0 fits, the label
skipped into lane 1 does not keep a later label that touches only its interval
out of lane 0. -/
theorem render_first_fit_refinement (E : Engine) (h : Host) (now : Int) (s : State) :
    (render E h now s).2
        = (if reachesStore h s then renderStoreFit E h s.cfg now s.spots else [])
      ∧ (∀ cfg spots, renderLoop E h cfg now LoopState.empty spots
          = renderLoopFit E h cfg now LoopState.empty spots)
      ∧ (∀ l : Nat, laneFits h.clipH l = true
          ↔ ¬ (6 + (l : ℚ) * (labelH + 4) + labelH > h.clipH - 4))
      ∧ (render asciiEngine lowHost sampleNow
            (withSpots [edgeSpot, staleSpot, freshSpot])).2.map
            (fun e => (e.1.call, e.2.labelOf))
          = [("NEW1A", some (0, 104, 47)), ("OLD2B", none), ("EDG5E", some (0, 152, 47))]
      ∧ (renderStoreFit asciiEngine lowHost sampleCfg sampleNow
            [edgeSpot, staleSpot, freshSpot]).map (fun e => (e.1.call, e.2.labelOf))
          = [("NEW1A", some (0, 104, 47)), ("OLD2B", none), ("EDG5E", some (0, 152, 47))]
      ∧ ((renderSpot asciiEngine lowHost sampleCfg sampleNow
            (renderSpot asciiEngine lowHost sampleCfg sampleNow LoopState.empty freshSpot).1
            staleSpot).1.labelLanes 1) = [⟨105, 152⟩] := by
  have hloop : ∀ cfg spots, renderLoop E h cfg now LoopState.empty spots
      = renderLoopFit E h cfg now LoopState.empty spots :=
    fun cfg spots => renderLoop_fit E h cfg now spots _ _ ⟨rfl, fun _ _ => rfl⟩
  refine ⟨?_, hloop, laneFits_iff h.clipH, by decide!, by decide!, by decide!⟩
  rw [render_outcomes]
  split
  · rw [renderStore, renderStoreFit, hloop]
  · rfl

end Spider
